import Mathlib

/-!
Verification of the LAMMPS data-file assembly and codec core
(pymatgen/io/lammps/data.py).

The Python source is shallowly embedded: Python dicts become association
lists with insertion-order semantics, Python floats become exact rationals,
fallible attribute access becomes Option/Except, and the mutable-counter
loops become folds.  Each definition mirrors one function (or a named
fragment) of the source file.
-/

/-! ## Association lists with Python dict semantics -/

/-- First-match association lookup, the model of a Python dict read. -/
def alookup {α β : Type} [DecidableEq α] : List (α × β) → α → Option β
  | [], _ => none
  | (k, v) :: rest, a => if k = a then some v else alookup rest a

/-- Python dict assignment: overwrite the value in place if the key exists
(keeping its insertion position), otherwise append the new binding. -/
def dictInsert {α β : Type} [DecidableEq α] : List (α × β) → α → β → List (α × β)
  | [], a, b => [(a, b)]
  | (k, v) :: rest, a, b =>
      if k = a then (k, b) :: rest else (k, v) :: dictInsert rest a b

theorem alookup_append {α β : Type} [DecidableEq α] (l₁ l₂ : List (α × β)) (a : α) :
    alookup (l₁ ++ l₂) a =
      (alookup l₁ a).elim (alookup l₂ a) some := by
  induction l₁ with
  | nil => simp [alookup]
  | cons p rest ih =>
      obtain ⟨k, v⟩ := p
      by_cases h : k = a <;> simp [alookup, h, ih]

theorem alookup_eq_none_of_not_mem {α β : Type} [DecidableEq α]
    (l : List (α × β)) (a : α) (h : a ∉ l.map Prod.fst) : alookup l a = none := by
  induction l with
  | nil => rfl
  | cons p rest ih =>
      obtain ⟨k, v⟩ := p
      simp only [List.map_cons, List.mem_cons] at h
      push_neg at h
      have hk : ¬ k = a := fun hk => h.1 hk.symm
      simp [alookup, hk, ih h.2]

/-! ## Data model

A site of the assembled molecule: chemical symbol, optional force-field
label (Python: presence of the dynamic attribute ff_map), atomic mass and
Cartesian coordinates. -/

structure Site where
  symbol : String
  ff_map : Option String
  mass : ℚ
  x : ℚ
  y : ℚ
  z : ℚ
deriving DecidableEq

/-- One bonded-term entry of a topology table: the local atom indices
(Python: param[:-1]) followed by the species-label key (Python: param[-1]). -/
structure TopoEntry where
  atoms : List ℕ
  label : List String
deriving DecidableEq

/-- A Topology object.  Each bonded-term category and the per-atom charge
list are optional, modelling Python hasattr on the dynamic attributes. -/
structure Topology where
  charges : Option (List ℚ) := none
  bonds : Option (List TopoEntry) := none
  angles : Option (List TopoEntry) := none
  dihedrals : Option (List TopoEntry) := none
  imdihedrals : Option (List TopoEntry) := none
deriving DecidableEq

/-- Python getattr(topology, param_name) for the four bonded categories;
none models an absent attribute. -/
def Topology.getCat (t : Topology) (param_name : String) : Option (List TopoEntry) :=
  if param_name = "bonds" then t.bonds
  else if param_name = "angles" then t.angles
  else if param_name = "dihedrals" then t.dihedrals
  else if param_name = "imdihedrals" then t.imdihedrals
  else none

/-- A force-field parameter key (an ordered tuple of species labels). -/
abbrev ParamKey := List String

/-- A ForceField object: one optional ordered parameter mapping (key to
coefficient-value tuple) per category.  none models an absent attribute. -/
structure ForceField where
  pairs : Option (List (ParamKey × List ℚ)) := none
  bonds : Option (List (ParamKey × List ℚ)) := none
  angles : Option (List (ParamKey × List ℚ)) := none
  dihedrals : Option (List (ParamKey × List ℚ)) := none
  imdihedrals : Option (List (ParamKey × List ℚ)) := none
deriving DecidableEq

/-- Python getattr(forcefield, param_name); none models hasattr = False. -/
def ForceField.getP (ff : ForceField) (param_name : String) :
    Option (List (ParamKey × List ℚ)) :=
  if param_name = "pairs" then ff.pairs
  else if param_name = "bonds" then ff.bonds
  else if param_name = "angles" then ff.angles
  else if param_name = "dihedrals" then ff.dihedrals
  else if param_name = "imdihedrals" then ff.imdihedrals
  else none

/-! ## LammpsForceFieldData.get_param_coeff (data.py lines 420-452) -/

/-- The atom-type table: label to (1-based atom-type id, mass),
insertion-ordered, the model of atomic_masses_dict. -/
abbrev AtomTypesMap := List (String × (ℕ × ℚ))

/-- LammpsForceFieldData.get_param_coeff.  For the pair category each
entry keeps the id atom_types_map[key[0]][0] and the table is sorted by
that id (Python sorted is stable; insertionSort is the stable sort used
here); otherwise ids are assigned 1.. in iteration order and the key map
records them.  An absent attribute raises AttributeError, modelled by
Except.error.  The getD defaults stand in for Python KeyError / IndexError
paths; the theorems below assume those lookups succeed. -/
def get_param_coeff (forcefield : ForceField) (param_name : String)
    (atom_types_map : AtomTypesMap) :
    Except Unit (List (ℕ × List ℚ) × List (ParamKey × ℕ)) :=
  match forcefield.getP param_name with
  | none => Except.error ()
  | some param =>
      if param_name = "pairs" then
        let param_coeffs := param.map fun item =>
          (((alookup atom_types_map (item.1.getD 0 "")).getD (0, 0)).1, item.2)
        Except.ok (param_coeffs.insertionSort (fun a b => a.1 ≤ b.1), [])
      else if param ≠ [] then
        Except.ok
          (param.enum.map (fun it => (it.1 + 1, it.2.2)),
           param.enum.foldl (fun acc it => dictInsert acc it.2.1 (it.1 + 1)) [])
      else
        Except.ok ([], [])

/-! ## The bonded-term key resolution fragment (data.py lines 575-582) -/

/-- The forward-then-reversed key lookup used by get_param_data: look the
label tuple up in param_map, and if absent look up its reverse. -/
def resolve_param_key (param_map : List (ParamKey × ℕ)) (key : ParamKey) : Option ℕ :=
  match alookup param_map key with
  | some i => some i
  | none => alookup param_map key.reverse

/-! ## Helper lemmas about dictInsert folds -/

theorem dictInsert_fresh {α β : Type} [DecidableEq α] (l : List (α × β)) (a : α) (b : β)
    (h : a ∉ l.map Prod.fst) : dictInsert l a b = l ++ [(a, b)] := by
  induction l with
  | nil => rfl
  | cons p rest ih =>
      obtain ⟨k, v⟩ := p
      simp only [List.map_cons, List.mem_cons] at h
      push_neg at h
      have hk : ¬ k = a := fun hk => h.1 hk.symm
      simp [dictInsert, hk, ih h.2]

theorem foldl_dictInsert_fresh {α β γ : Type} [DecidableEq α]
    (key : γ → α) (val : γ → β) :
    ∀ (l : List γ) (acc : List (α × β)),
      (l.map key).Nodup → (∀ g ∈ l, key g ∉ acc.map Prod.fst) →
      l.foldl (fun acc g => dictInsert acc (key g) (val g)) acc =
        acc ++ l.map (fun g => (key g, val g)) := by
  intro l
  induction l with
  | nil => intro acc _ _; simp
  | cons g rest ih =>
      intro acc hnd hfresh
      simp only [List.map_cons, List.nodup_cons] at hnd
      simp only [List.foldl_cons]
      rw [dictInsert_fresh acc (key g) (val g) (hfresh g (List.mem_cons_self g rest))]
      rw [ih (acc ++ [(key g, val g)]) hnd.2]
      · simp
      · intro g2 hg2
        simp only [List.map_append, List.mem_append, List.map_cons, List.map_nil,
          List.mem_singleton]
        push_neg
        constructor
        · exact hfresh g2 (List.mem_cons_of_mem g hg2)
        · intro hkey
          exact hnd.1 (hkey ▸ List.mem_map_of_mem key hg2)

theorem alookup_enumFrom_map {β : Type} (param : List (ParamKey × β))
    (hnd : (param.map Prod.fst).Nodup) :
    ∀ (n pos : ℕ) (hpos : pos < param.length),
      alookup ((param.enumFrom n).map fun it => (it.2.1, it.1 + 1))
          (param.get ⟨pos, hpos⟩).1 = some (n + pos + 1) := by
  induction param with
  | nil => intro n pos hpos; exact absurd hpos (Nat.not_lt_zero pos)
  | cons p rest ih =>
      intro n pos hpos
      simp only [List.map_cons, List.nodup_cons] at hnd
      match pos with
      | 0 => simp [alookup, List.enumFrom]
      | pos + 1 =>
          have hmem : (rest.get ⟨pos, Nat.lt_of_succ_lt_succ hpos⟩).1 ∈
              rest.map Prod.fst :=
            List.mem_map_of_mem Prod.fst (rest.get_mem _ _)
          have hne : ¬ p.1 = (rest.get ⟨pos, Nat.lt_of_succ_lt_succ hpos⟩).1 :=
            fun h => hnd.1 (h ▸ hmem)
          have := ih hnd.2 (n + 1) pos (Nat.lt_of_succ_lt_succ hpos)
          simp only [List.enumFrom, List.map_cons, alookup, List.get_cons_succ]
          rw [if_neg hne]
          rw [this]
          congr 1
          omega

/-! ## Claim C5: symmetry of the forward-then-reverse key resolution -/

/-- C5 counterexample: the claim states that whenever (a,b) or (b,a) is
present in the key-to-id map, resolving (a,b) and resolving (b,a) yield
the identical type id.  With a map containing both orderings under
different ids — which get_param_coeff happily produces from a force field
listing both — the two resolutions differ. -/
theorem C5_counterexample :
    resolve_param_key [(["A", "B"], 1), (["B", "A"], 2)] ["A", "B"] = some 1 ∧
    resolve_param_key [(["A", "B"], 1), (["B", "A"], 2)] ["B", "A"] = some 2 ∧
    (1 : ℕ) ≠ 2 := by
  refine ⟨?_, ?_, by decide⟩ <;> rfl

/-- C5 (amended): a parameter key and its reverse resolve to the identical
type id whenever either is present in the key-to-id map, provided the map
does not contain both orderings under different ids. -/
theorem C5_theorem (m : List (ParamKey × ℕ)) (k : ParamKey)
    (hpres : (alookup m k).isSome ∨ (alookup m k.reverse).isSome)
    (hcons : ∀ i j, alookup m k = some i → alookup m k.reverse = some j → i = j) :
    resolve_param_key m k = resolve_param_key m k.reverse := by
  unfold resolve_param_key
  rw [List.reverse_reverse]
  cases hf : alookup m k with
  | some i =>
      cases hr : alookup m k.reverse with
      | some j => exact congrArg some (hcons i j hf hr)
      | none => rfl
  | none =>
      cases hr : alookup m k.reverse with
      | some j => rfl
      | none => simp [hf, hr] at hpres

/-- C5 witness: the amended theorem applied at a concrete map holding only
the forward ordering. -/
theorem C5_witness :
    resolve_param_key [(["A", "B"], 7)] ["A", "B"] =
      resolve_param_key [(["A", "B"], 7)] ["B", "A"] :=
  C5_theorem [(["A", "B"], 7)] ["A", "B"] (Or.inl (by decide))
    (by
      intro i j _ hj
      have hnone : alookup [(["A", "B"], 7)] (["A", "B"] : ParamKey).reverse = none := by
        decide
      rw [hnone] at hj
      exact absurd hj (by simp))

/-! ## Claims C6 and C8: coefficient table builder -/

instance : IsTotal (ℕ × List ℚ) (fun a b => a.1 ≤ b.1) :=
  ⟨fun a b => Nat.le_total a.1 b.1⟩

instance : IsTrans (ℕ × List ℚ) (fun a b => a.1 ≤ b.1) :=
  ⟨fun _ _ _ => Nat.le_trans⟩

/-- C6: for the pair category (given each key's first element is in the
atom-type lookup) every emitted entry carries the id
atom_type_lookup[key[0]], the table is sorted ascending by that id, and
the returned key-to-id map is empty; for every other category, entries
get ids 1, 2, ... in input-iteration order and the key-to-id map sends
each input key to its assigned id. -/
theorem C6_theorem (ff : ForceField) (atm : AtomTypesMap)
    (plist : List (ParamKey × List ℚ)) (hp : ff.pairs = some plist)
    (hne : ∀ item ∈ plist, item.1 ≠ [])
    (hmem : ∀ item ∈ plist, (alookup atm (item.1.getD 0 "")).isSome) :
    (∃ tbl, get_param_coeff ff "pairs" atm = Except.ok (tbl, []) ∧
      tbl.Perm (plist.map fun item =>
        (((alookup atm (item.1.getD 0 "")).getD (0, 0)).1, item.2)) ∧
      tbl.Sorted (fun a b => a.1 ≤ b.1)) ∧
    (∀ name ∈ (["bonds", "angles", "dihedrals", "imdihedrals"] : List String),
      ∀ qlist, ff.getP name = some qlist → (qlist.map Prod.fst).Nodup →
        ∃ tbl kmap, get_param_coeff ff name atm = Except.ok (tbl, kmap) ∧
          tbl.map Prod.fst = List.range' 1 qlist.length ∧
          tbl.map Prod.snd = qlist.map Prod.snd ∧
          ∀ (pos : ℕ) (hpos : pos < qlist.length),
            alookup kmap (qlist.get ⟨pos, hpos⟩).1 = some (pos + 1)) := by
  constructor
  · refine ⟨(plist.map fun item =>
      (((alookup atm (item.1.getD 0 "")).getD (0, 0)).1, item.2)).insertionSort
        (fun a b => a.1 ≤ b.1), ?_, ?_, ?_⟩
    · unfold get_param_coeff ForceField.getP
      rw [if_pos rfl, hp]
      dsimp only
      rw [if_pos rfl]
    · exact List.perm_insertionSort _ _
    · exact List.sorted_insertionSort _ _
  · intro name hname qlist hq hnd
    have hkeys : (qlist.enum.map fun it => it.2.1) = qlist.map Prod.fst := by
      rw [show (fun it : ℕ × ParamKey × List ℚ => it.2.1) =
        Prod.fst ∘ Prod.snd from rfl]
      rw [← List.map_map, List.enum_map_snd]
    have hmap : qlist.enum.foldl (fun acc it => dictInsert acc it.2.1 (it.1 + 1)) [] =
        qlist.enum.map (fun it => (it.2.1, it.1 + 1)) := by
      rw [foldl_dictInsert_fresh (fun it => it.2.1) (fun it => it.1 + 1)
        qlist.enum [] (hkeys ▸ hnd) (by intro g _; simp)]
      rfl
    refine ⟨qlist.enum.map (fun it => (it.1 + 1, it.2.2)),
      qlist.enum.map (fun it => (it.2.1, it.1 + 1)), ?_, ?_, ?_, ?_⟩
    · have hnp : name ≠ "pairs" := by
        simp only [List.mem_cons, List.not_mem_nil, or_false] at hname
        rcases hname with h | h | h | h <;> subst h <;> decide
      unfold get_param_coeff
      rw [hq]
      dsimp only
      rw [if_neg hnp]
      by_cases hq0 : qlist = []
      · subst hq0
        simp
      · rw [if_pos hq0, hmap]
    · calc (qlist.enum.map fun it => (it.1 + 1, it.2.2)).map Prod.fst
          = (qlist.enum.map Prod.fst).map (· + 1) := by
            rw [List.map_map, List.map_map]; rfl
        _ = (List.range qlist.length).map (· + 1) := by rw [List.enum_map_fst]
        _ = List.range' 1 qlist.length := by
            rw [List.range'_eq_map_range]; simp [Nat.add_comm]
    · calc (qlist.enum.map fun it => (it.1 + 1, it.2.2)).map Prod.snd
          = (qlist.enum.map Prod.snd).map Prod.snd := by
            rw [List.map_map, List.map_map]; rfl
        _ = qlist.map Prod.snd := by rw [List.enum_map_snd]
    · intro pos hpos
      have := alookup_enumFrom_map qlist hnd 0 pos hpos
      simpa [List.enum] using this

/-- C6 witness: the theorem applied to a concrete force field with one
pair entry and one bond entry. -/
theorem C6_witness :
    ∃ tbl, get_param_coeff
      { pairs := some [(["A"], [5])], bonds := some [(["A", "B"], [2])] }
      "pairs" [("A", (1, 12))] = Except.ok (tbl, []) := by
  obtain ⟨tbl, h1, -, -⟩ :=
    (C6_theorem { pairs := some [(["A"], [5])], bonds := some [(["A", "B"], [2])] }
      [("A", (1, 12))] [(["A"], [5])] rfl (by decide) (by decide)).1
  exact ⟨tbl, h1⟩

/-- C8: requesting a coefficient category the force-field object does not
expose raises a configuration error (AttributeError), while an exposed but
empty parameter mapping yields an empty coefficient table and an empty
key-to-id map without error. -/
theorem C8_theorem (ff : ForceField) (atm : AtomTypesMap) (name : String) :
    (ff.getP name = none → get_param_coeff ff name atm = Except.error ()) ∧
    (ff.getP name = some [] → get_param_coeff ff name atm = Except.ok ([], [])) := by
  constructor
  · intro h
    unfold get_param_coeff
    rw [h]
  · intro h
    unfold get_param_coeff
    rw [h]
    dsimp only
    by_cases hn : name = "pairs"
    · rw [if_pos hn]
      rfl
    · rw [if_neg hn]
      simp

/-- C8 witness: a force field exposing only an empty pairs mapping errors
on bonds and yields empty tables on pairs. -/
theorem C8_witness :
    get_param_coeff { pairs := some [] } "bonds" [] = Except.error () ∧
    get_param_coeff { pairs := some [] } "pairs" [] = Except.ok ([], []) :=
  ⟨(C8_theorem { pairs := some [] } [] "bonds").1 rfl,
   (C8_theorem { pairs := some [] } [] "pairs").2 rfl⟩

/-! ## LammpsForceFieldData.get_basic_system_info (data.py lines 405-418) -/

/-- The per-site label: str(site.ff_map) when the molecule-level hasattr
check succeeded, else the species symbol.  When hff is true but a site
lacks ff_map, Python raises AttributeError; the getD default stands in
and the theorems assume that case away. -/
def site_label (hff : Bool) (s : Site) : String :=
  if hff then s.ff_map.getD s.symbol else s.symbol

/-- The hasattr(molecule[0], "ff_map") check of the source. -/
def first_has_ff_map (molecule : List Site) : Bool :=
  match molecule.head? with
  | some s => s.ff_map.isSome
  | none => false

/-- The elements dict of get_basic_system_info: label to atomic mass,
insertion-ordered with overwrite-in-place semantics. -/
def elements_dict (molecule : List Site) : List (String × ℚ) :=
  molecule.foldl
    (fun acc s => dictInsert acc (site_label (first_has_ff_map molecule) s) s.mass) []

instance : IsTotal (String × ℚ) (fun a b => a.2 ≤ b.2) :=
  ⟨fun a b => le_total a.2 b.2⟩

instance : IsTrans (String × ℚ) (fun a b => a.2 ≤ b.2) :=
  ⟨fun _ _ _ => le_trans⟩

/-- LammpsForceFieldData.get_basic_system_info: number of atoms, number
of distinct atom types, and the atom-type table (label to (1-based id,
mass)) sorted ascending by mass (Python sorted is stable; insertionSort
is the stable sort used here). -/
def lffd_get_basic_system_info (molecule : List Site) : ℕ × ℕ × AtomTypesMap :=
  let natoms := molecule.length
  let hff := first_has_ff_map molecule
  let natom_types := ((molecule.map (site_label hff)).dedup).length
  let elements_items :=
    (elements_dict molecule).insertionSort (fun a b => a.2 ≤ b.2)
  (natoms, natom_types,
    elements_items.enum.map (fun it => (it.2.1, (it.1 + 1, it.2.2))))

/-! ## Dict-fold bookkeeping lemmas (keys, member provenance, order) -/

theorem dictInsert_keys {α β : Type} [DecidableEq α] (l : List (α × β)) (a : α) (b : β) :
    (dictInsert l a b).map Prod.fst =
      if a ∈ l.map Prod.fst then l.map Prod.fst else l.map Prod.fst ++ [a] := by
  induction l with
  | nil => simp [dictInsert]
  | cons p rest ih =>
      obtain ⟨k, v⟩ := p
      by_cases h : k = a
      · subst h
        simp [dictInsert]
      · have hak : ¬ a = k := fun hak => h hak.symm
        simp only [dictInsert, if_neg h, List.map_cons, ih, List.mem_cons]
        by_cases hm : a ∈ rest.map Prod.fst
        · simp [hm, hak]
        · simp [hm, hak]

theorem mem_dictInsert {α β : Type} [DecidableEq α] (l : List (α × β)) (a : α) (b : β)
    (p : α × β) : p ∈ dictInsert l a b → p ∈ l ∨ p = (a, b) := by
  induction l with
  | nil =>
      intro hp
      simpa [dictInsert] using hp
  | cons q rest ih =>
      obtain ⟨k, v⟩ := q
      intro hp
      by_cases h : k = a
      · subst h
        rw [show dictInsert ((k, v) :: rest) k b =
          if k = k then (k, b) :: rest else (k, v) :: dictInsert rest k b from rfl,
          if_pos rfl] at hp
        rcases List.mem_cons.mp hp with h1 | h1
        · exact Or.inr h1
        · exact Or.inl (List.mem_cons_of_mem _ h1)
      · rw [show dictInsert ((k, v) :: rest) a b =
          if k = a then (k, b) :: rest else (k, v) :: dictInsert rest a b from rfl,
          if_neg h] at hp
        rcases List.mem_cons.mp hp with h1 | h1
        · exact Or.inl (List.mem_cons.mpr (Or.inl h1))
        · rcases ih h1 with h2 | h2
          · exact Or.inl (List.mem_cons_of_mem _ h2)
          · exact Or.inr h2

/-- The "append if new" evolution of the key list of a dict. -/
def addNew {α : Type} [DecidableEq α] (ks : List α) (k : α) : List α :=
  if k ∈ ks then ks else ks ++ [k]

theorem dict_fold_keys {α β γ : Type} [DecidableEq α] (key : γ → α) (val : γ → β) :
    ∀ (l : List γ) (acc : List (α × β)),
      ((l.foldl (fun acc g => dictInsert acc (key g) (val g)) acc).map Prod.fst) =
        l.foldl (fun ks g => addNew ks (key g)) (acc.map Prod.fst) := by
  intro l
  induction l with
  | nil => intro acc; rfl
  | cons g rest ih =>
      intro acc
      simp only [List.foldl_cons]
      rw [ih]
      congr 1
      rw [dictInsert_keys, addNew]

theorem dict_fold_mem {α β γ : Type} [DecidableEq α] (key : γ → α) (val : γ → β) :
    ∀ (l : List γ) (acc : List (α × β)) (p : α × β),
      p ∈ l.foldl (fun acc g => dictInsert acc (key g) (val g)) acc →
      p ∈ acc ∨ ∃ g ∈ l, p = (key g, val g) := by
  intro l
  induction l with
  | nil => intro acc p hp; exact Or.inl hp
  | cons g rest ih =>
      intro acc p hp
      simp only [List.foldl_cons] at hp
      rcases ih (dictInsert acc (key g) (val g)) p hp with h1 | h1
      · rcases mem_dictInsert _ _ _ _ h1 with h2 | h2
        · exact Or.inl h2
        · exact Or.inr ⟨g, List.mem_cons_self g rest, h2⟩
      · obtain ⟨g2, hg2, he⟩ := h1
        exact Or.inr ⟨g2, List.mem_cons_of_mem g hg2, he⟩

theorem addNew_fold_nodup {α : Type} [DecidableEq α] :
    ∀ (xs : List α) (ks : List α), ks.Nodup →
      (xs.foldl addNew ks).Nodup := by
  intro xs
  induction xs with
  | nil => intro ks h; exact h
  | cons x rest ih =>
      intro ks h
      simp only [List.foldl_cons]
      apply ih
      unfold addNew
      by_cases hx : x ∈ ks
      · simpa [hx]
      · simp only [if_neg hx]
        simpa [List.nodup_append] using ⟨h, hx⟩

theorem addNew_fold_mem {α : Type} [DecidableEq α] :
    ∀ (xs : List α) (ks : List α) (a : α),
      (a ∈ xs.foldl addNew ks ↔ a ∈ ks ∨ a ∈ xs) := by
  intro xs
  induction xs with
  | nil => intro ks a; simp
  | cons x rest ih =>
      intro ks a
      simp only [List.foldl_cons, ih, List.mem_cons]
      unfold addNew
      by_cases hx : x ∈ ks
      · simp only [if_pos hx]
        constructor
        · rintro (h | h)
          · exact Or.inl h
          · exact Or.inr (Or.inr h)
        · rintro (h | h | h)
          · exact Or.inl h
          · exact Or.inl (h ▸ hx)
          · exact Or.inr h
      · simp only [if_neg hx, List.mem_append, List.mem_singleton]
        tauto

theorem mem_addNew {α : Type} [DecidableEq α] (ks : List α) (k a : α) (h : a ∈ ks) :
    a ∈ addNew ks k := by
  unfold addNew
  by_cases hk : k ∈ ks
  · simpa [hk]
  · simp only [if_neg hk, List.mem_append]
    exact Or.inl h

theorem self_mem_addNew {α : Type} [DecidableEq α] (ks : List α) (k : α) :
    k ∈ addNew ks k := by
  unfold addNew
  by_cases hk : k ∈ ks
  · simpa [hk]
  · simp [if_neg hk]

/-- Invariant of the first-occurrence key accumulation: the accumulated
keys are pairwise ordered by their first-occurrence index in the ambient
label sequence. -/
theorem addNew_fold_indexOf {α : Type} [DecidableEq α] :
    ∀ (xs pre acc : List α),
      (∀ a ∈ acc, a ∈ pre) → (∀ b ∈ pre, b ∈ acc) →
      acc.Pairwise (fun a b => (pre ++ xs).indexOf a < (pre ++ xs).indexOf b) →
      (xs.foldl addNew acc).Pairwise
        (fun a b => (pre ++ xs).indexOf a < (pre ++ xs).indexOf b) := by
  intro xs
  induction xs with
  | nil =>
      intro pre acc _ _ hpw
      simpa using hpw
  | cons x rest ih =>
      intro pre acc hsub hsup hpw
      simp only [List.foldl_cons]
      rw [List.append_cons pre x rest]
      apply ih (pre ++ [x]) (addNew acc x)
      · intro a ha
        unfold addNew at ha
        by_cases hx : x ∈ acc
        · rw [if_pos hx] at ha
          exact List.mem_append.mpr (Or.inl (hsub a ha))
        · rw [if_neg hx] at ha
          rcases List.mem_append.mp ha with h1 | h1
          · exact List.mem_append.mpr (Or.inl (hsub a h1))
          · simp only [List.mem_singleton] at h1
            subst h1
            simp
      · intro b hb
        rcases List.mem_append.mp hb with h1 | h1
        · exact mem_addNew acc x b (hsup b h1)
        · simp only [List.mem_singleton] at h1
          subst h1
          exact self_mem_addNew acc b
      · rw [← List.append_cons pre x rest]
        unfold addNew
        by_cases hx : x ∈ acc
        · rw [if_pos hx]
          exact hpw
        · rw [if_neg hx]
          rw [List.pairwise_append]
          refine ⟨hpw, by simp, ?_⟩
          intro c hc y hy
          simp only [List.mem_singleton] at hy
          rw [hy]
          have hcpre : c ∈ pre := hsub c hc
          have hxpre : x ∉ pre := fun hmem => hx (hsup x hmem)
          rw [List.indexOf_append_of_mem hcpre,
            List.indexOf_append_of_not_mem hxpre, List.indexOf_cons_self]
          calc pre.indexOf c < pre.length := List.indexOf_lt_length.2 hcpre
            _ ≤ pre.length + 0 := by omega

/-- The head of a dropWhile run fails the predicate. -/
theorem dropWhile_head_false {α : Type} (p : α → Bool) :
    ∀ (l : List α) (x : α) (xs : List α), l.dropWhile p = x :: xs → p x = false := by
  intro l
  induction l with
  | nil => intro x xs h; cases h
  | cons y ys ih =>
      intro x xs h
      by_cases hy : p y
      · rw [List.dropWhile_cons_of_pos hy] at h
        exact ih x xs h
      · rw [List.dropWhile_cons_of_neg hy] at h
        cases h
        simpa using hy

/-- Stability of insertionSort by a mass key: if the input is strictly
ordered by an index function f, the output is pairwise ordered by the
lexicographic (mass, f) order.  This is the formal content of the Python
guarantee that sorted() is a stable sort. -/
theorem insertionSort_stable {α : Type} (m : α → ℚ) (f : α → ℕ) :
    ∀ (l : List α), l.Pairwise (fun a b => f a < f b) →
      (l.insertionSort (fun a b => m a ≤ m b)).Pairwise
        (fun a b => m a < m b ∨ (m a = m b ∧ f a < f b)) := by
  intro l
  induction l with
  | nil => intro _; simp
  | cons a l ih =>
      intro hpw
      rw [List.pairwise_cons] at hpw
      obtain ⟨ha, hpl⟩ := hpw
      have hS := ih hpl
      set S := l.insertionSort (fun a b => m a ≤ m b) with hSdef
      have hmemS : ∀ c ∈ S, c ∈ l := by
        intro c hc
        exact (List.perm_insertionSort _ l).subset hc
      have hmono : S.Pairwise (fun a b => m a ≤ m b) := by
        apply List.Pairwise.imp ?_ hS
        intro x y hxy
        rcases hxy with h | h
        · exact le_of_lt h
        · exact le_of_eq h.1
      simp only [List.insertionSort]
      rw [List.orderedInsert_eq_take_drop]
      set t := S.takeWhile (fun b => decide ¬ m a ≤ m b) with htdef
      set d := S.dropWhile (fun b => decide ¬ m a ≤ m b) with hddef
      have htd : t ++ d = S := List.takeWhile_append_dropWhile _ S
      have hSpw : (t ++ d).Pairwise (fun x y => m x < m y ∨ (m x = m y ∧ f x < f y)) := by
        rw [htd]; exact hS
      rw [List.pairwise_append] at hSpw
      obtain ⟨hpt, hpd, hcross⟩ := hSpw
      have hmem_t : ∀ c ∈ t, c ∈ S := fun c hc => htd ▸ List.mem_append.mpr (Or.inl hc)
      have hmem_d : ∀ c ∈ d, c ∈ S := fun c hc => htd ▸ List.mem_append.mpr (Or.inr hc)
      have ht_lt : ∀ c ∈ t, m c < m a := by
        intro c hc
        have := List.mem_takeWhile_imp hc
        simp only [decide_eq_true_eq] at this
        exact lt_of_not_le this
      have hmono_d : d.Pairwise (fun x y => m x ≤ m y) := by
        apply List.Pairwise.imp ?_ hpd
        intro x y hxy
        rcases hxy with h | h
        · exact le_of_lt h
        · exact le_of_eq h.1
      have hd_ge : ∀ c ∈ d, m a ≤ m c := by
        intro c hc
        cases hdd : d with
        | nil =>
            rw [hdd] at hc
            cases hc
        | cons h0 dtl =>
            have hdrop : S.dropWhile (fun b => decide ¬ m a ≤ m b) = h0 :: dtl :=
              hddef.symm.trans hdd
            have hh0 : (decide ¬ m a ≤ m h0) = false :=
              dropWhile_head_false _ S h0 dtl hdrop
            simp only [decide_eq_false_iff_not, not_not] at hh0
            rw [hdd] at hc hmono_d
            rcases List.mem_cons.mp hc with h1 | h1
            · exact h1 ▸ hh0
            · exact le_trans hh0 (List.rel_of_pairwise_cons hmono_d h1)
      rw [List.pairwise_append]
      refine ⟨hpt, ?_, ?_⟩
      · rw [List.pairwise_cons]
        refine ⟨?_, hpd⟩
        intro c hc
        rcases lt_or_eq_of_le (hd_ge c hc) with h1 | h1
        · exact Or.inl h1
        · exact Or.inr ⟨h1, ha c (hmemS c (hmem_d c hc))⟩
      · intro x hx y hy
        rcases List.mem_cons.mp hy with h1 | h1
        · subst h1
          exact Or.inl (ht_lt x hx)
        · exact hcross x hx y h1

set_option linter.deprecated false

theorem enum_map_fst_comp {α β : Type} (l : List α) (g : ℕ → β) :
    l.enum.map (fun it => g it.1) = (List.range l.length).map g := by
  rw [show (fun it : ℕ × α => g it.1) = g ∘ Prod.fst from rfl,
    ← List.map_map, List.enum_map_fst]

theorem enum_map_snd_comp {α β : Type} (l : List α) (g : α → β) :
    l.enum.map (fun it => g it.2) = l.map g := by
  rw [show (fun it : ℕ × α => g it.2) = g ∘ Prod.snd from rfl,
    ← List.map_map, List.enum_map_snd]

theorem enum_map_idx_succ {α : Type} (l : List α) :
    l.enum.map (fun it => it.1 + 1) = List.range' 1 l.length := by
  rw [enum_map_fst_comp l (fun n => n + 1), List.range'_eq_map_range]
  simp [Nat.add_comm]

/-- C4: the atom-type table assigns the distinct labels (force-field tag
if present, else species symbol) the ids 1..K in ascending order of mass,
equal-mass ties broken stably by first order of appearance in the site
list; the ids read in order are exactly 1..K and the masses are
monotonically non-decreasing. -/
theorem C4_theorem (molecule : List Site) (amd : AtomTypesMap) (labels : List String)
    (hamd : amd = (lffd_get_basic_system_info molecule).2.2)
    (hlabels : labels = molecule.map (site_label (first_has_ff_map molecule)))
    (hff_all : first_has_ff_map molecule = true → ∀ s ∈ molecule, s.ff_map.isSome)
    (hmass : ∀ s ∈ molecule, ∀ t ∈ molecule,
      site_label (first_has_ff_map molecule) s = site_label (first_has_ff_map molecule) t →
      s.mass = t.mass) :
    amd.map (fun e => e.2.1) = List.range' 1 amd.length ∧
    (amd.map Prod.fst).Nodup ∧
    (∀ lbl, lbl ∈ amd.map Prod.fst ↔ lbl ∈ labels) ∧
    List.Sorted (· ≤ ·) (amd.map (fun e => e.2.2)) ∧
    (∀ (i j : ℕ) (hi : i < amd.length) (hj : j < amd.length), i < j →
      (amd.get ⟨i, hi⟩).2.2 = (amd.get ⟨j, hj⟩).2.2 →
      labels.indexOf (amd.get ⟨i, hi⟩).1 < labels.indexOf (amd.get ⟨j, hj⟩).1) := by
  set lab := site_label (first_has_ff_map molecule) with hlab
  set E := elements_dict molecule with hE
  set S := E.insertionSort (fun a b => a.2 ≤ b.2) with hS
  have hamdS : amd = S.enum.map (fun it => (it.2.1, (it.1 + 1, it.2.2))) := by
    rw [hamd]
    rfl
  have hEkeys : E.map Prod.fst = labels.foldl addNew [] := by
    rw [hE, hlabels]
    unfold elements_dict
    rw [dict_fold_keys (fun s => lab s) (fun s => s.mass) molecule []]
    rw [List.foldl_map]
    rfl
  have hKE_nodup : (E.map Prod.fst).Nodup := by
    rw [hEkeys]
    exact addNew_fold_nodup labels [] List.nodup_nil
  have hKE_mem : ∀ a, a ∈ E.map Prod.fst ↔ a ∈ labels := by
    intro a
    rw [hEkeys]
    rw [addNew_fold_mem labels [] a]
    simp
  have hKE_idx : (E.map Prod.fst).Pairwise
      (fun a b => labels.indexOf a < labels.indexOf b) := by
    rw [hEkeys]
    have := addNew_fold_indexOf labels [] []
      (by intro a ha; cases ha) (by intro b hb; cases hb) List.Pairwise.nil
    simpa using this
  have hE_idx : E.Pairwise
      (fun p q => labels.indexOf p.1 < labels.indexOf q.1) :=
    List.Pairwise.of_map Prod.fst (fun _ _ h => h) hKE_idx
  have hperm : S.Perm E := List.perm_insertionSort _ E
  have hstab : S.Pairwise (fun p q : String × ℚ =>
      p.2 < q.2 ∨ (p.2 = q.2 ∧ labels.indexOf p.1 < labels.indexOf q.1)) := by
    have := insertionSort_stable (fun p : String × ℚ => p.2)
      (fun p : String × ℚ => labels.indexOf p.1) E hE_idx
    exact this
  have hsorted : S.Pairwise (fun a b : String × ℚ => a.2 ≤ b.2) :=
    List.sorted_insertionSort _ E
  have hlen : amd.length = S.length := by
    rw [hamdS, List.length_map, List.enum_length]
  refine ⟨?_, ?_, ?_, ?_, ?_⟩
  · rw [hamdS, List.map_map]
    rw [show ((fun e : String × ℕ × ℚ => e.2.1) ∘
      (fun it : ℕ × (String × ℚ) => (it.2.1, (it.1 + 1, it.2.2)))) =
      (fun it : ℕ × (String × ℚ) => it.1 + 1) from rfl]
    rw [enum_map_idx_succ S, List.length_map, List.enum_length]
  · rw [hamdS, List.map_map]
    rw [show ((Prod.fst : String × ℕ × ℚ → String) ∘
      (fun it : ℕ × (String × ℚ) => (it.2.1, (it.1 + 1, it.2.2)))) =
      (fun it : ℕ × (String × ℚ) => it.2.1) from rfl]
    rw [enum_map_snd_comp S (fun p => p.1)]
    exact ((hperm.map Prod.fst).nodup_iff).mpr hKE_nodup
  · intro lbl
    rw [hamdS, List.map_map]
    rw [show ((Prod.fst : String × ℕ × ℚ → String) ∘
      (fun it : ℕ × (String × ℚ) => (it.2.1, (it.1 + 1, it.2.2)))) =
      (fun it : ℕ × (String × ℚ) => it.2.1) from rfl]
    rw [enum_map_snd_comp S (fun p => p.1)]
    rw [(hperm.map Prod.fst).mem_iff]
    exact hKE_mem lbl
  · rw [hamdS, List.map_map]
    rw [show ((fun e : String × ℕ × ℚ => e.2.2) ∘
      (fun it : ℕ × (String × ℚ) => (it.2.1, (it.1 + 1, it.2.2)))) =
      (fun it : ℕ × (String × ℚ) => it.2.2) from rfl]
    rw [enum_map_snd_comp S (fun p => p.2)]
    exact (List.pairwise_map).mpr hsorted
  · intro i j hi hj hij hmeq
    have hgi : amd.get ⟨i, hi⟩ =
        ((S.get ⟨i, hlen ▸ hi⟩).1, (i + 1, (S.get ⟨i, hlen ▸ hi⟩).2)) := by
      rw [List.get_of_eq hamdS ⟨i, hi⟩, List.get_map, List.get_enum]
      rfl
    have hgj : amd.get ⟨j, hj⟩ =
        ((S.get ⟨j, hlen ▸ hj⟩).1, (j + 1, (S.get ⟨j, hlen ▸ hj⟩).2)) := by
      rw [List.get_of_eq hamdS ⟨j, hj⟩, List.get_map, List.get_enum]
      rfl
    rw [hgi, hgj] at hmeq ⊢
    simp only at hmeq ⊢
    have hrel := (List.pairwise_iff_get.mp hstab)
      ⟨i, hlen ▸ hi⟩ ⟨j, hlen ▸ hj⟩ (by simpa using hij)
    rcases hrel with h1 | h1
    · exact absurd hmeq (ne_of_lt h1)
    · exact h1.2

/-- C4 witness: the theorem applied to a concrete two-site molecule
(hydrogen then carbon, no force-field labels). -/
theorem C4_witness :
    ((lffd_get_basic_system_info
      [{ symbol := "H", ff_map := none, mass := 1, x := 0, y := 0, z := 0 },
       { symbol := "C", ff_map := none, mass := 12, x := 1, y := 0, z := 0 }]).2.2).map
        (fun e => e.2.1) =
      List.range' 1 ((lffd_get_basic_system_info
      [{ symbol := "H", ff_map := none, mass := 1, x := 0, y := 0, z := 0 },
       { symbol := "C", ff_map := none, mass := 12, x := 1, y := 0, z := 0 }]).2.2).length :=
  (C4_theorem
    [{ symbol := "H", ff_map := none, mass := 1, x := 0, y := 0, z := 0 },
     { symbol := "C", ff_map := none, mass := 12, x := 1, y := 0, z := 0 }]
    _ _ rfl rfl (by decide) (by decide)).1

/-! ## LammpsForceFieldData.get_atoms_data (data.py lines 454-517) -/

/-- One emitted atom record: atom id, molecule id, atom type, charge and
Cartesian coordinates. -/
structure AtomRow where
  atom_id : ℕ
  mol_id : ℕ
  atom_type : ℕ
  charge : ℚ
  x : ℚ
  y : ℚ
  z : ℚ
deriving DecidableEq

/-- Sum of (atom count of type j) * (repeat count of type j) over the
first t molecule types: the global atom index offset of type t. -/
def atomOffset (mols : List (List Site)) (mols_number : List ℕ) (t : ℕ) : ℕ :=
  (((List.range t).map fun j => (mols.getD j []).length * mols_number.getD j 0)).sum

/-- Sum of the repeat counts of the first t molecule types: the global
molecule id offset of type t. -/
def molOffset (mols_number : List ℕ) (t : ℕ) : ℕ :=
  (((List.range t).map fun j => mols_number.getD j 0)).sum

/-- The atom_to_mol entries contributed by one molecule type (data.py
lines 489-498): one entry per (instance, local atom), with the global
atom index num_mol_id * natoms + mol_atom_id + shift. -/
def typeBlockA (mols : List (List Site)) (mols_number : List ℕ) (t : ℕ) :
    List (ℕ × (ℕ × ℕ × ℕ)) :=
  (List.range (mols_number.getD t 0)).flatMap fun num_mol_id =>
    (List.range (mols.getD t []).length).map fun mol_atom_id =>
      (num_mol_id * (mols.getD t []).length + mol_atom_id + atomOffset mols mols_number t,
       (t, molOffset mols_number t + num_mol_id, mol_atom_id))

/-- The molid_to_atomid rows contributed by one molecule type. -/
def typeBlockM (mols : List (List Site)) (mols_number : List ℕ) (t : ℕ) :
    List (List ℕ) :=
  (List.range (mols_number.getD t 0)).map fun num_mol_id =>
    (List.range (mols.getD t []).length).map fun mol_atom_id =>
      num_mol_id * (mols.getD t []).length + mol_atom_id + atomOffset mols mols_number t

/-- The default-path construction of atom_to_mol and molid_to_atomid
(data.py lines 484-499): iterate molecule types in order, instances
within a type, local atoms within an instance; the shift counter advances
by natoms * count per type and the global molecule id by count per type.
The loop state is ((atom_to_mol, molid_to_atomid), (shift, mol_id)). -/
def bmm_step (mols : List (List Site)) (mols_number : List ℕ)
    (st : (List (ℕ × (ℕ × ℕ × ℕ)) × List (List ℕ)) × (ℕ × ℕ)) (mol_type : ℕ) :
    (List (ℕ × (ℕ × ℕ × ℕ)) × List (List ℕ)) × (ℕ × ℕ) :=
  let natoms := (mols.getD mol_type []).length
  let cnt := mols_number.getD mol_type 0
  ((st.1.1 ++ (List.range cnt).flatMap fun num_mol_id =>
      (List.range natoms).map fun mol_atom_id =>
        (num_mol_id * natoms + mol_atom_id + st.2.1,
         (mol_type, st.2.2 + num_mol_id, mol_atom_id)),
    st.1.2 ++ (List.range cnt).map fun num_mol_id =>
      (List.range natoms).map fun mol_atom_id =>
        num_mol_id * natoms + mol_atom_id + st.2.1),
   (st.2.1 + natoms * cnt, st.2.2 + cnt))

def build_mol_maps (mols : List (List Site)) (mols_number : List ℕ) :
    List (ℕ × (ℕ × ℕ × ℕ)) × List (List ℕ) :=
  ((List.range mols.length).foldl (bmm_step mols mols_number) (([], []), (0, 0))).1

/-- LammpsForceFieldData.get_atoms_data.  When no atom_to_mol map is
passed, the maps are built by build_mol_maps (and molid_to_atomid stays
empty otherwise, as in the source).  The charge resolution checks
hasattr(topologies[0], "charges") and then the truthiness of the owning
topology's charge list.  The getD defaults stand in for Python KeyError /
IndexError / AttributeError paths; the theorems assume those succeed. -/
def lffd_get_atoms_data (mols : List (List Site)) (mols_number : List ℕ)
    (molecule : List Site) (atomic_masses_dict : AtomTypesMap)
    (topologies : List Topology)
    (atom_to_mol_arg : Option (List (ℕ × (ℕ × ℕ × ℕ)))) :
    List AtomRow × List (List ℕ) :=
  let maps :=
    match atom_to_mol_arg with
    | some a => (a, [])
    | none => build_mol_maps mols mols_number
  let atom_to_mol := maps.1
  (molecule.enum.map fun it =>
    let site := it.2
    let label := site.ff_map.getD site.symbol
    let atom_type := ((alookup atomic_masses_dict label).getD (0, 0)).1
    let trip := (alookup atom_to_mol it.1).getD (0, 0, 0)
    let mol_type := trip.1 + 1
    let mol_id := trip.2.1 + 1
    let mol_atom_id := trip.2.2 + 1
    let charge : ℚ :=
      match topologies.head? with
      | none => 0
      | some t0 =>
          match t0.charges with
          | none => 0
          | some _ =>
              match (topologies.getD (mol_type - 1) {}).charges with
              | none => 0
              | some cl => if cl ≠ [] then cl.getD (mol_atom_id - 1) 0 else 0
    { atom_id := it.1 + 1, mol_id := mol_id, atom_type := atom_type,
      charge := charge, x := site.x, y := site.y, z := site.z },
   maps.2)

theorem atomOffset_succ (mols : List (List Site)) (mols_number : List ℕ) (t : ℕ) :
    atomOffset mols mols_number (t + 1) =
      atomOffset mols mols_number t + (mols.getD t []).length * mols_number.getD t 0 := by
  unfold atomOffset
  rw [List.range_succ, List.map_append, List.sum_append]
  simp

theorem molOffset_succ (mols_number : List ℕ) (t : ℕ) :
    molOffset mols_number (t + 1) = molOffset mols_number t + mols_number.getD t 0 := by
  unfold molOffset
  rw [List.range_succ, List.map_append, List.sum_append]
  simp

theorem atomOffset_mono (mols : List (List Site)) (mols_number : List ℕ) :
    ∀ a b, a ≤ b → atomOffset mols mols_number a ≤ atomOffset mols mols_number b := by
  intro a b hab
  induction b with
  | zero =>
      interval_cases a
      exact le_refl _
  | succ b ih =>
      rcases Nat.lt_or_ge a (b + 1) with h | h
      · calc atomOffset mols mols_number a ≤ atomOffset mols mols_number b :=
            ih (Nat.lt_succ_iff.mp h)
          _ ≤ _ := by rw [atomOffset_succ]; omega
      · have : a = b + 1 := le_antisymm hab h
        rw [this]

/-- The fold of bmm_step over the first T types, in closed form. -/
theorem bmm_fold_eq (mols : List (List Site)) (mols_number : List ℕ) :
    ∀ T, (List.range T).foldl (bmm_step mols mols_number) (([], []), (0, 0)) =
      (((List.range T).flatMap (typeBlockA mols mols_number),
        (List.range T).flatMap (typeBlockM mols mols_number)),
       (atomOffset mols mols_number T, molOffset mols_number T)) := by
  intro T
  induction T with
  | zero => rfl
  | succ T ih =>
      rw [List.range_succ, List.foldl_append, ih]
      simp only [List.foldl_cons, List.foldl_nil]
      rw [List.flatMap_append, List.flatMap_append]
      unfold bmm_step
      simp only [List.flatMap_singleton]
      rw [atomOffset_succ, molOffset_succ]
      rfl

/-! ## Lookup lemmas for the remapping tables -/

theorem flatMap_map_comp {α β γ : Type} (l : List α) (g : α → β) (f : β → List γ) :
    (l.map g).flatMap f = l.flatMap (fun a => f (g a)) := by
  simp only [List.flatMap_def, List.map_map]
  rfl

theorem length_flatMap_sum {α β : Type} (l : List α) (f : α → List β) :
    (l.flatMap f).length = (l.map (fun a => (f a).length)).sum := by
  induction l with
  | nil => rfl
  | cons a t ih =>
      simp [List.flatMap_def] at ih ⊢
      omega

/-- Looking up an ascending-key row built from a range. -/
theorem alookup_row {β : Type} :
    ∀ (n : ℕ) (v : ℕ → β) (base loc : ℕ), loc < n →
      alookup ((List.range n).map fun l2 => (l2 + base, v l2)) (loc + base) =
        some (v loc) := by
  intro n
  induction n with
  | zero =>
      intro v base loc h
      exact absurd h (Nat.not_lt_zero loc)
  | succ m ih =>
      intro v base loc hloc
      rw [List.range_succ_eq_map, List.map_cons, List.map_map]
      match loc with
      | 0 => simp [alookup]
      | k + 1 =>
          have hne : ¬ (0 + base = k + 1 + base) := by omega
          rw [show (((fun l2 => (l2 + base, v l2)) : ℕ → ℕ × β) 0 ::
            (List.range m).map ((fun l2 => (l2 + base, v l2)) ∘ Nat.succ)) =
            ((0 + base, v 0) ::
              (List.range m).map ((fun l2 => (l2 + base, v l2)) ∘ Nat.succ)) from rfl]
          rw [show alookup ((0 + base, v 0) ::
            (List.range m).map ((fun l2 => (l2 + base, v l2)) ∘ Nat.succ)) (k + 1 + base) =
            if (0 + base) = (k + 1 + base) then some (v 0)
            else alookup ((List.range m).map ((fun l2 => (l2 + base, v l2)) ∘ Nat.succ))
              (k + 1 + base) from rfl]
          rw [if_neg hne]
          have hfun : (((fun l2 => (l2 + base, v l2)) : ℕ → ℕ × β) ∘ Nat.succ) =
              (fun i => (i + (base + 1), (fun j => v (j + 1)) i)) := by
            funext i
            simp only [Function.comp]
            rw [show Nat.succ i + base = i + (base + 1) from by omega]
          rw [hfun]
          rw [show k + 1 + base = k + (base + 1) from by omega]
          exact ih (fun j => v (j + 1)) (base + 1) k (by omega)

theorem row_keys_bound {β : Type} (n : ℕ) (v : ℕ → β) (base : ℕ) :
    ∀ p ∈ (List.range n).map fun l2 => (l2 + base, v l2),
      base ≤ p.1 ∧ p.1 < base + n := by
  intro p hp
  rcases List.mem_map.mp hp with ⟨l2, hl2, he⟩
  rw [← he]
  have := List.mem_range.mp hl2
  constructor <;> [omega; omega]


/-- Looking up one (instance, local atom) pair in the nested block built
for one molecule type. -/
theorem alookup_block {β : Type} :
    ∀ (cnt : ℕ) (v : ℕ → ℕ → β) (n base minst loc : ℕ), minst < cnt → loc < n →
      alookup ((List.range cnt).flatMap fun i => (List.range n).map fun l2 =>
        (i * n + l2 + base, v i l2)) (minst * n + loc + base) = some (v minst loc) := by
  intro cnt
  induction cnt with
  | zero =>
      intro v n base minst loc h _
      exact absurd h (Nat.not_lt_zero minst)
  | succ c ih =>
      intro v n base minst loc hminst hloc
      rw [List.range_succ_eq_map, List.flatMap_cons, flatMap_map_comp]
      rw [alookup_append]
      have hrow : ((List.range n).map fun l2 => ((0 : ℕ) * n + l2 + base, v 0 l2)) =
          ((List.range n).map fun l2 => (l2 + base, (fun j => v 0 j) l2)) := by
        apply List.map_congr_left
        intro l2 _
        rw [show (0 : ℕ) * n + l2 + base = l2 + base from by omega]
      have htail : (fun i => (List.range n).map fun l2 =>
          (Nat.succ i * n + l2 + base, v (Nat.succ i) l2)) =
          (fun i => (List.range n).map fun l2 =>
            (i * n + l2 + (base + n), (fun a b => v (a + 1) b) i l2)) := by
        funext i
        apply List.map_congr_left
        intro l2 _
        rw [show Nat.succ i * n + l2 + base = i * n + l2 + (base + n) from by
          rw [Nat.succ_mul]; omega]
      match minst with
      | 0 =>
          rw [show (0 : ℕ) * n + loc + base = loc + base from by omega]
          rw [hrow, alookup_row n (fun j => v 0 j) base loc hloc]
          rfl
      | m + 1 =>
          have hn : n ≤ (m + 1) * n := by
            calc n = 1 * n := (one_mul n).symm
              _ ≤ (m + 1) * n := Nat.mul_le_mul_right n (by omega)
          have hge : n + base ≤ (m + 1) * n + loc + base := by omega
          have hnone : alookup ((List.range n).map fun l2 =>
              ((0 : ℕ) * n + l2 + base, v 0 l2)) ((m + 1) * n + loc + base) = none := by
            rw [hrow]
            apply alookup_eq_none_of_not_mem
            intro hmem
            rcases List.mem_map.mp hmem with ⟨p, hp, he⟩
            have hb := (row_keys_bound n (fun j => v 0 j) base p hp).2
            rw [he] at hb
            omega
          rw [hnone]
          rw [htail]
          rw [show (m + 1) * n + loc + base = m * n + loc + (base + n) from by
            rw [show (m + 1) * n = m * n + n from by ring]
            omega]
          exact ih (fun a b => v (a + 1) b) n (base + n) m loc (by omega) hloc

theorem typeBlockA_key_bound (mols : List (List Site)) (mols_number : List ℕ) (t : ℕ) :
    ∀ p ∈ typeBlockA mols mols_number t,
      atomOffset mols mols_number t ≤ p.1 ∧ p.1 < atomOffset mols mols_number (t + 1) := by
  intro p hp
  unfold typeBlockA at hp
  rcases List.mem_flatMap.mp hp with ⟨inst, hinst, hrow⟩
  rcases List.mem_map.mp hrow with ⟨loc, hloc, he⟩
  rw [← he]
  have h1 := List.mem_range.mp hinst
  have h2 := List.mem_range.mp hloc
  rw [atomOffset_succ]
  constructor
  · omega
  · have hb : inst * (mols.getD t []).length + loc <
        (mols.getD t []).length * mols_number.getD t 0 := by
      have hstep : inst * (mols.getD t []).length + loc <
          (inst + 1) * (mols.getD t []).length := by
        rw [show (inst + 1) * (mols.getD t []).length =
          inst * (mols.getD t []).length + (mols.getD t []).length from by ring]
        omega
      calc inst * (mols.getD t []).length + loc
          < (inst + 1) * (mols.getD t []).length := hstep
        _ ≤ mols_number.getD t 0 * (mols.getD t []).length :=
            Nat.mul_le_mul_right _ (by omega)
        _ = (mols.getD t []).length * mols_number.getD t 0 := Nat.mul_comm _ _
    omega

theorem range_flatMap_prefix {β : Type} (f : ℕ → List β) :
    ∀ (T t : ℕ), t ≤ T →
      ∃ rest, (List.range T).flatMap f = (List.range t).flatMap f ++ rest := by
  intro T
  induction T with
  | zero =>
      intro t h
      have ht : t = 0 := by omega
      subst ht
      exact ⟨[], by simp⟩
  | succ T ih =>
      intro t h
      rcases Nat.lt_or_ge t (T + 1) with h1 | h1
      · obtain ⟨rest, hr⟩ := ih t (by omega)
        refine ⟨rest ++ f T, ?_⟩
        rw [List.range_succ, List.flatMap_append, hr, List.append_assoc]
        simp
      · have ht : t = T + 1 := by omega
        subst ht
        exact ⟨[], by simp⟩

theorem range_flatMap_succ {β : Type} (f : ℕ → List β) (t : ℕ) :
    (List.range (t + 1)).flatMap f = (List.range t).flatMap f ++ f t := by
  rw [List.range_succ, List.flatMap_append]
  simp

/-- build_mol_maps in closed form: the concatenation of the per-type
blocks. -/
theorem build_mol_maps_eq (mols : List (List Site)) (mols_number : List ℕ) :
    build_mol_maps mols mols_number =
      ((List.range mols.length).flatMap (typeBlockA mols mols_number),
       (List.range mols.length).flatMap (typeBlockM mols mols_number)) := by
  unfold build_mol_maps
  rw [bmm_fold_eq]

theorem bindM_length (mols : List (List Site)) (mols_number : List ℕ) (T : ℕ) :
    ((List.range T).flatMap (typeBlockM mols mols_number)).length =
      molOffset mols_number T := by
  rw [length_flatMap_sum]
  unfold molOffset
  congr 1
  apply List.map_congr_left
  intro t _
  simp [typeBlockM]

theorem map_enum_atom_id (f : ℕ × Site → AtomRow)
    (h : ∀ it, (f it).atom_id = it.1 + 1) (l : List Site) :
    ((l.enum.map f).map AtomRow.atom_id) = List.range' 1 l.length := by
  rw [List.map_map]
  rw [show (AtomRow.atom_id ∘ f) = fun it => it.1 + 1 from funext h]
  exact enum_map_idx_succ l

/-- C1: get_atoms_data emits exactly sum(n_i * c_i) atom records with
1-based global atom ids forming the contiguous range 1..N; the
atom_to_mol dict maps the global atom index of the (type, instance, local
atom) triple — assigned by iterating types, then instances, then local
atoms — to that triple (with the global molecule id), and molid_to_atomid
maps each global molecule id to the ordered list of the global atom
indices of its atoms in local-atom order. -/
theorem C1_theorem (mols : List (List Site)) (mols_number : List ℕ)
    (molecule : List Site) (amd : AtomTypesMap) (topologies : List Topology)
    (atoms_data : List AtomRow) (molid_to_atomid : List (List ℕ))
    (hres : lffd_get_atoms_data mols mols_number molecule amd topologies none =
      (atoms_data, molid_to_atomid))
    (hlen : molecule.length = atomOffset mols mols_number mols.length) :
    atoms_data.length = atomOffset mols mols_number mols.length ∧
    atoms_data.map AtomRow.atom_id =
      List.range' 1 (atomOffset mols mols_number mols.length) ∧
    (∀ t inst loc, t < mols.length → inst < mols_number.getD t 0 →
      loc < (mols.getD t []).length →
      alookup (build_mol_maps mols mols_number).1
          (inst * (mols.getD t []).length + loc + atomOffset mols mols_number t) =
        some (t, molOffset mols_number t + inst, loc)) ∧
    molid_to_atomid.length = molOffset mols_number mols.length ∧
    (∀ t inst, t < mols.length → inst < mols_number.getD t 0 →
      molid_to_atomid.getD (molOffset mols_number t + inst) [] =
        (List.range (mols.getD t []).length).map fun loc =>
          inst * (mols.getD t []).length + loc + atomOffset mols mols_number t) := by
  have hdata : atoms_data = (lffd_get_atoms_data mols mols_number molecule amd
      topologies none).1 := (congrArg Prod.fst hres).symm
  have hmol : molid_to_atomid = (lffd_get_atoms_data mols mols_number molecule amd
      topologies none).2 := (congrArg Prod.snd hres).symm
  have hmol2 : molid_to_atomid =
      (List.range mols.length).flatMap (typeBlockM mols mols_number) := by
    rw [hmol]
    show (build_mol_maps mols mols_number).2 = _
    rw [build_mol_maps_eq]
  refine ⟨?_, ?_, ?_, ?_, ?_⟩
  · rw [hdata]
    show (molecule.enum.map _).length = _
    rw [List.length_map, List.enum_length, hlen]
  · rw [hdata]
    show ((molecule.enum.map _).map AtomRow.atom_id) = _
    rw [map_enum_atom_id _ (fun _ => rfl) molecule, hlen]
  · intro t inst loc ht hinst hloc
    have hA : (build_mol_maps mols mols_number).1 =
        (List.range mols.length).flatMap (typeBlockA mols mols_number) := by
      rw [build_mol_maps_eq]
    rw [hA]
    obtain ⟨rest, hr⟩ := range_flatMap_prefix (typeBlockA mols mols_number)
      mols.length (t + 1) (by omega)
    rw [hr, range_flatMap_succ]
    rw [alookup_append, alookup_append]
    have hpre : alookup ((List.range t).flatMap (typeBlockA mols mols_number))
        (inst * (mols.getD t []).length + loc + atomOffset mols mols_number t) =
        none := by
      apply alookup_eq_none_of_not_mem
      intro hmem
      rcases List.mem_map.mp hmem with ⟨p, hp, he⟩
      rcases List.mem_flatMap.mp hp with ⟨j, hj, hpj⟩
      have hjlt := List.mem_range.mp hj
      have hb := (typeBlockA_key_bound mols mols_number j p hpj).2
      have hmono := atomOffset_mono mols mols_number (j + 1) t (by omega)
      rw [he] at hb
      omega
    rw [hpre]
    have hblock : alookup (typeBlockA mols mols_number t)
        (inst * (mols.getD t []).length + loc + atomOffset mols mols_number t) =
        some (t, molOffset mols_number t + inst, loc) := by
      unfold typeBlockA
      exact alookup_block (mols_number.getD t 0)
        (fun i l2 => (t, molOffset mols_number t + i, l2))
        (mols.getD t []).length (atomOffset mols mols_number t) inst loc hinst hloc
    rw [hblock]
    rfl
  · rw [hmol2, bindM_length]
  · intro t inst ht hinst
    rw [hmol2]
    obtain ⟨rest, hr⟩ := range_flatMap_prefix (typeBlockM mols mols_number)
      mols.length (t + 1) (by omega)
    rw [hr, range_flatMap_succ, List.append_assoc]
    have hlen1 : ((List.range t).flatMap (typeBlockM mols mols_number)).length =
        molOffset mols_number t := bindM_length mols mols_number t
    rw [List.getD_append_right _ _ _ _ (by omega)]
    rw [hlen1]
    rw [show molOffset mols_number t + inst - molOffset mols_number t = inst from by omega]
    have hblen : inst < (typeBlockM mols mols_number t).length := by
      simpa [typeBlockM] using hinst
    rw [List.getD_append _ _ _ _ hblen]
    rw [List.getD_eq_getElem _ _ hblen]
    unfold typeBlockM
    rw [List.getElem_map, List.getElem_range]

/-- C1 witness: the theorem applied to two molecule types (a 2-atom type
repeated twice and a 1-atom type repeated once) with a 5-site assembly. -/
theorem C1_witness :
    ((lffd_get_atoms_data
      [[⟨"H", none, 1, 0, 0, 0⟩, ⟨"H", none, 1, 0, 0, 0⟩], [⟨"H", none, 1, 0, 0, 0⟩]]
      [2, 1]
      [⟨"H", none, 1, 0, 0, 0⟩, ⟨"H", none, 1, 0, 0, 0⟩, ⟨"H", none, 1, 0, 0, 0⟩,
       ⟨"H", none, 1, 0, 0, 0⟩, ⟨"H", none, 1, 0, 0, 0⟩]
      [] [{}] none).1).length =
      atomOffset
        [[⟨"H", none, 1, 0, 0, 0⟩, ⟨"H", none, 1, 0, 0, 0⟩], [⟨"H", none, 1, 0, 0, 0⟩]]
        [2, 1] 2 :=
  ( C1_theorem
    [[⟨"H", none, 1, 0, 0, 0⟩, ⟨"H", none, 1, 0, 0, 0⟩], [⟨"H", none, 1, 0, 0, 0⟩]]
    [2, 1]
    [⟨"H", none, 1, 0, 0, 0⟩, ⟨"H", none, 1, 0, 0, 0⟩, ⟨"H", none, 1, 0, 0, 0⟩,
     ⟨"H", none, 1, 0, 0, 0⟩, ⟨"H", none, 1, 0, 0, 0⟩]
    [] [{}] _ _ rfl (by decide)).1

/-! ## Claim C7: charge resolution in get_atoms_data -/

/-- C7 counterexample: the claim states the emitted charge equals the
owning molecule template's topology charge whenever that topology exposes
a non-empty charge list.  The source checks hasattr(topologies[0],
"charges"), not the owning topology: with a first topology lacking the
attribute and a second one exposing the non-empty list [7], the atom
owned by the second template (global index 1, whose atom_to_mol triple is
(1, 1, 0)) is emitted with charge 0 instead of 7. -/
theorem C7_counterexample :
    (((lffd_get_atoms_data
        [[⟨"H", none, 1, 0, 0, 0⟩], [⟨"H", none, 1, 0, 0, 0⟩]] [1, 1]
        [⟨"H", none, 1, 0, 0, 0⟩, ⟨"H", none, 1, 0, 0, 0⟩]
        [("H", (1, 1))]
        [{}, { charges := some [(7 : ℚ)] }] none).1).getD 1
          ⟨0, 0, 0, 0, 0, 0, 0⟩).charge = 0 ∧
    alookup (build_mol_maps
        [[⟨"H", none, 1, 0, 0, 0⟩], [⟨"H", none, 1, 0, 0, 0⟩]] [1, 1]).1 1 =
      some (1, 1, 0) ∧
    ([{}, { charges := some [(7 : ℚ)] }] : List Topology).getD 1 {} =
      { charges := some [(7 : ℚ)] } ∧
    ((7 : ℚ) : ℚ) ≠ 0 := by
  refine ⟨?_, ?_, ?_, ?_⟩ <;> decide

/-- C7 (amended): the emitted charge equals the owning template's charge
at the atom's local index whenever the FIRST topology in the list exposes
a charges attribute and the owning topology's charge list is non-empty;
the charge is 0 when the first topology does not expose the attribute or
when the owning topology's list is empty; and all other fields of the
atom record are unaffected by the topologies argument entirely. -/
theorem C7_theorem (mols : List (List Site)) (mols_number : List ℕ)
    (molecule : List Site) (amd : AtomTypesMap) (topologies : List Topology)
    (i : ℕ) (hi : i < molecule.length) (row : AtomRow) (trip : ℕ × ℕ × ℕ)
    (hrow : row = ((lffd_get_atoms_data mols mols_number molecule amd topologies
      none).1).getD i ⟨0, 0, 0, 0, 0, 0, 0⟩)
    (htrip : trip = (alookup (build_mol_maps mols mols_number).1 i).getD (0, 0, 0)) :
    (∀ t0 cl, topologies.head? = some t0 → t0.charges.isSome →
      (topologies.getD trip.1 {}).charges = some cl → cl ≠ [] →
      row.charge = cl.getD trip.2.2 0) ∧
    (topologies.head? = none → row.charge = 0) ∧
    (∀ t0, topologies.head? = some t0 → t0.charges = none → row.charge = 0) ∧
    (∀ t0, topologies.head? = some t0 → t0.charges.isSome →
      (topologies.getD trip.1 {}).charges = some [] → row.charge = 0) ∧
    (∀ topologies2 : List Topology,
      ((lffd_get_atoms_data mols mols_number molecule amd topologies2 none).1).map
        (fun r => (r.atom_id, r.mol_id, r.atom_type, r.x, r.y, r.z)) =
      ((lffd_get_atoms_data mols mols_number molecule amd topologies none).1).map
        (fun r => (r.atom_id, r.mol_id, r.atom_type, r.x, r.y, r.z))) := by
  have hlen : i < ((lffd_get_atoms_data mols mols_number molecule amd topologies
      none).1).length := by
    show i < (molecule.enum.map _).length
    rw [List.length_map, List.enum_length]
    exact hi
  have hrow2 : row = (fun it : ℕ × Site =>
      let site := it.2
      let label := site.ff_map.getD site.symbol
      let atom_type := ((alookup amd label).getD (0, 0)).1
      let tr := (alookup (build_mol_maps mols mols_number).1 it.1).getD (0, 0, 0)
      let mol_type := tr.1 + 1
      let mol_id := tr.2.1 + 1
      let mol_atom_id := tr.2.2 + 1
      let charge : ℚ :=
        match topologies.head? with
        | none => 0
        | some t0 =>
            match t0.charges with
            | none => 0
            | some _ =>
                match (topologies.getD (mol_type - 1) {}).charges with
                | none => 0
                | some cl => if cl ≠ [] then cl.getD (mol_atom_id - 1) 0 else 0
      { atom_id := it.1 + 1, mol_id := mol_id, atom_type := atom_type,
        charge := charge, x := site.x, y := site.y, z := site.z })
      (i, molecule.get ⟨i, hi⟩) := by
    rw [hrow, List.getD_eq_getElem _ _ hlen]
    show (molecule.enum.map _).get ⟨i, hlen⟩ = _
    rw [List.get_map, List.get_enum]
    rfl
  have hcharge : row.charge =
      match topologies.head? with
      | none => 0
      | some t0 =>
          match t0.charges with
          | none => 0
          | some _ =>
              match (topologies.getD trip.1 {}).charges with
              | none => 0
              | some cl => if cl ≠ [] then cl.getD trip.2.2 0 else 0 := by
    rw [hrow2, htrip]
    rfl
  refine ⟨?_, ?_, ?_, ?_, ?_⟩
  · intro t0 cl h0 hsome hown hne
    rw [hcharge, h0]
    cases hc : t0.charges with
    | none => rw [hc] at hsome; cases hsome
    | some c0 =>
        dsimp only
        rw [hown]
        dsimp only
        rw [if_pos hne, hc]
  · intro h0
    rw [hcharge, h0]
  · intro t0 h0 hc
    rw [hcharge, h0]
    dsimp only
    rw [hc]
  · intro t0 h0 hsome hown
    rw [hcharge, h0]
    cases hc : t0.charges with
    | none => rw [hc] at hsome; cases hsome
    | some c0 =>
        dsimp only
        rw [hown]
        dsimp only
        rw [hc]
        simp
  · intro topologies2
    show ((molecule.enum.map _).map _) = ((molecule.enum.map _).map _)
    rw [List.map_map, List.map_map]
    apply List.map_congr_left
    intro it _
    rfl

/-- C7 witness: with a single topology exposing the non-empty charge
list [7], the emitted charge of the only atom is 7. -/
theorem C7_witness :
    (((lffd_get_atoms_data [[⟨"H", none, 1, 0, 0, 0⟩]] [1] [⟨"H", none, 1, 0, 0, 0⟩]
        [("H", (1, 1))] [{ charges := some [(7 : ℚ)] }] none).1).getD 0
          ⟨0, 0, 0, 0, 0, 0, 0⟩).charge = ([(7 : ℚ)]).getD 0 0 :=
  ( C7_theorem [[⟨"H", none, 1, 0, 0, 0⟩]] [1] [⟨"H", none, 1, 0, 0, 0⟩]
    [("H", (1, 1))] [{ charges := some [(7 : ℚ)] }] 0 (by decide) _ _ rfl rfl).1
    { charges := some [(7 : ℚ)] } [(7 : ℚ)] rfl (by decide) (by decide)
    (by decide)

/-! ## LammpsForceFieldData.get_param_data (data.py lines 519-591) -/

/-- One emitted bonded-term record: the densified id (param_id + 1 - skip
in the source, an integer), the resolved type id, and the 1-based global
atom ids. -/
structure ParamRecord where
  id : ℤ
  ty : ℕ
  atoms : List ℕ
deriving DecidableEq

/-- The per-entry body of the get_param_data scan (data.py lines 556-588).
State is (data, skip).  param_id = num_mol_id * nparams + mol_param_id +
shift; the entry's label is looked up forward then reversed; Python's
`if key:` truthiness also sends a resolved empty-tuple key to the skip
branch.  The skip branch prints a diagnostic in the source. -/
def gpd_entry_step (param_map : List (ParamKey × ℕ)) (molid_to_atomid : List (List ℕ))
    (num_mol_id nparams shift mol_id : ℕ)
    (st : List ParamRecord × ℕ) (ep : ℕ × TopoEntry) : List ParamRecord × ℕ :=
  let param_id := num_mol_id * nparams + ep.1 + shift
  let param := ep.2
  let param_atomids := param.atoms.map fun atomid =>
    (molid_to_atomid.getD mol_id []).getD atomid 0 + 1
  let param_type := param.label
  let param_type_reversed := param_type.reverse
  let key : Option ParamKey :=
    if (alookup param_map param_type).isSome then some param_type
    else if (alookup param_map param_type_reversed).isSome then some param_type_reversed
    else none
  match key with
  | some k =>
      if k ≠ [] then
        (st.1 ++ [⟨(param_id : ℤ) + 1 - (st.2 : ℤ),
          (alookup param_map k).getD 0, param_atomids⟩], st.2)
      else (st.1, st.2 + 1)
  | none => (st.1, st.2 + 1)

/-- One molecule instance of the scan: run all entries, then mol_id += 1.
State is ((data, skip), mol_id). -/
def gpd_inst_step (param_map : List (ParamKey × ℕ)) (molid_to_atomid : List (List ℕ))
    (param_obj : List TopoEntry) (shift : ℕ)
    (st : (List ParamRecord × ℕ) × ℕ) (num_mol_id : ℕ) :
    (List ParamRecord × ℕ) × ℕ :=
  (param_obj.enum.foldl
    (gpd_entry_step param_map molid_to_atomid num_mol_id param_obj.length shift st.2)
    st.1,
   st.2 + 1)

/-- One molecule type of the scan: run all instances, then
shift += nparams * count.  State is ((data, skip), (mol_id, shift)). -/
def gpd_type_step (param_name : String) (param_map : List (ParamKey × ℕ))
    (molid_to_atomid : List (List ℕ)) (mols_number : List ℕ)
    (topologies : List Topology)
    (st : (List ParamRecord × ℕ) × ℕ × ℕ) (mol_type : ℕ) :
    (List ParamRecord × ℕ) × ℕ × ℕ :=
  let param_obj := ((topologies.getD mol_type {}).getCat param_name).getD []
  let inner := (List.range (mols_number.getD mol_type 0)).foldl
    (gpd_inst_step param_map molid_to_atomid param_obj st.2.2) (st.1, st.2.1)
  (inner.1, inner.2, st.2.2 + param_obj.length * mols_number.getD mol_type 0)

/-- LammpsForceFieldData.get_param_data.  Guard: hasattr(topologies[0],
param_name) and the truthiness of that first table; then the nested scan
over types, instances and entries.  The getD defaults stand in for Python
IndexError / AttributeError paths; the theorems assume those succeed. -/
def lffd_get_param_data (param_name : String) (param_map : List (ParamKey × ℕ))
    (mols : List (List Site)) (mols_number : List ℕ) (topologies : List Topology)
    (molid_to_atomid : List (List ℕ)) : List ParamRecord :=
  match topologies.head? with
  | none => []
  | some t0 =>
      match t0.getCat param_name with
      | none => []
      | some es =>
          if es ≠ [] then
            (((List.range mols.length).foldl
              (gpd_type_step param_name param_map molid_to_atomid mols_number topologies)
              (([], 0), 0, 0)).1).1
          else []

/-! ## The flat-scan characterization of get_param_data -/

/-- The bonded-term table of one molecule type, as the scan reads it. -/
def catEntries (param_name : String) (topologies : List Topology) (t : ℕ) :
    List TopoEntry :=
  ((topologies.getD t {}).getCat param_name).getD []

/-- The whole category scan as one flat job list: (global molecule id,
entry) pairs in scan order — types in order, instances within a type,
entries within an instance. -/
def scanJobs (param_name : String) (mols_number : List ℕ) (topologies : List Topology)
    (nmols : ℕ) : List (ℕ × TopoEntry) :=
  (List.range nmols).flatMap fun t =>
    (List.range (mols_number.getD t 0)).flatMap fun inst =>
      (catEntries param_name topologies t).map fun e => (molOffset mols_number t + inst, e)

/-- Resolution and translation of one entry: some (type id, 1-based global
atom ids) when the forward or reversed key is found and the resolved key
is non-empty (Python truthiness), none when the entry is skipped. -/
def emitEntry (param_map : List (ParamKey × ℕ)) (molid_to_atomid : List (List ℕ))
    (job : ℕ × TopoEntry) : Option (ℕ × List ℕ) :=
  let param_type := job.2.label
  let param_type_reversed := param_type.reverse
  let key : Option ParamKey :=
    if (alookup param_map param_type).isSome then some param_type
    else if (alookup param_map param_type_reversed).isSome then some param_type_reversed
    else none
  match key with
  | some k =>
      if k ≠ [] then
        some ((alookup param_map k).getD 0,
          job.2.atoms.map fun atomid => (molid_to_atomid.getD job.1 []).getD atomid 0 + 1)
      else none
  | none => none

/-- The reference single-pass scan: emitted records take id
(data so far) + 1, skipped entries increment the skip counter. -/
def scanStep (param_map : List (ParamKey × ℕ)) (molid_to_atomid : List (List ℕ))
    (st : List ParamRecord × ℕ) (job : ℕ × TopoEntry) : List ParamRecord × ℕ :=
  match emitEntry param_map molid_to_atomid job with
  | some r => (st.1 ++ [⟨(st.1.length : ℤ) + 1, r.1, r.2⟩], st.2)
  | none => (st.1, st.2 + 1)

/-- Renumber resolved entries with consecutive integer ids n+1, n+2, ... -/
def reindexFrom (n : ℕ) : List (ℕ × List ℕ) → List ParamRecord
  | [] => []
  | r :: rest => ⟨(n : ℤ) + 1, r.1, r.2⟩ :: reindexFrom (n + 1) rest

theorem gpd_entry_step_eq_scanStep (param_map : List (ParamKey × ℕ))
    (molid_to_atomid : List (List ℕ)) (num np shift mol_id : ℕ)
    (st : List ParamRecord × ℕ) (ep : ℕ × TopoEntry)
    (hinv : num * np + ep.1 + shift = st.1.length + st.2) :
    gpd_entry_step param_map molid_to_atomid num np shift mol_id st ep =
      scanStep param_map molid_to_atomid st (mol_id, ep.2) := by
  have hid : ((num * np + ep.1 + shift : ℕ) : ℤ) + 1 - (st.2 : ℤ) =
      (st.1.length : ℤ) + 1 := by omega
  unfold gpd_entry_step scanStep emitEntry
  dsimp only
  by_cases h1 : (alookup param_map ep.2.label).isSome
  · rw [if_pos h1]
    dsimp only
    by_cases h2 : ep.2.label ≠ []
    · rw [if_pos h2, if_pos h2]
      dsimp only
      rw [hid]
    · rw [if_neg h2, if_neg h2]
  · rw [if_neg h1]
    by_cases h3 : (alookup param_map ep.2.label.reverse).isSome
    · rw [if_pos h3]
      dsimp only
      by_cases h2 : ep.2.label.reverse ≠ []
      · rw [if_pos h2, if_pos h2]
        dsimp only
        rw [hid]
      · rw [if_neg h2, if_neg h2]
    · rw [if_neg h3]

theorem scanStep_count (param_map : List (ParamKey × ℕ)) (molid_to_atomid : List (List ℕ))
    (st : List ParamRecord × ℕ) (job : ℕ × TopoEntry) :
    (scanStep param_map molid_to_atomid st job).1.length +
      (scanStep param_map molid_to_atomid st job).2 = st.1.length + st.2 + 1 := by
  unfold scanStep
  cases emitEntry param_map molid_to_atomid job with
  | some r =>
      simp only [List.length_append, List.length_singleton]
      omega
  | none =>
      simp only
      omega

theorem scanStep_fold_count (param_map : List (ParamKey × ℕ))
    (molid_to_atomid : List (List ℕ)) :
    ∀ (jobs : List (ℕ × TopoEntry)) (st : List ParamRecord × ℕ),
      (jobs.foldl (scanStep param_map molid_to_atomid) st).1.length +
        (jobs.foldl (scanStep param_map molid_to_atomid) st).2 =
      st.1.length + st.2 + jobs.length := by
  intro jobs
  induction jobs with
  | nil => intro st; simp
  | cons j rest ih =>
      intro st
      simp only [List.foldl_cons, List.length_cons]
      rw [ih, scanStep_count]
      omega

theorem gpd_entries_fold (param_map : List (ParamKey × ℕ))
    (molid_to_atomid : List (List ℕ)) (num np shift mol_id : ℕ) :
    ∀ (entries : List TopoEntry) (k0 : ℕ) (st : List ParamRecord × ℕ),
      num * np + k0 + shift = st.1.length + st.2 →
      (entries.enumFrom k0).foldl
          (gpd_entry_step param_map molid_to_atomid num np shift mol_id) st =
        (entries.map fun e => (mol_id, e)).foldl
          (scanStep param_map molid_to_atomid) st := by
  intro entries
  induction entries with
  | nil => intro k0 st _; rfl
  | cons e rest ih =>
      intro k0 st hinv
      show ((k0, e) :: rest.enumFrom (k0 + 1)).foldl _ st = _
      simp only [List.foldl_cons, List.map_cons]
      rw [gpd_entry_step_eq_scanStep _ _ _ _ _ _ _ _ hinv]
      dsimp only
      apply ih (k0 + 1)
      have := scanStep_count param_map molid_to_atomid st (mol_id, e)
      omega

theorem gpd_inst_fold (param_map : List (ParamKey × ℕ))
    (molid_to_atomid : List (List ℕ)) (param_obj : List TopoEntry) (shift molBase : ℕ) :
    ∀ (c num0 : ℕ) (st : (List ParamRecord × ℕ) × ℕ),
      st.2 = molBase + num0 →
      num0 * param_obj.length + shift = st.1.1.length + st.1.2 →
      (List.range' num0 c).foldl
          (gpd_inst_step param_map molid_to_atomid param_obj shift) st =
        (((List.range' num0 c).flatMap fun num =>
            param_obj.map fun e => (molBase + num, e)).foldl
          (scanStep param_map molid_to_atomid) st.1,
         molBase + num0 + c) := by
  intro c
  induction c with
  | zero =>
      intro num0 st hmol _
      simp only [List.range', List.foldl_nil, List.flatMap_nil, Nat.add_zero]
      rw [← hmol]
  | succ c ih =>
      intro num0 st hmol hinv
      rw [show List.range' num0 (c + 1) = num0 :: List.range' (num0 + 1) c from rfl]
      simp only [List.foldl_cons, List.flatMap_cons]
      rw [List.foldl_append]
      have hstep : gpd_inst_step param_map molid_to_atomid param_obj shift st num0 =
          ((param_obj.map fun e => (molBase + num0, e)).foldl
            (scanStep param_map molid_to_atomid) st.1, st.2 + 1) := by
        unfold gpd_inst_step
        congr 1
        rw [show param_obj.enum = param_obj.enumFrom 0 from rfl]
        rw [hmol]
        exact gpd_entries_fold param_map molid_to_atomid num0 param_obj.length shift
          (molBase + num0) param_obj 0 st.1 (by omega)
      rw [hstep]
      rw [ih (num0 + 1) _ (by simp [hmol]; omega) ?_]
      · simp only
        congr 1
        omega
      · dsimp only
        have hcount := scanStep_fold_count param_map molid_to_atomid
          (param_obj.map fun e => (molBase + num0, e)) st.1
        rw [List.length_map] at hcount
        rw [show (num0 + 1) * param_obj.length =
          num0 * param_obj.length + param_obj.length from by ring]
        omega

/-- Total number of entries scanned over the first T molecule types. -/
def entOffset (param_name : String) (mols_number : List ℕ) (topologies : List Topology)
    (T : ℕ) : ℕ :=
  (((List.range T).map fun j =>
    (catEntries param_name topologies j).length * mols_number.getD j 0)).sum

theorem sum_map_const_range (c k : ℕ) :
    (((List.range c).map fun _ => k)).sum = c * k := by
  induction c with
  | zero => simp
  | succ c ih =>
      rw [List.range_succ, List.map_append, List.sum_append]
      simp [ih, Nat.succ_mul]

theorem scanJobs_length (param_name : String) (mols_number : List ℕ)
    (topologies : List Topology) (T : ℕ) :
    (scanJobs param_name mols_number topologies T).length =
      entOffset param_name mols_number topologies T := by
  unfold scanJobs entOffset
  rw [length_flatMap_sum]
  congr 1
  apply List.map_congr_left
  intro t _
  rw [length_flatMap_sum]
  have : ((List.range (mols_number.getD t 0)).map fun inst =>
      ((catEntries param_name topologies t).map
        fun e => (molOffset mols_number t + inst, e)).length) =
      ((List.range (mols_number.getD t 0)).map fun _ =>
        (catEntries param_name topologies t).length) := by
    apply List.map_congr_left
    intro inst _
    rw [List.length_map]
  rw [this, sum_map_const_range, Nat.mul_comm]

theorem entOffset_succ (param_name : String) (mols_number : List ℕ)
    (topologies : List Topology) (T : ℕ) :
    entOffset param_name mols_number topologies (T + 1) =
      entOffset param_name mols_number topologies T +
        (catEntries param_name topologies T).length * mols_number.getD T 0 := by
  unfold entOffset
  rw [List.range_succ, List.map_append, List.sum_append]
  simp

theorem scanJobs_succ (param_name : String) (mols_number : List ℕ)
    (topologies : List Topology) (T : ℕ) :
    scanJobs param_name mols_number topologies (T + 1) =
      scanJobs param_name mols_number topologies T ++
        ((List.range (mols_number.getD T 0)).flatMap fun inst =>
          (catEntries param_name topologies T).map
            fun e => (molOffset mols_number T + inst, e)) := by
  unfold scanJobs
  exact range_flatMap_succ _ T

/-- The type-level fold of get_param_data equals the flat reference scan
over scanJobs, with the molecule-id and shift counters in closed form. -/
theorem gpd_type_fold (param_name : String) (param_map : List (ParamKey × ℕ))
    (molid_to_atomid : List (List ℕ)) (mols_number : List ℕ)
    (topologies : List Topology) :
    ∀ T, (List.range T).foldl
        (gpd_type_step param_name param_map molid_to_atomid mols_number topologies)
        (([], 0), 0, 0) =
      ((scanJobs param_name mols_number topologies T).foldl
        (scanStep param_map molid_to_atomid) ([], 0),
       molOffset mols_number T, entOffset param_name mols_number topologies T) := by
  intro T
  induction T with
  | zero => rfl
  | succ T ih =>
      rw [List.range_succ, List.foldl_append, ih]
      simp only [List.foldl_cons, List.foldl_nil]
      unfold gpd_type_step
      dsimp only
      have hfold := scanStep_fold_count param_map molid_to_atomid
        (scanJobs param_name mols_number topologies T) ([], 0)
      rw [scanJobs_length] at hfold
      simp only [List.length_nil] at hfold
      have hrange : (List.range (mols_number.getD T 0)) =
          List.range' 0 (mols_number.getD T 0) := List.range_eq_range' _
      rw [hrange]
      rw [gpd_inst_fold param_map molid_to_atomid _ _ (molOffset mols_number T)
        (mols_number.getD T 0) 0 _ (by simp) (by simp; omega)]
      rw [scanJobs_succ, List.foldl_append]
      rw [entOffset_succ, molOffset_succ]
      rw [← hrange]
      rfl

/-- The reference scan in closed form: the data list is the input data
followed by the resolved entries renumbered consecutively. -/
theorem scanStep_fold_eq (param_map : List (ParamKey × ℕ))
    (molid_to_atomid : List (List ℕ)) :
    ∀ (jobs : List (ℕ × TopoEntry)) (st : List ParamRecord × ℕ),
      (jobs.foldl (scanStep param_map molid_to_atomid) st).1 =
        st.1 ++ reindexFrom st.1.length
          (jobs.filterMap (emitEntry param_map molid_to_atomid)) := by
  intro jobs
  induction jobs with
  | nil => intro st; simp [reindexFrom]
  | cons j rest ih =>
      intro st
      simp only [List.foldl_cons, List.filterMap_cons]
      cases he : emitEntry param_map molid_to_atomid j with
      | some r =>
          rw [show scanStep param_map molid_to_atomid st j =
            (st.1 ++ [⟨(st.1.length : ℤ) + 1, r.1, r.2⟩], st.2) from by
              unfold scanStep; rw [he]]
          rw [ih]
          simp only [List.length_append, List.length_singleton]
          rw [reindexFrom]
          rw [List.append_assoc]
          rfl
      | none =>
          rw [show scanStep param_map molid_to_atomid st j = (st.1, st.2 + 1) from by
            unfold scanStep; rw [he]]
          exact ih (st.1, st.2 + 1)

theorem reindexFrom_map_id :
    ∀ (l : List (ℕ × List ℕ)) (n : ℕ),
      (reindexFrom n l).map ParamRecord.id =
        (List.range' (n + 1) l.length).map Int.ofNat := by
  intro l
  induction l with
  | nil => intro n; rfl
  | cons r rest ih =>
      intro n
      rw [reindexFrom, List.length_cons,
        show List.range' (n + 1) (rest.length + 1) =
          (n + 1) :: List.range' (n + 2) rest.length from rfl]
      simp only [List.map_cons]
      rw [ih (n + 1)]
      congr 1

/-- C2 counterexample: the claim states an entry is skipped only when
neither the forward nor the reversed key is present.  With a topology
entry whose label is the empty tuple and a key-to-id map containing the
empty tuple, the forward key IS present, yet Python's `if key:`
truthiness test on the resolved empty tuple sends the entry to the skip
branch and nothing is emitted. -/
theorem C2_counterexample :
    lffd_get_param_data "bonds" [([], 1)] [[⟨"H", none, 1, 0, 0, 0⟩]] [1]
      [{ bonds := some [⟨[0], []⟩] }] [[0]] = [] ∧
    alookup [(([] : ParamKey), 1)] [] = some 1 := by
  constructor
  · rfl
  · rfl

/-- C2 (amended): with the guard satisfied (the first topology exposes a
non-empty table for the category), get_param_data equals the flat
reference scan: topology entries are walked in a single running sequence
over types, instances and entries; each entry's label is looked up
forward then reversed; an entry is skipped (with a printed diagnostic and
an incremented skip counter) when neither key is present or when the
resolved key is the empty tuple; and the emitted records are exactly the
resolved entries in scan order carrying ids 1..M dense and gapless,
the resolved type id and the 1-based global atom ids. -/
theorem C2_theorem (param_name : String) (param_map : List (ParamKey × ℕ))
    (mols : List (List Site)) (mols_number : List ℕ) (topologies : List Topology)
    (molid_to_atomid : List (List ℕ)) (t0 : Topology) (es : List TopoEntry)
    (h0 : topologies.head? = some t0) (hcat : t0.getCat param_name = some es)
    (hne : es ≠ []) :
    lffd_get_param_data param_name param_map mols mols_number topologies
        molid_to_atomid =
      reindexFrom 0 ((scanJobs param_name mols_number topologies mols.length).filterMap
        (emitEntry param_map molid_to_atomid)) ∧
    (lffd_get_param_data param_name param_map mols mols_number topologies
        molid_to_atomid).map ParamRecord.id =
      (List.range' 1 ((scanJobs param_name mols_number topologies
        mols.length).filterMap (emitEntry param_map molid_to_atomid)).length).map
        Int.ofNat := by
  have hmain : lffd_get_param_data param_name param_map mols mols_number topologies
      molid_to_atomid =
      reindexFrom 0 ((scanJobs param_name mols_number topologies mols.length).filterMap
        (emitEntry param_map molid_to_atomid)) := by
    unfold lffd_get_param_data
    rw [h0]
    dsimp only
    rw [hcat]
    dsimp only
    rw [if_pos hne]
    rw [gpd_type_fold]
    dsimp only
    rw [scanStep_fold_eq]
    simp [reindexFrom]
  refine ⟨hmain, ?_⟩
  rw [hmain, reindexFrom_map_id]

/-- C2 witness: a one-type, one-instance, one-entry scan whose key is
present forward; the single record gets id 1, the resolved type id and
the translated atom ids. -/
theorem C2_witness :
    lffd_get_param_data "bonds" [(["A", "B"], 1)] [[⟨"H", none, 1, 0, 0, 0⟩]] [1]
      [{ bonds := some [⟨[0], ["A", "B"]⟩] }] [[5]] =
      reindexFrom 0 ((scanJobs "bonds" [1] [{ bonds := some [⟨[0], ["A", "B"]⟩] }]
        1).filterMap (emitEntry [(["A", "B"], 1)] [[5]])) :=
  ( C2_theorem "bonds" [(["A", "B"], 1)] [[⟨"H", none, 1, 0, 0, 0⟩]] [1]
    [{ bonds := some [⟨[0], ["A", "B"]⟩] }] [[5]] { bonds := some [⟨[0], ["A", "B"]⟩] }
    [⟨[0], ["A", "B"]⟩] rfl rfl (by decide)).1

/-! ## LammpsData.check_box_size (data.py lines 90-119) -/

/-- Per-axis Cartesian coordinates of the molecule (axis 0, 1, 2). -/
def coordsAxis (molecule : List Site) (i : ℕ) : List ℚ :=
  if i = 0 then molecule.map Site.x
  else if i = 1 then molecule.map Site.y
  else molecule.map Site.z

def listMax (l : List ℚ) : ℚ := l.foldl max (l.headD 0)

def listMin (l : List ℚ) : ℚ := l.foldl min (l.headD 0)

/-- np.max - np.min per axis (undefined on an empty molecule in Python;
the headD default stands in). -/
def box_lengths_req (molecule : List Site) : List ℚ :=
  (List.range 3).map fun i =>
    listMax (coordsAxis molecule i) - listMin (coordsAxis molecule i)

/-- Modelled from the spec: the geometry collaborator's mass-weighted
center of mass (pymatgen Molecule.center_of_mass, outside src/). -/
def center_of_mass (molecule : List Site) : ℚ × ℚ × ℚ :=
  let mtot := (molecule.map Site.mass).sum
  (((molecule.map fun s => s.mass * s.x).sum) / mtot,
   ((molecule.map fun s => s.mass * s.y).sum) / mtot,
   ((molecule.map fun s => s.mass * s.z).sum) / mtot)

/-- Modelled from the spec: the geometry collaborator's in-place site
translation (pymatgen Molecule.translate_sites, outside src/), as a pure
function returning the translated molecule. -/
def translate_sites (molecule : List Site) (t : ℚ × ℚ × ℚ) : List Site :=
  molecule.map fun s => { s with x := s.x + t.1, y := s.y + t.2.1, z := s.z + t.2.2 }

/-- LammpsData.check_box_size.  assert_array_less succeeds when the box
has three axes and each required length is strictly below the provided
length; otherwise the box resets to [0, ceil(1.1 * required)] per axis
and the molecule is recentered.  The possibly-translated molecule is
returned alongside the box (the source mutates it in place). -/
def check_box_size (molecule : List Site) (box_size : List (ℚ × ℚ))
    (translate : Bool) : List (ℚ × ℚ) × List Site :=
  let req := box_lengths_req molecule
  let lengths := box_size.map fun p => p.2 - p.1
  let ok := box_size.length == 3 &&
    (List.range 3).all fun i => decide (req.getD i 0 < lengths.getD i 0)
  let box2 := if ok then box_size
    else req.map fun r => ((0 : ℚ), ((⌈11 * r / 10⌉ : ℤ) : ℚ))
  let translate2 := if ok then translate else true
  if translate2 then
    let com := center_of_mass molecule
    let new_com := box2.map fun p => (p.2 + p.1) / 2
    (box2, translate_sites molecule
      (new_com.getD 0 0 - com.1, new_com.getD 1 0 - com.2.1, new_com.getD 2 0 - com.2.2))
  else (box2, molecule)

/-- The assembled LammpsForceFieldData constructor arguments. -/
structure LammpsFFAssembled where
  box_size : List (ℚ × ℚ)
  atomic_masses : List (ℕ × ℚ)
  pair_coeffs : List (ℕ × List ℚ)
  bond_coeffs : List (ℕ × List ℚ)
  angle_coeffs : List (ℕ × List ℚ)
  dihedral_coeffs : List (ℕ × List ℚ)
  improper_coeffs : List (ℕ × List ℚ)
  atoms_data : List AtomRow
  bonds_data : List ParamRecord
  angles_data : List ParamRecord
  dihedrals_data : List ParamRecord
  imdihedrals_data : List ParamRecord
deriving DecidableEq

/-- LammpsForceFieldData.from_forcefield_and_topology (data.py lines
593-673): basic info on a copy, check_box_size (which may translate the
molecule in place, here returned as the first component), the five
coefficient tables (an absent category propagates AttributeError), the
atom records and the four bonded-term tables. -/
def from_forcefield_and_topology (mols : List (List Site)) (mols_number : List ℕ)
    (box_size : List (ℚ × ℚ)) (molecule : List Site) (forcefield : ForceField)
    (topologies : List Topology) : List Site × Except Unit LammpsFFAssembled :=
  let amd := (lffd_get_basic_system_info molecule).2.2
  let cbs := check_box_size molecule box_size false
  (cbs.2,
    match get_param_coeff forcefield "bonds" [] with
    | Except.error e => Except.error e
    | Except.ok bres =>
      match get_param_coeff forcefield "angles" [] with
      | Except.error e => Except.error e
      | Except.ok ares =>
        match get_param_coeff forcefield "pairs" amd with
        | Except.error e => Except.error e
        | Except.ok pres =>
          match get_param_coeff forcefield "dihedrals" [] with
          | Except.error e => Except.error e
          | Except.ok dres =>
            match get_param_coeff forcefield "imdihedrals" [] with
            | Except.error e => Except.error e
            | Except.ok ires =>
              let ad := lffd_get_atoms_data mols mols_number cbs.2 amd topologies none
              Except.ok
                { box_size := cbs.1,
                  atomic_masses := amd.map fun e => e.2,
                  pair_coeffs := pres.1,
                  bond_coeffs := bres.1,
                  angle_coeffs := ares.1,
                  dihedral_coeffs := dres.1,
                  improper_coeffs := ires.1,
                  atoms_data := ad.1,
                  bonds_data := lffd_get_param_data "bonds" bres.2 mols mols_number
                    topologies ad.2,
                  angles_data := lffd_get_param_data "angles" ares.2 mols mols_number
                    topologies ad.2,
                  dihedrals_data := lffd_get_param_data "dihedrals" dres.2 mols
                    mols_number topologies ad.2,
                  imdihedrals_data := lffd_get_param_data "imdihedrals" ires.2 mols
                    mols_number topologies ad.2 })

theorem check_box_size_of_sufficient (molecule : List Site) (box_size : List (ℚ × ℚ))
    (hbox3 : box_size.length = 3)
    (hsuff : ∀ i, i < 3 → (box_lengths_req molecule).getD i 0 <
      (box_size.map fun p => p.2 - p.1).getD i 0) :
    check_box_size molecule box_size false = (box_size, molecule) := by
  unfold check_box_size
  dsimp only
  have hok : (box_size.length == 3 &&
      (List.range 3).all fun i => decide ((box_lengths_req molecule).getD i 0 <
        (box_size.map fun p => p.2 - p.1).getD i 0)) = true := by
    rw [Bool.and_eq_true]
    constructor
    · exact beq_iff_eq.mpr hbox3
    · rw [List.all_eq_true]
      intro i hi
      exact decide_eq_true (hsuff i (List.mem_range.mp hi))
  rw [hok]
  simp

/-- C10: with a strictly sufficient box (each required length below the
provided length on all three axes), from_forcefield_and_topology leaves
the molecule's site coordinates untouched and the assembled system's box
is exactly the caller's box; the too-small-box handling (reset and
recenter) never runs. -/
theorem C10_theorem (mols : List (List Site)) (mols_number : List ℕ)
    (box_size : List (ℚ × ℚ)) (molecule : List Site) (forcefield : ForceField)
    (topologies : List Topology)
    (hmol : molecule ≠ [])
    (hbox3 : box_size.length = 3)
    (hsuff : ∀ i, i < 3 → (box_lengths_req molecule).getD i 0 <
      (box_size.map fun p => p.2 - p.1).getD i 0) :
    (from_forcefield_and_topology mols mols_number box_size molecule forcefield
      topologies).1 = molecule ∧
    (∀ a, (from_forcefield_and_topology mols mols_number box_size molecule forcefield
      topologies).2 = Except.ok a → a.box_size = box_size) := by
  have hcbs := check_box_size_of_sufficient molecule box_size hbox3 hsuff
  constructor
  · show (check_box_size molecule box_size false).2 = molecule
    rw [hcbs]
  · intro a ha
    unfold from_forcefield_and_topology at ha
    dsimp only at ha
    rw [hcbs] at ha
    cases h1 : get_param_coeff forcefield "bonds" [] with
    | error e => rw [h1] at ha; cases ha
    | ok bres =>
        rw [h1] at ha
        cases h2 : get_param_coeff forcefield "angles" [] with
        | error e => rw [h2] at ha; cases ha
        | ok ares =>
            rw [h2] at ha
            cases h3 : get_param_coeff forcefield "pairs"
                (lffd_get_basic_system_info molecule).2.2 with
            | error e => rw [h3] at ha; cases ha
            | ok pres =>
                rw [h3] at ha
                cases h4 : get_param_coeff forcefield "dihedrals" [] with
                | error e => rw [h4] at ha; cases ha
                | ok dres =>
                    rw [h4] at ha
                    cases h5 : get_param_coeff forcefield "imdihedrals" [] with
                    | error e => rw [h5] at ha; cases ha
                    | ok ires =>
                        rw [h5] at ha
                        cases ha
                        rfl

/-- C10 witness: a one-site molecule in a strictly sufficient box, with a
force field exposing all five (empty) categories. -/
theorem C10_witness :
    (from_forcefield_and_topology [[⟨"H", none, 1, 0, 0, 0⟩]] [1]
      [(-1, 2), (-1, 2), (-1, 2)] [⟨"H", none, 1, 0, 0, 0⟩]
      { pairs := some [], bonds := some [], angles := some [], dihedrals := some [],
        imdihedrals := some [] } [{}]).1 = [⟨"H", none, 1, 0, 0, 0⟩] :=
  ( C10_theorem [[⟨"H", none, 1, 0, 0, 0⟩]] [1] [(-1, 2), (-1, 2), (-1, 2)]
    [⟨"H", none, 1, 0, 0, 0⟩]
    { pairs := some [], bonds := some [], angles := some [], dihedrals := some [],
      imdihedrals := some [] } [{}] (by decide) (by decide)
    (by
      intro i hi
      interval_cases i <;>
        simp [box_lengths_req, coordsAxis, listMax, listMin] <;> norm_num)).1

/-! ## Text codec: numbers

Python floats are modelled as exact decimals m * 10^(-e); str() of an int
renders plain digits, str() of a float always carries a decimal point.
Scientific notation (produced by Python only for extreme magnitudes) is
not modelled. -/

/-- A cell of a serialized table: a Python int or a Python float. -/
inductive Val
  | vi (n : ℤ)
  | vf (m : ℤ) (e : ℕ)
deriving DecidableEq

/-- A parsed float: mantissa and decimal exponent. -/
abbrev Dec := ℤ × ℕ

def Dec.toRat (d : Dec) : ℚ := (d.1 : ℚ) / (10 : ℚ) ^ d.2

def Val.toRat : Val → ℚ
  | Val.vi n => (n : ℚ)
  | Val.vf m e => (m : ℚ) / (10 : ℚ) ^ e

/-- Python int() truncation toward zero of an exact rational. -/
def pytrunc (q : ℚ) : ℤ := if q < 0 then -(Int.floor (-q)) else Int.floor q

def digitChar (d : ℕ) : Char := Char.ofNat (48 + d)

def charVal (c : Char) : ℕ := c.toNat - 48

/-- Decimal digits of a natural number, most significant first. -/
def natChars (n : ℕ) : List Char :=
  if n = 0 then ['0'] else ((Nat.digits 10 n).reverse).map digitChar

/-- Decimal digits padded with leading zeros to at least len digits. -/
def natCharsPad (n len : ℕ) : List Char :=
  List.replicate (len - (natChars n).length) '0' ++ natChars n

def intChars (z : ℤ) : List Char :=
  if z < 0 then '-' :: natChars z.natAbs else natChars z.natAbs

/-- str() of the float m * 10^(-e): sign, integer digits, a point, and
exactly e fractional digits (at least one). -/
def decChars (m : ℤ) (e : ℕ) : List Char :=
  if e = 0 then intChars m ++ ['.', '0']
  else
    (if m < 0 then ['-'] else []) ++
      (let ds := natCharsPad m.natAbs (e + 1)
       ds.take (ds.length - e) ++ '.' :: ds.drop (ds.length - e))

def renderVal : Val → List Char
  | Val.vi n => intChars n
  | Val.vf m e => decChars m e

def charsToNat (l : List Char) : ℕ := l.foldl (fun a c => 10 * a + charVal c) 0

def isDigits (l : List Char) : Bool := !l.isEmpty && l.all (·.isDigit)

/-- Python float() on a token, restricted to plain decimal notation:
optional sign, digits, optionally a point and digits. -/
def parseFloat (cs : List Char) : Option Dec :=
  let neg : Bool := cs.headD ' ' == '-'
  let cs2 : List Char := if cs.headD ' ' == '-' || cs.headD ' ' == '+' then cs.tail else cs
  let sgn : ℤ := if neg then -1 else 1
  let ip := cs2.takeWhile (·.isDigit)
  let rest := cs2.drop ip.length
  if rest.isEmpty then
    if ip.isEmpty then none else some (sgn * (charsToNat ip : ℤ), 0)
  else if rest.headD ' ' == '.' then
    let fp := rest.tail
    if fp.all (·.isDigit) && !(ip.isEmpty && fp.isEmpty) then
      some (sgn * ((charsToNat ip * 10 ^ fp.length + charsToNat fp : ℕ) : ℤ), fp.length)
    else none
  else none

/-! ## Text codec: lines and tokens -/

def wsB (c : Char) : Bool := c.isWhitespace

/-- Python str.strip(). -/
def trim (l : List Char) : List Char :=
  ((l.dropWhile wsB).reverse.dropWhile wsB).reverse

/-- Helper for splitWS: acc holds the current word reversed. -/
def splitWSAux : List Char → List Char → List (List Char)
  | [], acc => if acc.isEmpty then [] else [acc.reverse]
  | c :: cs, acc =>
      if wsB c then (if acc.isEmpty then [] else [acc.reverse]) ++ splitWSAux cs []
      else splitWSAux cs (c :: acc)

/-- Python str.split(): split on whitespace runs, dropping empty pieces. -/
def splitWS (l : List Char) : List (List Char) :=
  splitWSAux l []

/-- The section keyword set from the source module header. -/
def SECTION_KEYWORDS : List (List Char) :=
  ["atoms", "velocities", "masses", "ellipsoids", "lines", "triangles", "bodies",
   "bonds", "angles", "dihedrals", "impropers",
   "pair coeffs", "pairij coeffs", "bond coeffs", "angle coeffs", "dihedral coeffs",
   "improper coeffs", "bondbond coeffs", "bondangle coeffs", "middlebondtorsion coeffs",
   "endbondtorsion coeffs", "angletorsion coeffs", "angleangletorsion coeffs",
   "bondbond13 coeffs", "angleangle coeffs"].map String.toList

/-- Character class [0-9eE.+-] of the box/tilt regexes. -/
def floatClass (c : Char) : Bool :=
  c.isDigit || c == 'e' || c == 'E' || c == '.' || c == '+' || c == '-'

def isAlphaTok (l : List Char) : Bool := !l.isEmpty && l.all (·.isAlpha)

def isFloatTok (l : List Char) : Bool := !l.isEmpty && l.all floatClass

/-- types_pattern = r'^\s*(\d+)\s+([a-zA-Z]+)\s+types$' on a stripped line. -/
def typesMatch (toks : List (List Char)) : Bool :=
  match toks with
  | [a, b, c] => isDigits a && isAlphaTok b && c == "types".toList
  | _ => false

/-- box_pattern = r'^\s*([0-9eE.+-]+)\s+([0-9eE.+-]+)\s+([xyz])lo\s+([xyz])hi$'. -/
def boxMatch (toks : List (List Char)) : Bool :=
  match toks with
  | [f1, f2, t3, t4] =>
      isFloatTok f1 && isFloatTok f2 &&
      (t3 == "xlo".toList || t3 == "ylo".toList || t3 == "zlo".toList) &&
      (t4 == "xhi".toList || t4 == "yhi".toList || t4 == "zhi".toList)
  | _ => false

/-- count_pattern = r'^\s*(\d+)\s+([a-zA-Z]+)$'. -/
def countMatch (toks : List (List Char)) : Bool :=
  match toks with
  | [a, b] => isDigits a && isAlphaTok b
  | _ => false

/-- tilt_pattern = r'^\s*([0-9eE.+-]+)\s+([0-9eE.+-]+)\s+([0-9eE.+-]+)\s+xy\s+xz\s+yz$'. -/
def tiltMatch (toks : List (List Char)) : Bool :=
  match toks with
  | [f1, f2, f3, a, b, c] =>
      isFloatTok f1 && isFloatTok f2 && isFloatTok f3 &&
      a == "xy".toList && b == "xz".toList && c == "yz".toList
  | _ => false

/-- Parser state: Python's single data dict, split by value shape, plus the
running section key. -/
structure PState where
  current : Option (List Char) := none
  sections : List (List Char × List (List Dec)) := []
  counts : List (List Char × ℤ) := []
  boxes : List (List Char × List Dec) := []
deriving DecidableEq

/-- In-place append to the list bound to an existing key. -/
def dictAppend {α β : Type} [DecidableEq α] (l : List (α × List β)) (k : α) (v : β) :
    List (α × List β) :=
  match l with
  | [] => []
  | (k2, vs) :: rest =>
      if k2 = k then (k2, vs ++ [v]) :: rest else (k2, vs) :: dictAppend rest k v

def parseFloats : List (List Char) → Option (List Dec)
  | [] => some []
  | t :: ts =>
      match parseFloat t, parseFloats ts with
      | some d, some ds => some (d :: ds)
      | _, _ => none

/-- The else-branch of the loop body: the four header patterns, tried in
source order; a matched float that float() cannot convert raises. -/
def lineHeaders (s : List Char) (st : PState) : Option PState :=
  let toks := splitWS s
  if typesMatch toks then
    let cnts := dictInsert st.counts ((toks.getD 1 []) ++ "-types".toList)
      ((charsToNat (toks.getD 0 []) : ℤ))
    some { st with counts := cnts }
  else if boxMatch toks then
    match parseFloat (toks.getD 0 []), parseFloat (toks.getD 1 []) with
    | some d1, some d2 =>
        some { st with boxes := dictInsert st.boxes ((toks.getD 2 []).take 1) [d1, d2] }
    | _, _ => none
  else if countMatch toks then
    let cnts := dictInsert st.counts ('n' :: toks.getD 1 [])
      ((charsToNat (toks.getD 0 []) : ℤ))
    some { st with counts := cnts }
  else if tiltMatch toks then
    match parseFloat (toks.getD 0 []), parseFloat (toks.getD 1 []),
          parseFloat (toks.getD 2 []) with
    | some d1, some d2, some d3 =>
        some { st with boxes := dictInsert st.boxes "xy-xz-yz".toList [d1, d2, d3] }
    | _, _, _ => none
  else some st

/-- One iteration of the parse_data_file loop on a physical line. -/
def parseLine (l : List Char) (st : PState) : Option PState :=
  let s := trim (l.takeWhile (fun c => c ≠ '#'))
  if s.isEmpty then some st
  else
    let low := s.map Char.toLower
    if low ∈ SECTION_KEYWORDS then
      let key := low.map (fun c => if c = ' ' then '-' else c)
      some { st with current := some key, sections := dictInsert st.sections key [] }
    else
      match st.current with
      | some key =>
          if (alookup st.sections key).isSome then
            match parseFloats (splitWS s) with
            | some row => some { st with sections := dictAppend st.sections key row }
            | none => none
          else lineHeaders s st
      | none => lineHeaders s st

def parse_lines : List (List Char) → PState → Option PState
  | [], st => some st
  | l :: ls, st =>
      match parseLine l st with
      | none => none
      | some st2 => parse_lines ls st2

/-- parse_data_file over the file's lines. -/
def parse_data_file (lines : List (List Char)) : Option PState :=
  parse_lines lines {}

/-! ## Text codec: LammpsForceFieldData.from_file -/

/-- The constructor arguments rebuilt by from_file, with floats as exact
rationals. -/
structure LammpsFFParsed where
  box_size : List (List ℚ)
  atomic_masses : List (ℤ × ℚ)
  pair_coeffs : List (ℤ × List ℚ)
  bond_coeffs : List (ℤ × List ℚ)
  angle_coeffs : List (ℤ × List ℚ)
  dihedral_coeffs : List (ℤ × List ℚ)
  improper_coeffs : List (ℤ × List ℚ)
  atoms_data : List (ℤ × ℤ × ℤ × List ℚ)
  bonds_data : List (List ℤ)
  angles_data : List (List ℤ)
  dihedral_data : List (List ℤ)
  imdihedral_data : List (List ℤ)
deriving DecidableEq

/-- _get_coeffs: [int(x[0])] + x[1:] for each row of the section (empty when
the key is absent); x[0] on an empty row raises IndexError. -/
def get_coeffs (pd : PState) (k : String) : Option (List (ℤ × List ℚ)) :=
  let rows := (alookup pd.sections k.toList).getD []
  if rows.all (fun r => !r.isEmpty) then
    some (rows.map (fun r =>
      (pytrunc (Dec.toRat (r.getD 0 (0, 0))), (r.drop 1).map Dec.toRat)))
  else none

/-- _get_non_atoms: every entry of every row through int(). -/
def get_non_atoms (pd : PState) (k : String) : List (List ℤ) :=
  ((alookup pd.sections k.toList).getD []).map (fun r =>
    r.map (fun d => pytrunc d.toRat))

/-- LammpsForceFieldData.from_file over the file's lines: parse, then
rebuild the constructor arguments; a missing masses section or box axis is a
KeyError.  Rows are modelled at the shapes from_file indexes into (masses
rows of length at least 2, atoms rows of length at least 3); shorter rows
would make Python produce ragged rows outside this model's row types. -/
def lffd_from_file (lines : List (List Char)) : Option LammpsFFParsed :=
  match parse_data_file lines with
  | none => none
  | some pd =>
      match alookup pd.sections ("masses".toList), alookup pd.boxes ("x".toList),
            alookup pd.boxes ("y".toList), alookup pd.boxes ("z".toList) with
      | some ms, some bx, some by2, some bz =>
          let atrows := (alookup pd.sections ("atoms".toList)).getD []
          if ms.all (fun r => 2 ≤ r.length) && atrows.all (fun r => 3 ≤ r.length) then
            match get_coeffs pd "pair-coeffs", get_coeffs pd "bond-coeffs",
                  get_coeffs pd "angle-coeffs", get_coeffs pd "dihedral-coeffs",
                  get_coeffs pd "improper-coeffs" with
            | some pc, some bc, some ac, some dc, some ic =>
                some
                  { box_size := [bx.map Dec.toRat, by2.map Dec.toRat, bz.map Dec.toRat]
                    atomic_masses := ms.map (fun r =>
                      (pytrunc (Dec.toRat (r.getD 0 (0, 0))), Dec.toRat (r.getD 1 (0, 0))))
                    pair_coeffs := pc
                    bond_coeffs := bc
                    angle_coeffs := ac
                    dihedral_coeffs := dc
                    improper_coeffs := ic
                    atoms_data := atrows.map (fun r =>
                      (pytrunc (Dec.toRat (r.getD 0 (0, 0))),
                       pytrunc (Dec.toRat (r.getD 1 (0, 0))),
                       pytrunc (Dec.toRat (r.getD 2 (0, 0))),
                       (r.drop 3).map Dec.toRat))
                    bonds_data := get_non_atoms pd "bonds"
                    angles_data := get_non_atoms pd "angles"
                    dihedral_data := get_non_atoms pd "dihedrals"
                    imdihedral_data := get_non_atoms pd "impropers" }
            | _, _, _, _, _ => none
          else none
      | _, _, _, _ => none

/-! ## Text codec: LammpsForceFieldData.__str__ -/

/-- The twelve constructor arguments of a LammpsForceFieldData about to be
serialized, cells as Python values. -/
structure FFData where
  box_size : List (Val × Val)
  atomic_masses : List (List Val)
  pair_coeffs : List (List Val)
  bond_coeffs : List (List Val)
  angle_coeffs : List (List Val)
  dihedral_coeffs : List (List Val)
  improper_coeffs : List (List Val)
  atoms_data : List (List Val)
  bonds_data : List (List Val)
  angles_data : List (List Val)
  dihedrals_data : List (List Val)
  imdihedrals_data : List (List Val)

/-- " ".join: tokens joined by single spaces. -/
def joinToks : List (List Char) → List Char
  | [] => []
  | [t] => t
  | t :: ts => t ++ ' ' :: joinToks ts

/-- " ".join([str(x) for x in ad]). -/
def renderRow (row : List Val) : List Char :=
  joinToks (row.map renderVal)

/-- set_lines_from_list: physical lines contributed by one data block after
the newline join ("\n" + name + " \n" splits into blank, title, blank). -/
def blockLines (name : List Char) (rows : List (List Val)) : List (List Char) :=
  if rows.isEmpty then []
  else [[], name ++ [' '], []] ++ rows.map renderRow

/-- A count header line "{n} word". -/
def countLine (n : ℕ) (word : String) : List Char :=
  natChars n ++ ' ' :: word.toList

/-- A box extent line "{lo} {hi} alo ahi". -/
def boxLine (p : Val × Val) (tail : String) : List Char :=
  renderVal p.1 ++ (' ' :: (renderVal p.2 ++ (' ' :: tail.toList)))

/-- The physical lines of LammpsForceFieldData.__str__, in emission order. -/
def serializeLines (d : FFData) : List (List Char) :=
  let ndih := d.dihedrals_data.length
  let nimdihs := d.imdihedrals_data.length
  ["Data file generated by pymatgen".toList, []]
  ++ [countLine d.atoms_data.length "atoms",
      countLine d.bonds_data.length "bonds",
      countLine d.angles_data.length "angles"]
  ++ (if ndih > 0 then [countLine ndih "dihedrals"] else [])
  ++ (if nimdihs > 0 then [countLine nimdihs "impropers"] else [])
  ++ [[], countLine d.atomic_masses.length "atom types",
      countLine d.bond_coeffs.length "bond types",
      countLine d.angle_coeffs.length "angle types"]
  ++ (if ndih > 0 then [countLine d.dihedral_coeffs.length "dihedral types"] else [])
  ++ (if nimdihs > 0 then [countLine d.improper_coeffs.length "improper types"] else [])
  ++ [[], boxLine (d.box_size.getD 0 (Val.vi 0, Val.vi 0)) "xlo xhi",
      boxLine (d.box_size.getD 1 (Val.vi 0, Val.vi 0)) "ylo yhi",
      boxLine (d.box_size.getD 2 (Val.vi 0, Val.vi 0)) "zlo zhi"]
  ++ blockLines "Masses".toList d.atomic_masses
  ++ blockLines "Pair Coeffs".toList d.pair_coeffs
  ++ blockLines "Bond Coeffs".toList d.bond_coeffs
  ++ blockLines "Angle Coeffs".toList d.angle_coeffs
  ++ (if ndih > 0 then blockLines "Dihedral Coeffs".toList d.dihedral_coeffs else [])
  ++ (if nimdihs > 0 then blockLines "Improper Coeffs".toList d.improper_coeffs else [])
  ++ blockLines "Atoms".toList d.atoms_data
  ++ blockLines "Bonds".toList d.bonds_data
  ++ blockLines "Angles".toList d.angles_data
  ++ (if ndih > 0 then blockLines "Dihedrals".toList d.dihedrals_data else [])
  ++ (if nimdihs > 0 then blockLines "Impropers".toList d.imdihedrals_data else [])

lemma parse_lines_append (a b : List (List Char)) (st : PState) :
    parse_lines (a ++ b) st =
      match parse_lines a st with
      | none => none
      | some st2 => parse_lines b st2 := by
  induction a generalizing st with
  | nil => rfl
  | cons l ls ih =>
      show (match parseLine l st with
            | none => none
            | some st2 => parse_lines (ls ++ b) st2) =
           (match (match parseLine l st with
                   | none => none
                   | some st2 => parse_lines ls st2) with
            | none => none
            | some st2 => parse_lines b st2)
      cases parseLine l st with
      | none => rfl
      | some st2 => exact ih st2

/-- C9: a stripped line matching no section keyword and no header pattern is
ignored — but only while no section is active.  Inside an active section the
body branch runs float() on every token instead (see the counterexample), so
the harmless-skip behaviour is stated under current = none. -/
theorem C9_theorem (l : List Char) (st : PState)
    (hcur : st.current = none)
    (hkw : (trim (l.takeWhile (fun c => c ≠ '#'))).map Char.toLower ∉ SECTION_KEYWORDS)
    (hty : typesMatch (splitWS (trim (l.takeWhile (fun c => c ≠ '#')))) = false)
    (hbx : boxMatch (splitWS (trim (l.takeWhile (fun c => c ≠ '#')))) = false)
    (hct : countMatch (splitWS (trim (l.takeWhile (fun c => c ≠ '#')))) = false)
    (htl : tiltMatch (splitWS (trim (l.takeWhile (fun c => c ≠ '#')))) = false) :
    parseLine l st = some st ∧
    ∀ pre rest, parse_lines pre {} = some st →
      parse_lines (pre ++ l :: rest) {} = parse_lines (pre ++ rest) {} := by
  have hline : parseLine l st = some st := by
    unfold parseLine
    dsimp only
    by_cases hemp : (trim (l.takeWhile (fun c => decide (c ≠ '#')))).isEmpty = true
    · rw [if_pos hemp]
    · rw [if_neg hemp, if_neg hkw, hcur]
      dsimp only
      unfold lineHeaders
      dsimp only
      rw [if_neg (by rw [hty]; exact Bool.false_ne_true),
        if_neg (by rw [hbx]; exact Bool.false_ne_true),
        if_neg (by rw [hct]; exact Bool.false_ne_true),
        if_neg (by rw [htl]; exact Bool.false_ne_true)]
  refine ⟨hline, fun pre rest hpre => ?_⟩
  rw [parse_lines_append, parse_lines_append, hpre]
  show parse_lines (l :: rest) st = parse_lines rest st
  have hstep : parse_lines (l :: rest) st =
      match parseLine l st with
      | none => none
      | some st2 => parse_lines rest st2 := rfl
  rw [hstep, hline]

/-- C9 witness: a concrete junk line under an empty state is skipped. -/
theorem C9_witness :
    parseLine ("junk line 42".toList) ({} : PState) = some {} :=
  (C9_theorem ("junk line 42".toList) {} rfl (by decide) (by decide) (by decide)
    (by decide) (by decide)).1

/-- C9 counterexample: the line "hello" matches no section keyword and no
header pattern, yet parsing the file ["Masses", "hello"] fails outright —
inside the Masses section the parser runs float() over the line's tokens and
raises, instead of silently ignoring the line. -/
theorem C9_counterexample :
    parse_data_file ["Masses".toList, "hello".toList] = none ∧
    ("hello".toList).map Char.toLower ∉ SECTION_KEYWORDS ∧
    typesMatch (splitWS ("hello".toList)) = false ∧
    boxMatch (splitWS ("hello".toList)) = false ∧
    countMatch (splitWS ("hello".toList)) = false ∧
    tiltMatch (splitWS ("hello".toList)) = false := by
  exact ⟨by decide, by decide, by decide, by decide, by decide, by decide⟩

/-! ## Character classes of rendered numbers -/

def goodChar (c : Char) : Bool := c.isDigit || c == '-' || c == '.'

lemma digit_range {c : Char} (h : c.isDigit = true) : 48 ≤ c.toNat ∧ c.toNat ≤ 57 := by
  simp [Char.isDigit] at h
  exact ⟨h.1, h.2⟩

lemma goodChar_cases {c : Char} (h : goodChar c = true) :
    c.isDigit = true ∨ c = '-' ∨ c = '.' := by
  unfold goodChar at h
  simp at h
  rcases h with (h | h) | h
  · exact Or.inl h
  · exact Or.inr (Or.inl h)
  · exact Or.inr (Or.inr h)

lemma goodChar_range {c : Char} (h : goodChar c = true) :
    43 ≤ c.toNat ∧ c.toNat ≤ 57 := by
  rcases goodChar_cases h with hd | rfl | rfl
  · have := digit_range hd
    omega
  · decide
  · decide

lemma range_not_ws {c : Char} (h : 43 ≤ c.toNat ∧ c.toNat ≤ 57) : wsB c = false := by
  rcases Bool.eq_false_or_eq_true (wsB c) with ht | hf
  · exfalso
    unfold wsB at ht
    simp [Char.isWhitespace] at ht
    rcases ht with ((h1 | h1) | h1) | h1 <;> subst h1 <;> exact absurd h (by decide)
  · exact hf

lemma range_ne_hash {c : Char} (h : 43 ≤ c.toNat ∧ c.toNat ≤ 57) : c ≠ '#' := by
  intro he
  subst he
  exact absurd h (by decide)

lemma range_toLower {c : Char} (h : c.toNat ≤ 57) : c.toLower = c := by
  simp [Char.toLower]
  intro h1 h2
  omega

lemma digit_goodChar {c : Char} (h : c.isDigit = true) : goodChar c = true := by
  simp [goodChar, h]

lemma goodChar_floatClass {c : Char} (h : goodChar c = true) : floatClass c = true := by
  rcases goodChar_cases h with hd | rfl | rfl
  · simp [floatClass, hd]
  · decide
  · decide

lemma digit_ne_beq {c : Char} (h : c.isDigit = true) (d : Char)
    (hd : d.toNat < 48 ∨ 57 < d.toNat) : (c == d) = false := by
  have hr := digit_range h
  simp only [beq_eq_false_iff_ne, ne_eq]
  intro he
  subst he
  omega

lemma headD_mem {α : Type} (l : List α) (d : α) (h : l ≠ []) : l.headD d ∈ l := by
  cases l with
  | nil => exact absurd rfl h
  | cons a t => exact List.mem_cons_self a t

/-! ## Number rendering facts -/

lemma charVal_digitChar {d : ℕ} (h : d < 10) : charVal (digitChar d) = d := by
  interval_cases d <;> rfl

lemma isDigit_digitChar {d : ℕ} (h : d < 10) : (digitChar d).isDigit = true := by
  interval_cases d <;> rfl

lemma natChars_digits {n : ℕ} : ∀ c ∈ natChars n, c.isDigit = true := by
  intro c hc
  unfold natChars at hc
  by_cases h : n = 0
  · rw [if_pos h] at hc
    simp at hc
    subst hc
    rfl
  · rw [if_neg h] at hc
    simp only [List.mem_map, List.mem_reverse] at hc
    obtain ⟨d, hd, rfl⟩ := hc
    exact isDigit_digitChar (Nat.digits_lt_base (by norm_num) hd)

lemma natChars_ne_nil (n : ℕ) : natChars n ≠ [] := by
  unfold natChars
  by_cases h : n = 0
  · rw [if_pos h]
    simp
  · rw [if_neg h]
    simp [Nat.digits_ne_nil_iff_ne_zero.mpr h]

lemma charsToNat_foldl (l : List Char) (a : ℕ) :
    l.foldl (fun a c => 10 * a + charVal c) a = a * 10 ^ l.length + charsToNat l := by
  induction l generalizing a with
  | nil => simp [charsToNat]
  | cons c cs ih =>
      show cs.foldl _ (10 * a + charVal c) = _
      rw [ih (10 * a + charVal c)]
      have h2 : charsToNat (c :: cs) = charVal c * 10 ^ cs.length + charsToNat cs := by
        show cs.foldl _ (10 * 0 + charVal c) = _
        rw [ih (10 * 0 + charVal c)]
        ring
      rw [h2, List.length_cons, pow_succ]
      ring

lemma charsToNat_append (a b : List Char) :
    charsToNat (a ++ b) = charsToNat a * 10 ^ b.length + charsToNat b := by
  show (a ++ b).foldl _ 0 = _
  rw [List.foldl_append]
  exact charsToNat_foldl b (charsToNat a)

lemma charsToNat_digitList (ds : List ℕ) (h : ∀ d ∈ ds, d < 10) :
    charsToNat (ds.reverse.map digitChar) = Nat.ofDigits 10 ds := by
  induction ds with
  | nil => rfl
  | cons d ds ih =>
      rw [List.reverse_cons, List.map_append, charsToNat_append]
      have h1 : charsToNat (ds.reverse.map digitChar) = Nat.ofDigits 10 ds :=
        ih (fun x hx => h x (List.mem_cons_of_mem _ hx))
      have h2 : charsToNat ([d].map digitChar) = d := by
        show 10 * 0 + charVal (digitChar d) = d
        rw [charVal_digitChar (h d (List.mem_cons_self _ _))]
        omega
      rw [h1, h2, Nat.ofDigits_cons]
      simp
      ring

lemma charsToNat_natChars (n : ℕ) : charsToNat (natChars n) = n := by
  unfold natChars
  by_cases h : n = 0
  · rw [if_pos h, h]
    rfl
  · rw [if_neg h,
      charsToNat_digitList _ (fun d hd => Nat.digits_lt_base (by norm_num) hd),
      Nat.ofDigits_digits]

lemma charsToNat_replicate_zero (k : ℕ) (l : List Char) :
    charsToNat (List.replicate k '0' ++ l) = charsToNat l := by
  induction k with
  | zero => rfl
  | succ k ih =>
      show (List.replicate k '0' ++ l).foldl _ (10 * 0 + charVal '0') = _
      have h0 : (10 * 0 + charVal '0') = 0 := rfl
      rw [h0]
      exact ih

lemma charsToNat_natCharsPad (n len : ℕ) : charsToNat (natCharsPad n len) = n := by
  unfold natCharsPad
  rw [charsToNat_replicate_zero, charsToNat_natChars]

lemma natCharsPad_digits {n len : ℕ} : ∀ c ∈ natCharsPad n len, c.isDigit = true := by
  intro c hc
  unfold natCharsPad at hc
  rcases List.mem_append.mp hc with h | h
  · rw [List.eq_of_mem_replicate h]
    rfl
  · exact natChars_digits c h

lemma natCharsPad_length (n len : ℕ) : len ≤ (natCharsPad n len).length := by
  unfold natCharsPad
  rw [List.length_append, List.length_replicate]
  omega

/-! ## float() round-trips str() output -/

lemma takeWhile_eq_self {α : Type} (p : α → Bool) :
    ∀ (l : List α), l.all p = true → l.takeWhile p = l
  | [], _ => rfl
  | a :: l, h => by
      simp only [List.all_cons, Bool.and_eq_true] at h
      rw [List.takeWhile_cons, if_pos h.1, takeWhile_eq_self p l h.2]

lemma takeWhile_append_all {α : Type} (p : α → Bool) (l1 l2 : List α)
    (h : l1.all p = true) : (l1 ++ l2).takeWhile p = l1 ++ l2.takeWhile p := by
  induction l1 with
  | nil => rfl
  | cons a t ih =>
      simp only [List.all_cons, Bool.and_eq_true] at h
      rw [List.cons_append, List.takeWhile_cons, if_pos h.1, List.cons_append, ih h.2]

lemma headD_append {α : Type} (l r : List α) (d : α) (h : l ≠ []) :
    (l ++ r).headD d = l.headD d := by
  cases l with
  | nil => exact absurd rfl h
  | cons a t => rfl

lemma parseFloat_digitsOnly (D : List Char) (hD : D.all (·.isDigit) = true)
    (hne : D ≠ []) : parseFloat D = some ((charsToNat D : ℤ), 0) := by
  have hhead : (D.headD ' ').isDigit = true :=
    List.all_eq_true.mp hD _ (headD_mem D ' ' hne)
  have h1 : (D.headD ' ' == '-') = false := digit_ne_beq hhead '-' (by decide)
  have h2 : (D.headD ' ' == '+') = false := digit_ne_beq hhead '+' (by decide)
  unfold parseFloat
  rw [h1, h2]
  simp only [Bool.or_self, Bool.false_eq_true, if_false]
  rw [takeWhile_eq_self _ D hD, List.drop_length]
  simp [List.isEmpty_eq_true, hne]

lemma parseFloat_digitsFrac (D F : List Char) (hD : D.all (·.isDigit) = true)
    (hF : F.all (·.isDigit) = true) (hDne : D ≠ []) (hFne : F ≠ []) :
    parseFloat (D ++ '.' :: F) =
      some (((charsToNat D * 10 ^ F.length + charsToNat F : ℕ) : ℤ), F.length) := by
  have hhead : ((D ++ '.' :: F).headD ' ').isDigit = true := by
    rw [headD_append _ _ _ hDne]
    exact List.all_eq_true.mp hD _ (headD_mem D ' ' hDne)
  have h1 : ((D ++ '.' :: F).headD ' ' == '-') = false := digit_ne_beq hhead '-' (by decide)
  have h2 : ((D ++ '.' :: F).headD ' ' == '+') = false := digit_ne_beq hhead '+' (by decide)
  unfold parseFloat
  rw [h1, h2]
  simp only [Bool.or_self, Bool.false_eq_true, if_false]
  rw [takeWhile_append_all _ D _ hD]
  have hdot : ('.' :: F).takeWhile (·.isDigit) = [] := by
    rw [List.takeWhile_cons, if_neg (by decide)]
  rw [hdot, List.append_nil, List.drop_left D]
  simp [List.isEmpty_eq_true]
  exact ⟨List.all_eq_true.mp hF, fun _ => hFne⟩

lemma parseFloat_negDigits (D : List Char) (hD : D.all (·.isDigit) = true)
    (hne : D ≠ []) : parseFloat ('-' :: D) = some (-(charsToNat D : ℤ), 0) := by
  unfold parseFloat
  simp only [List.headD_cons, beq_self_eq_true, Bool.true_or, if_true, List.tail_cons]
  rw [takeWhile_eq_self _ D hD, List.drop_length]
  simp [List.isEmpty_eq_true, hne]

lemma parseFloat_negFrac (D F : List Char) (hD : D.all (·.isDigit) = true)
    (hF : F.all (·.isDigit) = true) (hFne : F ≠ []) :
    parseFloat ('-' :: (D ++ '.' :: F)) =
      some (-((charsToNat D * 10 ^ F.length + charsToNat F : ℕ) : ℤ), F.length) := by
  unfold parseFloat
  simp only [List.headD_cons, beq_self_eq_true, Bool.true_or, if_true, List.tail_cons]
  rw [takeWhile_append_all _ D _ hD]
  have hdot : ('.' :: F).takeWhile (·.isDigit) = [] := by
    rw [List.takeWhile_cons, if_neg (by decide)]
  rw [hdot, List.append_nil, List.drop_left D]
  simp [List.isEmpty_eq_true]
  exact ⟨List.all_eq_true.mp hF, fun _ => hFne⟩

lemma natChars_all (n : ℕ) : (natChars n).all (·.isDigit) = true :=
  List.all_eq_true.mpr natChars_digits

lemma parseFloat_intChars (z : ℤ) : parseFloat (intChars z) = some (z, 0) := by
  unfold intChars
  by_cases h : z < 0
  · rw [if_pos h, parseFloat_negDigits _ (natChars_all _) (natChars_ne_nil _),
      charsToNat_natChars]
    have : -(z.natAbs : ℤ) = z := by omega
    rw [this]
  · rw [if_neg h, parseFloat_digitsOnly _ (natChars_all _) (natChars_ne_nil _),
      charsToNat_natChars]
    have : (z.natAbs : ℤ) = z := by omega
    rw [this]

lemma parseFloat_decChars (m : ℤ) (e : ℕ) :
    parseFloat (decChars m e) = some (if e = 0 then ((10 * m : ℤ), (1 : ℕ)) else (m, e)) := by
  unfold decChars
  by_cases he : e = 0
  · rw [if_pos he, if_pos he]
    unfold intChars
    by_cases h : m < 0
    · rw [if_pos h]
      have hshape : ('-' :: natChars m.natAbs) ++ ['.', '0'] =
          '-' :: (natChars m.natAbs ++ '.' :: ['0']) := rfl
      rw [hshape, parseFloat_negFrac _ _ (natChars_all _) (by decide) (by decide),
        charsToNat_natChars]
      have h0 : charsToNat ['0'] = 0 := rfl
      rw [h0]
      simp only [Option.some.injEq, Prod.mk.injEq, List.length_singleton, pow_one]
      constructor
      · omega
      · trivial
    · rw [if_neg h]
      have hshape : natChars m.natAbs ++ ['.', '0'] =
          natChars m.natAbs ++ '.' :: ['0'] := rfl
      rw [hshape, parseFloat_digitsFrac _ _ (natChars_all _) (by decide)
        (natChars_ne_nil _) (by decide), charsToNat_natChars]
      have h0 : charsToNat ['0'] = 0 := rfl
      rw [h0]
      simp only [Option.some.injEq, Prod.mk.injEq, List.length_singleton, pow_one]
      constructor
      · omega
      · trivial
  · rw [if_neg he, if_neg he]
    dsimp only
    have hLen : e + 1 ≤ (natCharsPad m.natAbs (e + 1)).length := natCharsPad_length _ _
    set ds := natCharsPad m.natAbs (e + 1) with hds
    set L := ds.length with hLdef
    have hD : (ds.take (L - e)).all (·.isDigit) = true :=
      List.all_eq_true.mpr fun c hc => natCharsPad_digits c (List.take_subset _ _ hc)
    have hF : (ds.drop (L - e)).all (·.isDigit) = true :=
      List.all_eq_true.mpr fun c hc => natCharsPad_digits c (List.drop_subset _ _ hc)
    have hDne : ds.take (L - e) ≠ [] := by
      have : (ds.take (L - e)).length = L - e := by
        rw [List.length_take]
        omega
      intro hnil
      rw [hnil] at this
      simp at this
      omega
    have hFne : ds.drop (L - e) ≠ [] := by
      have : (ds.drop (L - e)).length = e := by
        rw [List.length_drop]
        omega
      intro hnil
      rw [hnil] at this
      simp at this
      omega
    have hFlen : (ds.drop (L - e)).length = e := by
      rw [List.length_drop]
      omega
    have hval : charsToNat (ds.take (L - e)) * 10 ^ (ds.drop (L - e)).length +
        charsToNat (ds.drop (L - e)) = m.natAbs := by
      rw [← charsToNat_append, List.take_append_drop, hds, charsToNat_natCharsPad]
    by_cases h : m < 0
    · rw [if_pos h]
      have hshape : ['-'] ++ (ds.take (L - e) ++ '.' :: ds.drop (L - e)) =
          '-' :: (ds.take (L - e) ++ '.' :: ds.drop (L - e)) := rfl
      rw [hshape, parseFloat_negFrac _ _ hD hF hFne, hval, hFlen]
      simp only [Option.some.injEq, Prod.mk.injEq]
      constructor
      · omega
      · trivial
    · rw [if_neg h]
      have hshape : ([] : List Char) ++ (ds.take (L - e) ++ '.' :: ds.drop (L - e)) =
          ds.take (L - e) ++ '.' :: ds.drop (L - e) := rfl
      rw [hshape, parseFloat_digitsFrac _ _ hD hF hDne hFne, hval, hFlen]
      simp only [Option.some.injEq, Prod.mk.injEq]
      constructor
      · omega
      · trivial

/-- The Dec produced by float() on str() of a value. -/
def parsedDec : Val → Dec
  | Val.vi n => (n, 0)
  | Val.vf m e => if e = 0 then ((10 * m : ℤ), (1 : ℕ)) else (m, e)

lemma parseFloat_renderVal (v : Val) : parseFloat (renderVal v) = some (parsedDec v) := by
  cases v with
  | vi n => exact parseFloat_intChars n
  | vf m e => exact parseFloat_decChars m e

lemma parsedDec_toRat (v : Val) : Dec.toRat (parsedDec v) = v.toRat := by
  cases v with
  | vi n => simp [parsedDec, Dec.toRat, Val.toRat]
  | vf m e =>
      by_cases he : e = 0
      · subst he
        have h1 : parsedDec (Val.vf m 0) = ((10 * m : ℤ), (1 : ℕ)) := rfl
        rw [h1]
        simp only [Dec.toRat, Val.toRat]
        push_cast
        rw [pow_one, pow_zero, div_one, mul_comm, mul_div_assoc]
        norm_num
      · have h1 : parsedDec (Val.vf m e) = (m, e) := by
          simp [parsedDec, he]
        rw [h1]
        simp only [Dec.toRat, Val.toRat]

/-! ## Token and line lemmas -/

lemma splitWSAux_nonws (tok : List Char) (h : ∀ c ∈ tok, wsB c = false) :
    ∀ (rest acc : List Char), splitWSAux (tok ++ rest) acc = splitWSAux rest (tok.reverse ++ acc) := by
  induction tok with
  | nil => intro rest acc; rfl
  | cons c t ih =>
      intro rest acc
      have hc : wsB c = false := h c (List.mem_cons_self _ _)
      show splitWSAux (c :: (t ++ rest)) acc = _
      simp only [splitWSAux]
      rw [hc]
      simp only [Bool.false_eq_true, if_false]
      rw [ih (fun x hx => h x (List.mem_cons_of_mem _ hx)) rest (c :: acc)]
      congr 1
      simp

lemma splitWSAux_space (rest acc : List Char) :
    splitWSAux (' ' :: rest) acc =
      (if acc.isEmpty then [] else [acc.reverse]) ++ splitWSAux rest [] := by
  simp only [splitWSAux]
  rw [show wsB ' ' = true from rfl]
  simp

lemma splitWS_joinToks : ∀ (toks : List (List Char)),
    (∀ t ∈ toks, t ≠ [] ∧ ∀ c ∈ t, wsB c = false) →
    splitWS (joinToks toks) = toks := by
  intro toks
  induction toks with
  | nil => intro _; rfl
  | cons t ts ih =>
      intro h
      have ht := h t (List.mem_cons_self _ _)
      cases ts with
      | nil =>
          show splitWS t = [t]
          unfold splitWS
          have := splitWSAux_nonws t ht.2 [] []
          rw [List.append_nil] at this
          rw [this]
          simp only [splitWSAux]
          rw [List.append_nil]
          have hne : t.reverse.isEmpty = false := by
            simp [List.isEmpty_eq_true, ht.1]
          rw [hne]
          simp
      | cons t2 ts2 =>
          show splitWS (t ++ ' ' :: joinToks (t2 :: ts2)) = t :: t2 :: ts2
          unfold splitWS
          rw [splitWSAux_nonws t ht.2, List.append_nil, splitWSAux_space]
          have hne : t.reverse.isEmpty = false := by
            simp [List.isEmpty_eq_true, ht.1]
          rw [hne]
          simp only [Bool.false_eq_true, if_false, List.reverse_reverse]
          have := ih (fun x hx => h x (List.mem_cons_of_mem _ hx))
          unfold splitWS at this
          rw [this]
          rfl

lemma stripComment_eq_self (l : List Char) (h : '#' ∉ l) :
    l.takeWhile (fun c => decide (c ≠ '#')) = l :=
  takeWhile_eq_self _ l (List.all_eq_true.mpr fun c hc =>
    decide_eq_true (fun he => h (he ▸ hc)))

lemma trim_eq_self (l : List Char) (h1 : ∀ c ∈ l.head?, wsB c = false)
    (h2 : ∀ c ∈ l.getLast?, wsB c = false) : trim l = l := by
  unfold trim
  cases l with
  | nil => rfl
  | cons a t =>
      have ha : wsB a = false := h1 a rfl
      rw [List.dropWhile_cons, if_neg (by simp [ha])]
      cases hrev : (a :: t).reverse with
      | nil => simp at hrev
      | cons b rb =>
          have hb : wsB b = false := by
            apply h2
            rw [← List.head?_reverse, hrev]
            rfl
          rw [List.dropWhile_cons, if_neg (by simp [hb]), ← hrev,
            List.reverse_reverse]

lemma trim_append_space (l : List Char) (h1 : ∀ c ∈ l.head?, wsB c = false)
    (h2 : ∀ c ∈ l.getLast?, wsB c = false) (hne : l ≠ []) : trim (l ++ [' ']) = l := by
  unfold trim
  cases l with
  | nil => exact absurd rfl hne
  | cons a t =>
      have ha : wsB a = false := h1 a rfl
      rw [List.cons_append, List.dropWhile_cons, if_neg (by simp [ha]),
        ← List.cons_append, List.reverse_append]
      show ((' ' :: (a :: t).reverse).dropWhile wsB).reverse = a :: t
      rw [List.dropWhile_cons, if_pos (by rfl)]
      cases hrev : (a :: t).reverse with
      | nil => simp at hrev
      | cons b rb =>
          have hb : wsB b = false := by
            apply h2
            rw [← List.head?_reverse, hrev]
            rfl
          rw [List.dropWhile_cons, if_neg (by simp [hb]), ← hrev, List.reverse_reverse]

lemma head?_append_left {α : Type} (l r : List α) (h : l ≠ []) :
    (l ++ r).head? = l.head? := by
  cases l with
  | nil => exact absurd rfl h
  | cons a t => rfl

lemma getLast?_append_right {α : Type} (l r : List α) (h : r ≠ []) :
    (l ++ r).getLast? = r.getLast? := by
  rw [List.getLast?_append]
  cases hr : r.getLast? with
  | none =>
      exfalso
      exact h (List.getLast?_eq_none_iff.mp hr)
  | some b => rfl

lemma head_small_ne_keyword (l : List Char) (c : Char) (hc : l.head? = some c)
    (hd : c.toNat ≤ 57) : l.map Char.toLower ∉ SECTION_KEYWORDS := by
  intro hmem
  have hkw : ∀ kw ∈ SECTION_KEYWORDS, ∀ x ∈ kw.head?, 96 < x.toNat := by decide
  have hlc : (l.map Char.toLower).head? = some (Char.toLower c) := by
    rw [List.head?_map, hc]
    rfl
  rw [range_toLower hd] at hlc
  have := hkw _ hmem c hlc
  omega

/-! ## Rendered values: character classes -/

lemma intChars_good (z : ℤ) : ∀ c ∈ intChars z, goodChar c = true := by
  intro c hc
  unfold intChars at hc
  by_cases h : z < 0
  · rw [if_pos h] at hc
    rcases List.mem_cons.mp hc with rfl | hc2
    · decide
    · exact digit_goodChar (natChars_digits c hc2)
  · rw [if_neg h] at hc
    exact digit_goodChar (natChars_digits c hc)

lemma decChars_good (m : ℤ) (e : ℕ) : ∀ c ∈ decChars m e, goodChar c = true := by
  intro c hc
  unfold decChars at hc
  by_cases he : e = 0
  · rw [if_pos he] at hc
    rcases List.mem_append.mp hc with h | h
    · exact intChars_good m c h
    · rcases List.mem_cons.mp h with rfl | h2
      · decide
      · simp at h2
        subst h2
        decide
  · rw [if_neg he] at hc
    dsimp only at hc
    rcases List.mem_append.mp hc with h | h
    · by_cases hm : m < 0
      · rw [if_pos hm] at h
        simp at h
        subst h
        decide
      · rw [if_neg hm] at h
        simp at h
    · rcases List.mem_append.mp h with h2 | h2
      · exact digit_goodChar (natCharsPad_digits c (List.take_subset _ _ h2))
      · rcases List.mem_cons.mp h2 with rfl | h3
        · decide
        · exact digit_goodChar (natCharsPad_digits c (List.drop_subset _ _ h3))

lemma renderVal_good (v : Val) : ∀ c ∈ renderVal v, goodChar c = true := by
  cases v with
  | vi n => exact intChars_good n
  | vf m e => exact decChars_good m e

lemma renderVal_ne_nil (v : Val) : renderVal v ≠ [] := by
  cases v with
  | vi n =>
      show intChars n ≠ []
      unfold intChars
      by_cases h : n < 0
      · rw [if_pos h]
        simp
      · rw [if_neg h]
        exact natChars_ne_nil _
  | vf m e =>
      show decChars m e ≠ []
      unfold decChars
      by_cases he : e = 0
      · rw [if_pos he]
        simp
      · rw [if_neg he]
        dsimp only
        intro hnil
        rcases List.append_eq_nil.mp hnil with ⟨-, h2⟩
        rcases List.append_eq_nil.mp h2 with ⟨-, h3⟩
        simp at h3

lemma renderVal_not_ws (v : Val) : ∀ c ∈ renderVal v, wsB c = false :=
  fun c hc => range_not_ws (goodChar_range (renderVal_good v c hc))

lemma renderVal_no_hash (v : Val) : ∀ c ∈ renderVal v, c ≠ '#' :=
  fun c hc => range_ne_hash (goodChar_range (renderVal_good v c hc))

lemma isFloatTok_renderVal (v : Val) : isFloatTok (renderVal v) = true := by
  unfold isFloatTok
  rw [Bool.and_eq_true]
  constructor
  · simp [List.isEmpty_eq_true, renderVal_ne_nil v]
  · exact List.all_eq_true.mpr fun c hc => goodChar_floatClass (renderVal_good v c hc)

lemma natChars_not_ws (n : ℕ) : ∀ c ∈ natChars n, wsB c = false :=
  fun c hc => range_not_ws (goodChar_range (digit_goodChar (natChars_digits c hc)))

lemma natChars_no_hash (n : ℕ) : ∀ c ∈ natChars n, c ≠ '#' :=
  fun c hc => range_ne_hash (goodChar_range (digit_goodChar (natChars_digits c hc)))

/-! ## Header pattern shape lemmas -/

lemma typesMatch_length {toks : List (List Char)} (h : toks.length ≠ 3) :
    typesMatch toks = false := by
  unfold typesMatch
  match toks, h with
  | [], _ => rfl
  | [a], _ => rfl
  | [a, b], _ => rfl
  | [a, b, c], h => exact absurd rfl h
  | a :: b :: c :: d :: t, _ => rfl

lemma boxMatch_length {toks : List (List Char)} (h : toks.length ≠ 4) :
    boxMatch toks = false := by
  unfold boxMatch
  match toks, h with
  | [], _ => rfl
  | [a], _ => rfl
  | [a, b], _ => rfl
  | [a, b, c], _ => rfl
  | [a, b, c, d], h => exact absurd rfl h
  | a :: b :: c :: d :: e :: t, _ => rfl

lemma countMatch_length {toks : List (List Char)} (h : toks.length ≠ 2) :
    countMatch toks = false := by
  unfold countMatch
  match toks, h with
  | [], _ => rfl
  | [a], _ => rfl
  | [a, b], h => exact absurd rfl h
  | a :: b :: c :: t, _ => rfl

lemma tiltMatch_length {toks : List (List Char)} (h : toks.length ≠ 6) :
    tiltMatch toks = false := by
  unfold tiltMatch
  match toks, h with
  | [], _ => rfl
  | [a], _ => rfl
  | [a, b], _ => rfl
  | [a, b, c], _ => rfl
  | [a, b, c, d], _ => rfl
  | [a, b, c, d, e], _ => rfl
  | [a, b, c, d, e, f], h => exact absurd rfl h
  | a :: b :: c :: d :: e :: f :: g :: t, _ => rfl

/-! ## Parsing serialized lines -/

lemma bool_not_true {b : Bool} (h : b = false) : ¬ b = true := by
  rw [h]
  exact Bool.false_ne_true

lemma parseLine_blank (st : PState) : parseLine [] st = some st := rfl

lemma lineHeaders_small (s : List Char) (st : PState)
    (h : (splitWS s).length ≤ 3) :
    ∃ cnts, lineHeaders s st = some { st with counts := cnts } := by
  unfold lineHeaders
  dsimp only
  by_cases ht : typesMatch (splitWS s) = true
  · rw [if_pos ht]
    exact ⟨_, rfl⟩
  · rw [if_neg ht, if_neg (bool_not_true (boxMatch_length (by omega)))]
    by_cases hc : countMatch (splitWS s) = true
    · rw [if_pos hc]
      exact ⟨_, rfl⟩
    · rw [if_neg hc, if_neg (bool_not_true (tiltMatch_length (by omega)))]
      exact ⟨st.counts, rfl⟩

lemma parseLine_benign (l : List Char) (st : PState) (hcur : st.current = none)
    (hkw : (trim (l.takeWhile (fun c => decide (c ≠ '#')))).map Char.toLower ∉ SECTION_KEYWORDS)
    (hlen : (splitWS (trim (l.takeWhile (fun c => decide (c ≠ '#'))))).length ≤ 3) :
    ∃ cnts, parseLine l st = some { st with counts := cnts } := by
  unfold parseLine
  dsimp only
  by_cases hemp : (trim (l.takeWhile (fun c => decide (c ≠ '#')))).isEmpty = true
  · rw [if_pos hemp]
    exact ⟨st.counts, rfl⟩
  · rw [if_neg hemp, if_neg hkw, hcur]
    dsimp only
    obtain ⟨cnts, hc⟩ := lineHeaders_small (trim (l.takeWhile (fun c => decide (c ≠ '#')))) st hlen
    refine ⟨cnts, ?_⟩
    rw [hc, hcur]

lemma parseLine_title (st : PState) (hcur : st.current = none) :
    parseLine ("Data file generated by pymatgen".toList) st = some st := by
  unfold parseLine
  dsimp only
  rw [if_neg (by decide), if_neg (by decide), hcur]
  dsimp only
  unfold lineHeaders
  dsimp only
  rw [if_neg (by decide), if_neg (by decide), if_neg (by decide), if_neg (by decide)]

lemma splitWS_token_space (tok rest : List Char) (h1 : tok ≠ [])
    (h2 : ∀ c ∈ tok, wsB c = false) :
    splitWS (tok ++ ' ' :: rest) = tok :: splitWS rest := by
  unfold splitWS
  rw [splitWSAux_nonws tok h2, List.append_nil, splitWSAux_space]
  have hne : tok.reverse.isEmpty = false := by
    simp [List.isEmpty_eq_true, h1]
  rw [hne]
  simp

lemma natChars_head (n : ℕ) : ∃ c, (natChars n).head? = some c ∧ c.isDigit = true := by
  cases h : natChars n with
  | nil => exact absurd h (natChars_ne_nil n)
  | cons a t =>
      refine ⟨a, rfl, @natChars_digits n a ?_⟩
      rw [h]
      exact List.mem_cons_self a t

lemma renderVal_head (v : Val) :
    ∃ c, (renderVal v).head? = some c ∧ c.toNat ≤ 57 ∧ wsB c = false := by
  cases h : renderVal v with
  | nil => exact absurd h (renderVal_ne_nil v)
  | cons a t =>
      have ha : a ∈ renderVal v := by
        rw [h]
        exact List.mem_cons_self a t
      exact ⟨a, rfl, (goodChar_range (renderVal_good v a ha)).2,
        range_not_ws (goodChar_range (renderVal_good v a ha))⟩

lemma mem_joinToks : ∀ (toks : List (List Char)) (c : Char), c ∈ joinToks toks →
    c = ' ' ∨ ∃ t ∈ toks, c ∈ t := by
  intro toks
  induction toks with
  | nil => intro c hc; simp [joinToks] at hc
  | cons a ts ih =>
      intro c hc
      cases ts with
      | nil =>
          right
          exact ⟨a, List.mem_cons_self _ _, hc⟩
      | cons b tb =>
          rcases List.mem_append.mp hc with h | h
          · right
            exact ⟨a, List.mem_cons_self _ _, h⟩
          · rcases List.mem_cons.mp h with rfl | h2
            · left
              rfl
            · rcases ih c h2 with h3 | ⟨t, ht, hct⟩
              · left
                exact h3
              · right
                exact ⟨t, List.mem_cons_of_mem _ ht, hct⟩

lemma joinToks_ne_nil (toks : List (List Char)) (h0 : toks ≠ [])
    (hall : ∀ x ∈ toks, x ≠ []) : joinToks toks ≠ [] := by
  cases toks with
  | nil => exact absurd rfl h0
  | cons a ts =>
      cases ts with
      | nil => exact hall a (List.mem_cons_self _ _)
      | cons b tb =>
          show a ++ ' ' :: joinToks (b :: tb) ≠ []
          intro hnil
          rcases List.append_eq_nil.mp hnil with ⟨-, h2⟩
          simp at h2

lemma joinToks_head? (toks : List (List Char)) (t : List Char)
    (hh : toks.head? = some t) (hne : t ≠ []) :
    (joinToks toks).head? = t.head? := by
  cases toks with
  | nil => simp at hh
  | cons a ts =>
      have ha : a = t := by
        injection hh
      subst ha
      cases ts with
      | nil => rfl
      | cons b tb =>
          show (a ++ ' ' :: joinToks (b :: tb)).head? = a.head?
          exact head?_append_left _ _ hne

lemma joinToks_getLast? : ∀ (toks : List (List Char)) (t : List Char),
    toks.getLast? = some t → (∀ x ∈ toks, x ≠ []) →
    (joinToks toks).getLast? = t.getLast? := by
  intro toks
  induction toks with
  | nil => intro t hh _; simp at hh
  | cons a ts ih =>
      intro t hh hall
      cases ts with
      | nil =>
          have ha : a = t := by simpa using hh
          subst ha
          rfl
      | cons b tb =>
          have hh2 : (b :: tb).getLast? = some t := by
            rw [← hh, List.getLast?_cons_cons]
          show (a ++ ' ' :: joinToks (b :: tb)).getLast? = t.getLast?
          rw [getLast?_append_right _ _ (by simp),
            show (' ' :: joinToks (b :: tb)) = [' '] ++ joinToks (b :: tb) from rfl,
            getLast?_append_right _ _ (joinToks_ne_nil _ (by simp)
              (fun x hx => hall x (List.mem_cons_of_mem _ hx)))]
          exact ih t hh2 (fun x hx => hall x (List.mem_cons_of_mem _ hx))

lemma mem_getLast? {α : Type} : ∀ (l : List α) (a : α), l.getLast? = some a → a ∈ l
  | [], a, h => by simp at h
  | [x], a, h => by
      have : x = a := by simpa using h
      subst this
      exact List.mem_cons_self _ _
  | x :: y :: t, a, h => by
      rw [List.getLast?_cons_cons] at h
      exact List.mem_cons_of_mem _ (mem_getLast? (y :: t) a h)

lemma parseFloats_map (row : List Val) :
    parseFloats (row.map renderVal) = some (row.map parsedDec) := by
  induction row with
  | nil => rfl
  | cons v t ih =>
      show parseFloats (renderVal v :: t.map renderVal) = _
      unfold parseFloats
      rw [parseFloat_renderVal, ih]
      rfl

lemma splitWS_renderRow (row : List Val) :
    splitWS (renderRow row) = row.map renderVal := by
  unfold renderRow
  apply splitWS_joinToks
  intro t ht
  rcases List.mem_map.mp ht with ⟨v, hv, rfl⟩
  exact ⟨renderVal_ne_nil v, renderVal_not_ws v⟩

lemma renderRow_ne_nil (row : List Val) (h : row ≠ []) : renderRow row ≠ [] := by
  unfold renderRow
  apply joinToks_ne_nil
  · simp [h]
  · intro x hx
    rcases List.mem_map.mp hx with ⟨v, hv, rfl⟩
    exact renderVal_ne_nil v

lemma renderRow_no_hash (row : List Val) : '#' ∉ renderRow row := by
  intro hm
  unfold renderRow at hm
  rcases mem_joinToks _ _ hm with h | ⟨t, ht, hct⟩
  · exact absurd h.symm (by decide)
  · rcases List.mem_map.mp ht with ⟨v, hv, rfl⟩
    exact renderVal_no_hash v _ hct rfl

lemma renderRow_head (v : Val) (vs : List Val) :
    (renderRow (v :: vs)).head? = (renderVal v).head? := by
  unfold renderRow
  exact joinToks_head? _ _ rfl (renderVal_ne_nil v)

lemma renderRow_getLast (row : List Val) (h : row ≠ []) :
    ∀ c ∈ (renderRow row).getLast?, wsB c = false := by
  intro c hc
  unfold renderRow at hc
  obtain ⟨w, hw⟩ := Option.isSome_iff_exists.mp (List.getLast?_isSome.mpr h)
  have hmap : (row.map renderVal).getLast? = some (renderVal w) := by
    rw [List.getLast?_map, hw]
    rfl
  rw [joinToks_getLast? _ _ hmap
    (fun x hx => by
      rcases List.mem_map.mp hx with ⟨u, hu, rfl⟩
      exact renderVal_ne_nil u)] at hc
  simp only [Option.mem_def] at hc
  exact renderVal_not_ws w c (mem_getLast? _ c hc)

lemma renderRow_head_facts (v : Val) (vs : List Val) :
    ∃ c, (renderRow (v :: vs)).head? = some c ∧ c.toNat ≤ 57 ∧ wsB c = false := by
  obtain ⟨c, hc, h1, h2⟩ := renderVal_head v
  exact ⟨c, by rw [renderRow_head, hc], h1, h2⟩

lemma head?_ws_false {l : List Char} {c0 : Char} (h : l.head? = some c0)
    (hw : wsB c0 = false) : ∀ c ∈ l.head?, wsB c = false := by
  intro c hc
  rw [h, Option.mem_def] at hc
  obtain rfl := Option.some.inj hc
  exact hw

lemma parseLine_keyword (name : List Char) (st : PState)
    (hh : '#' ∉ name)
    (h1 : ∀ c ∈ name.head?, wsB c = false)
    (h2 : ∀ c ∈ name.getLast?, wsB c = false)
    (hne : name ≠ [])
    (hmem : (name.map Char.toLower) ∈ SECTION_KEYWORDS) :
    parseLine (name ++ [' ']) st = some { st with
      current := some ((name.map Char.toLower).map (fun c => if c = ' ' then '-' else c)),
      sections := dictInsert st.sections
        ((name.map Char.toLower).map (fun c => if c = ' ' then '-' else c)) [] } := by
  unfold parseLine
  dsimp only
  have hstrip : (name ++ [' ']).takeWhile (fun c => decide (c ≠ '#')) = name ++ [' '] :=
    stripComment_eq_self _ (by
      intro hm
      rcases List.mem_append.mp hm with h | h
      · exact hh h
      · exact absurd (List.mem_singleton.mp h) (by decide))
  rw [hstrip, trim_append_space name h1 h2 hne,
    if_neg (by simp [List.isEmpty_eq_true, hne]), if_pos hmem]

lemma parseLine_row (v : Val) (vs : List Val) (st : PState) (k : List Char)
    (hcur : st.current = some k) (hsec : (alookup st.sections k).isSome = true) :
    parseLine (renderRow (v :: vs)) st =
      some { st with sections := dictAppend st.sections k ((v :: vs).map parsedDec) } := by
  unfold parseLine
  dsimp only
  obtain ⟨c0, hc0, hc0small, hc0ws⟩ := renderRow_head_facts v vs
  have hstrip : (renderRow (v :: vs)).takeWhile (fun c => decide (c ≠ '#')) =
      renderRow (v :: vs) := stripComment_eq_self _ (renderRow_no_hash _)
  have hvne : (v :: vs : List Val) ≠ [] := by simp
  have htrim : trim (renderRow (v :: vs)) = renderRow (v :: vs) :=
    trim_eq_self _ (head?_ws_false hc0 hc0ws) (renderRow_getLast _ hvne)
  rw [hstrip, htrim,
    if_neg (by simp [List.isEmpty_eq_true, renderRow_ne_nil _ hvne]),
    if_neg (head_small_ne_keyword _ c0 hc0 hc0small), hcur]
  dsimp only
  rw [if_pos hsec, splitWS_renderRow, parseFloats_map]

lemma parseLine_countLine (n : ℕ) (word : String) (st : PState)
    (hcur : st.current = none)
    (hw1 : '#' ∉ word.toList)
    (hw2 : ∀ c ∈ word.toList.getLast?, wsB c = false)
    (hw3 : word.toList ≠ [])
    (hw4 : (splitWS word.toList).length ≤ 2) :
    ∃ cnts, parseLine (countLine n word) st = some { st with counts := cnts } := by
  obtain ⟨c0, hc0, hc0d⟩ := natChars_head n
  have hhash : '#' ∉ countLine n word := by
    unfold countLine
    intro hm
    rcases List.mem_append.mp hm with h | h
    · exact natChars_no_hash n _ h rfl
    · rcases List.mem_cons.mp h with h2 | h2
      · exact absurd h2 (by decide)
      · exact hw1 h2
  have hhead : (countLine n word).head? = some c0 := by
    unfold countLine
    rw [head?_append_left _ _ (natChars_ne_nil n), hc0]
  have hlast : ∀ c ∈ (countLine n word).getLast?, wsB c = false := by
    unfold countLine
    rw [show (' ' :: word.toList) = [' '] ++ word.toList from rfl, ← List.append_assoc,
      getLast?_append_right _ _ hw3]
    exact hw2
  have hc0ws : wsB c0 = false := range_not_ws (goodChar_range (digit_goodChar hc0d))
  have htrim : trim (countLine n word) = countLine n word :=
    trim_eq_self _ (head?_ws_false hhead hc0ws) hlast
  have hstrip : (countLine n word).takeWhile (fun c => decide (c ≠ '#')) =
      countLine n word := stripComment_eq_self _ hhash
  have htoks : splitWS (countLine n word) = natChars n :: splitWS word.toList := by
    unfold countLine
    exact splitWS_token_space _ _ (natChars_ne_nil n) (natChars_not_ws n)
  apply parseLine_benign _ _ hcur
  · rw [hstrip, htrim]
    exact head_small_ne_keyword _ c0 hhead (digit_range hc0d).2
  · rw [hstrip, htrim, htoks]
    simp only [List.length_cons]
    omega

lemma getLast?_cons_right {α : Type} (a : α) (l : List α) (h : l ≠ []) :
    (a :: l).getLast? = l.getLast? := by
  rw [show a :: l = [a] ++ l from rfl, getLast?_append_right _ _ h]

lemma parseLine_boxLine (p : Val × Val) (st : PState) (t34 : String) (t3 t4 : List Char)
    (hcur : st.current = none)
    (hsplit : t34.toList = t3 ++ ' ' :: t4)
    (h3 : (t3 == "xlo".toList || t3 == "ylo".toList || t3 == "zlo".toList) = true)
    (h4 : (t4 == "xhi".toList || t4 == "yhi".toList || t4 == "zhi".toList) = true)
    (h3ne : t3 ≠ []) (h4ne : t4 ≠ [])
    (h3ws : ∀ c ∈ t3, wsB c = false) (h4ws : ∀ c ∈ t4, wsB c = false)
    (h3h : '#' ∉ t3) (h4h : '#' ∉ t4) :
    parseLine (boxLine p t34) st =
      some { st with boxes := dictInsert st.boxes (t3.take 1) [parsedDec p.1, parsedDec p.2] } := by
  have htoks : splitWS (boxLine p t34) = [renderVal p.1, renderVal p.2, t3, t4] := by
    unfold boxLine
    rw [hsplit,
      splitWS_token_space _ _ (renderVal_ne_nil p.1) (renderVal_not_ws p.1),
      splitWS_token_space _ _ (renderVal_ne_nil p.2) (renderVal_not_ws p.2),
      splitWS_token_space _ _ h3ne h3ws]
    have h1 : splitWS t4 = [t4] := splitWS_joinToks [t4] (by
      intro t ht
      rw [List.mem_singleton.mp ht]
      exact ⟨h4ne, h4ws⟩)
    rw [h1]
  have hhash : '#' ∉ boxLine p t34 := by
    unfold boxLine
    rw [hsplit]
    intro hm
    rcases List.mem_append.mp hm with h | h
    · exact renderVal_no_hash p.1 _ h rfl
    rcases List.mem_cons.mp h with h2 | h2
    · exact absurd h2 (by decide)
    rcases List.mem_append.mp h2 with h | h
    · exact renderVal_no_hash p.2 _ h rfl
    rcases List.mem_cons.mp h with h2 | h2
    · exact absurd h2 (by decide)
    rcases List.mem_append.mp h2 with h | h
    · exact h3h h
    rcases List.mem_cons.mp h with h2 | h2
    · exact absurd h2 (by decide)
    · exact h4h h2
  obtain ⟨c0, hc0, hsm, hws⟩ := renderVal_head p.1
  have hc0full : (boxLine p t34).head? = some c0 := by
    unfold boxLine
    rw [head?_append_left _ _ (renderVal_ne_nil p.1), hc0]
  have hlast : ∀ c ∈ (boxLine p t34).getLast?, wsB c = false := by
    intro c hc
    unfold boxLine at hc
    rw [hsplit, getLast?_append_right _ _ (by simp),
      getLast?_cons_right _ _ (by simp),
      getLast?_append_right _ _ (by simp),
      getLast?_cons_right _ _ (by simp),
      getLast?_append_right _ _ (by simp),
      getLast?_cons_right _ _ h4ne] at hc
    rw [Option.mem_def] at hc
    exact h4ws c (mem_getLast? _ c hc)
  have hbne : boxLine p t34 ≠ [] := by
    unfold boxLine
    simp
  unfold parseLine
  dsimp only
  rw [stripComment_eq_self _ hhash, trim_eq_self _ (head?_ws_false hc0full hws) hlast,
    if_neg (by simp [List.isEmpty_eq_true, hbne]),
    if_neg (head_small_ne_keyword _ c0 hc0full hsm), hcur]
  dsimp only
  unfold lineHeaders
  dsimp only
  rw [htoks]
  have hbox : boxMatch [renderVal p.1, renderVal p.2, t3, t4] = true := by
    show (isFloatTok (renderVal p.1) && isFloatTok (renderVal p.2) &&
      (t3 == "xlo".toList || t3 == "ylo".toList || t3 == "zlo".toList) &&
      (t4 == "xhi".toList || t4 == "yhi".toList || t4 == "zhi".toList)) = true
    rw [isFloatTok_renderVal, isFloatTok_renderVal, h3, h4]
    rfl
  rw [if_neg (bool_not_true (typesMatch_length (by simp))), if_pos hbox]
  simp only [List.getD_cons_zero, List.getD_cons_succ]
  rw [parseFloat_renderVal, parseFloat_renderVal]
  dsimp only
  rw [hcur]

/-! ## Dict lemmas for the parse state -/

lemma alookup_dictInsert {α β : Type} [DecidableEq α] (l : List (α × β)) (k k2 : α) (v : β) :
    alookup (dictInsert l k v) k2 = if k = k2 then some v else alookup l k2 := by
  induction l with
  | nil =>
      show alookup [(k, v)] k2 = _
      by_cases h : k = k2 <;> simp [alookup, h]
  | cons ab rest ih =>
      obtain ⟨a, b⟩ := ab
      show alookup (if a = k then (a, v) :: rest else (a, b) :: dictInsert rest k v) k2 = _
      by_cases hak : a = k
      · subst hak
        rw [if_pos rfl]
        by_cases h2 : a = k2
        · subst h2
          simp [alookup]
        · show (if a = k2 then some v else alookup rest k2) = _
          rw [if_neg h2, if_neg h2]
          show alookup rest k2 = alookup ((a, b) :: rest) k2
          show alookup rest k2 = if a = k2 then some b else alookup rest k2
          rw [if_neg h2]
      · rw [if_neg hak]
        show (if a = k2 then some b else alookup (dictInsert rest k v) k2) = _
        by_cases h2 : a = k2
        · rw [if_pos h2]
          have hk2 : ¬ k = k2 := fun he => hak (h2.trans he.symm)
          rw [if_neg hk2]
          show _ = if a = k2 then some b else alookup rest k2
          rw [if_pos h2]
        · rw [if_neg h2, ih]
          by_cases h3 : k = k2
          · rw [if_pos h3, if_pos h3]
          · rw [if_neg h3, if_neg h3]
            show _ = if a = k2 then some b else alookup rest k2
            rw [if_neg h2]

lemma alookup_dictAppend {α β : Type} [DecidableEq α] (l : List (α × List β)) (k k2 : α)
    (v : β) : alookup (dictAppend l k v) k2 =
      if k = k2 then (alookup l k2).map (fun vs => vs ++ [v]) else alookup l k2 := by
  induction l with
  | nil =>
      show (none : Option (List β)) = _
      by_cases h : k = k2 <;> simp [alookup, h]
  | cons ab rest ih =>
      obtain ⟨a, b⟩ := ab
      show alookup (if a = k then (a, b ++ [v]) :: rest else (a, b) :: dictAppend rest k v) k2 = _
      by_cases hak : a = k
      · subst hak
        rw [if_pos rfl]
        by_cases h2 : a = k2
        · subst h2
          simp [alookup]
        · show (if a = k2 then some (b ++ [v]) else alookup rest k2) = _
          rw [if_neg h2, if_neg h2]
          show alookup rest k2 = alookup ((a, b) :: rest) k2
          show alookup rest k2 = if a = k2 then some b else alookup rest k2
          rw [if_neg h2]
      · rw [if_neg hak]
        show (if a = k2 then some b else alookup (dictAppend rest k v) k2) = _
        by_cases h2 : a = k2
        · rw [if_pos h2]
          have hk2 : ¬ k = k2 := fun he => hak (h2.trans he.symm)
          rw [if_neg hk2]
          show _ = if a = k2 then some b else alookup rest k2
          rw [if_pos h2]
        · rw [if_neg h2, ih]
          by_cases h3 : k = k2
          · rw [if_pos h3, if_pos h3]
            congr 1
            show alookup rest k2 = if a = k2 then some b else alookup rest k2
            rw [if_neg h2]
          · rw [if_neg h3, if_neg h3]
            show _ = if a = k2 then some b else alookup rest k2
            rw [if_neg h2]

lemma dictAppend_dictInsert {α β : Type} [DecidableEq α] (l : List (α × List β)) (k : α)
    (vs : List β) (v : β) :
    dictAppend (dictInsert l k vs) k v = dictInsert l k (vs ++ [v]) := by
  induction l with
  | nil =>
      show dictAppend [(k, vs)] k v = [(k, vs ++ [v])]
      show (if k = k then (k, vs ++ [v]) :: [] else (k, vs) :: dictAppend [] k v) = _
      rw [if_pos rfl]
  | cons ab rest ih =>
      obtain ⟨a, b⟩ := ab
      show dictAppend (if a = k then (a, vs) :: rest else (a, b) :: dictInsert rest k vs) k v =
        (if a = k then (a, vs ++ [v]) :: rest else (a, b) :: dictInsert rest k (vs ++ [v]))
      by_cases hak : a = k
      · rw [if_pos hak, if_pos hak]
        show (if a = k then (a, vs ++ [v]) :: rest else (a, vs) :: dictAppend rest k v) =
          (a, vs ++ [v]) :: rest
        rw [if_pos hak]
      · rw [if_neg hak, if_neg hak]
        show (if a = k then (a, b ++ [v]) :: dictInsert rest k vs
              else (a, b) :: dictAppend (dictInsert rest k vs) k v) = _
        rw [if_neg hak, ih]

lemma foldl_dictAppend_insert {α β : Type} [DecidableEq α] (k : α) :
    ∀ (rows : List β) (l : List (α × List β)) (vs : List β),
    rows.foldl (fun acc r => dictAppend acc k r) (dictInsert l k vs) =
      dictInsert l k (vs ++ rows) := by
  intro rows
  induction rows with
  | nil => intro l vs; simp
  | cons r rs ih =>
      intro l vs
      show rs.foldl _ (dictAppend (dictInsert l k vs) k r) = _
      rw [dictAppend_dictInsert, ih]
      congr 1
      simp

/-! ## Segment lemmas -/

/-- A line that, under no active section, only ever touches the counts map. -/
def benignLine (l : List Char) : Prop :=
  ∀ st : PState, st.current = none → ∃ cnts, parseLine l st = some { st with counts := cnts }

lemma benign_title : benignLine ("Data file generated by pymatgen".toList) :=
  fun st h => ⟨st.counts, by rw [parseLine_title st h]⟩

lemma benign_blank : benignLine ([] : List Char) :=
  fun st _ => ⟨st.counts, by rw [parseLine_blank st]⟩

lemma benign_countLine (n : ℕ) (word : String)
    (hw1 : '#' ∉ word.toList)
    (hw2 : ∀ c ∈ word.toList.getLast?, wsB c = false)
    (hw3 : word.toList ≠ [])
    (hw4 : (splitWS word.toList).length ≤ 2) : benignLine (countLine n word) :=
  fun st h => parseLine_countLine n word st h hw1 hw2 hw3 hw4

lemma parse_benign_list : ∀ (ls : List (List Char)), (∀ l ∈ ls, benignLine l) →
    ∀ st : PState, st.current = none →
    ∃ cnts, parse_lines ls st = some { st with counts := cnts } := by
  intro ls
  induction ls with
  | nil =>
      intro _ st _
      exact ⟨st.counts, rfl⟩
  | cons l rest ih =>
      intro h st hcur
      obtain ⟨c1, hc1⟩ := h l (List.mem_cons_self _ _) st hcur
      have hstep : parse_lines (l :: rest) st =
          match parseLine l st with
          | none => none
          | some st2 => parse_lines rest st2 := rfl
      obtain ⟨c2, hc2⟩ := ih (fun x hx => h x (List.mem_cons_of_mem _ hx))
        { st with counts := c1 } hcur
      refine ⟨c2, ?_⟩
      rw [hstep, hc1]
      exact hc2

/-- The section key made from a block title: lowercase, spaces to dashes. -/
def kwKey (name : List Char) : List Char :=
  (name.map Char.toLower).map (fun c => if c = ' ' then '-' else c)

def rowsDec (rows : List (List Val)) : List (List Dec) :=
  rows.map (fun r => r.map parsedDec)

lemma parse_rows (k : List Char) : ∀ (rows : List (List Val)) (st : PState),
    st.current = some k → (alookup st.sections k).isSome = true →
    (∀ r ∈ rows, r ≠ []) →
    parse_lines (rows.map renderRow) st =
      some { st with sections := rows.foldl (fun acc r => dictAppend acc k (r.map parsedDec)) st.sections } := by
  intro rows
  induction rows with
  | nil =>
      intro st _ _ _
      rfl
  | cons r rs ih =>
      intro st h1 h2 h3
      obtain ⟨v, vs, rfl⟩ : ∃ v vs, r = v :: vs := by
        cases r with
        | nil => exact absurd rfl (h3 [] (List.mem_cons_self _ _))
        | cons v vs => exact ⟨v, vs, rfl⟩
      rw [List.map_cons]
      have hstep : parse_lines (renderRow (v :: vs) :: rs.map renderRow) st =
          match parseLine (renderRow (v :: vs)) st with
          | none => none
          | some st2 => parse_lines (rs.map renderRow) st2 := rfl
      rw [hstep, parseLine_row v vs st k h1 h2]
      dsimp only
      rw [ih { st with sections := dictAppend st.sections k ((v :: vs).map parsedDec) }
        h1 (by
          show (alookup (dictAppend st.sections k _) k).isSome = true
          rw [alookup_dictAppend, if_pos rfl]
          obtain ⟨y, hy⟩ := Option.isSome_iff_exists.mp h2
          rw [hy]
          rfl)
        (fun x hx => h3 x (List.mem_cons_of_mem _ hx))]
      rfl

lemma parse_block (name : List Char) (rows : List (List Val)) (st : PState)
    (hh : '#' ∉ name)
    (h1 : ∀ c ∈ name.head?, wsB c = false)
    (h2 : ∀ c ∈ name.getLast?, wsB c = false)
    (hne : name ≠ [])
    (hmem : name.map Char.toLower ∈ SECTION_KEYWORDS)
    (hrows : ∀ r ∈ rows, r ≠ []) (hrne : rows ≠ []) :
    parse_lines (blockLines name rows) st =
      some { st with current := some (kwKey name), sections := dictInsert st.sections (kwKey name) (rowsDec rows) } := by
  unfold blockLines
  rw [if_neg (by simp [List.isEmpty_eq_true, hrne])]
  have hsplit2 : ([([] : List Char), name ++ [' '], []] ++ rows.map renderRow) =
      [([] : List Char)] ++ ([name ++ [' ']] ++ ([([] : List Char)] ++ rows.map renderRow)) := by
    simp
  rw [hsplit2, parse_lines_append]
  have hb : parse_lines [([] : List Char)] st = some st := rfl
  rw [hb]
  dsimp only
  rw [parse_lines_append]
  have hkwstep : parse_lines [name ++ [' ']] st =
      some { st with current := some (kwKey name), sections := dictInsert st.sections (kwKey name) [] } := by
    have hstep : parse_lines [name ++ [' ']] st =
        match parseLine (name ++ [' ']) st with
        | none => none
        | some st2 => parse_lines [] st2 := rfl
    rw [hstep, parseLine_keyword name st hh h1 h2 hne hmem]
    rfl
  rw [hkwstep]
  dsimp only
  rw [parse_lines_append]
  have hb2 : parse_lines [([] : List Char)]
      { st with current := some (kwKey name), sections := dictInsert st.sections (kwKey name) [] } = some _ := rfl
  rw [hb2]
  dsimp only
  rw [parse_rows (kwKey name) rows _ rfl
    (by rw [alookup_dictInsert, if_pos rfl]; rfl) hrows]
  have hfold : rows.foldl (fun acc r => dictAppend acc (kwKey name) (r.map parsedDec))
      (dictInsert st.sections (kwKey name) []) =
      dictInsert st.sections (kwKey name) (rowsDec rows) := by
    have hm := List.foldl_map (fun r : List Val => r.map parsedDec)
      (fun acc r => dictAppend acc (kwKey name) r) rows
      (dictInsert st.sections (kwKey name) [])
    rw [← hm, foldl_dictAppend_insert]
    rfl
  rw [hfold]

/-- The net effect of one (possibly empty) data block on the sections map. -/
def insBlock (S : List (List Char × List (List Dec))) (key : List Char)
    (rows : List (List Val)) : List (List Char × List (List Dec)) :=
  if rows.isEmpty then S else dictInsert S key (rowsDec rows)

lemma parse_blockLines_any (name : List Char) (rows : List (List Val)) (st : PState)
    (hh : '#' ∉ name)
    (h1 : ∀ c ∈ name.head?, wsB c = false)
    (h2 : ∀ c ∈ name.getLast?, wsB c = false)
    (hne : name ≠ [])
    (hmem : name.map Char.toLower ∈ SECTION_KEYWORDS)
    (hrows : ∀ r ∈ rows, r ≠ []) :
    ∃ cur2, parse_lines (blockLines name rows) st =
      some { st with current := cur2, sections := insBlock st.sections (kwKey name) rows } := by
  unfold insBlock
  by_cases hr : rows.isEmpty = true
  · rw [if_pos hr]
    refine ⟨st.current, ?_⟩
    unfold blockLines
    rw [if_pos hr]
    rfl
  · rw [if_neg hr]
    exact ⟨some (kwKey name), parse_block name rows st hh h1 h2 hne hmem hrows
      (by simpa [List.isEmpty_eq_true] using hr)⟩

lemma parse_optBlock (c : Prop) [Decidable c] (name : List Char) (rows : List (List Val))
    (st : PState)
    (hh : '#' ∉ name)
    (h1 : ∀ x ∈ name.head?, wsB x = false)
    (h2 : ∀ x ∈ name.getLast?, wsB x = false)
    (hne : name ≠ [])
    (hmem : name.map Char.toLower ∈ SECTION_KEYWORDS)
    (hrows : ∀ r ∈ rows, r ≠ []) :
    ∃ cur2, parse_lines (if c then blockLines name rows else []) st =
      some { st with current := cur2, sections := if c then insBlock st.sections (kwKey name) rows else st.sections } := by
  by_cases hc : c
  · rw [if_pos hc, if_pos hc]
    exact parse_blockLines_any name rows st hh h1 h2 hne hmem hrows
  · rw [if_neg hc, if_neg hc]
    exact ⟨st.current, rfl⟩

/-- The box pair serialized for axis i. -/
def boxPair (d : FFData) (i : ℕ) : Val × Val := d.box_size.getD i (Val.vi 0, Val.vi 0)

/-- The box-axis map parse_data_file builds back from the three box lines. -/
def boxesOf (d : FFData) : List (List Char × List Dec) :=
  [(['x'], [parsedDec (boxPair d 0).1, parsedDec (boxPair d 0).2]),
   (['y'], [parsedDec (boxPair d 1).1, parsedDec (boxPair d 1).2]),
   (['z'], [parsedDec (boxPair d 2).1, parsedDec (boxPair d 2).2])]

/-- The sections map parse_data_file builds back from the serialized blocks. -/
def sectionsOf (d : FFData) : List (List Char × List (List Dec)) :=
  let s1 := insBlock [] ("masses".toList) d.atomic_masses
  let s2 := insBlock s1 ("pair-coeffs".toList) d.pair_coeffs
  let s3 := insBlock s2 ("bond-coeffs".toList) d.bond_coeffs
  let s4 := insBlock s3 ("angle-coeffs".toList) d.angle_coeffs
  let s5 := if d.dihedrals_data.length > 0 then insBlock s4 ("dihedral-coeffs".toList) d.dihedral_coeffs else s4
  let s6 := if d.imdihedrals_data.length > 0 then insBlock s5 ("improper-coeffs".toList) d.improper_coeffs else s5
  let s7 := insBlock s6 ("atoms".toList) d.atoms_data
  let s8 := insBlock s7 ("bonds".toList) d.bonds_data
  let s9 := insBlock s8 ("angles".toList) d.angles_data
  let s10 := if d.dihedrals_data.length > 0 then insBlock s9 ("dihedrals".toList) d.dihedrals_data else s9
  if d.imdihedrals_data.length > 0 then insBlock s10 ("impropers".toList) d.imdihedrals_data else s10

/-- One serialized data block: emission condition, title, rows. -/
structure BlockSpec where
  cond : Prop
  dec : Decidable cond
  name : List Char
  rows : List (List Val)

def blockSeg (b : BlockSpec) : List (List Char) :=
  @ite _ b.cond b.dec (blockLines b.name b.rows) []

def blocksLines : List BlockSpec → List (List Char)
  | [] => []
  | b :: bs => blockSeg b ++ blocksLines bs

def blocksSections : List (List Char × List (List Dec)) → List BlockSpec →
    List (List Char × List (List Dec))
  | S, [] => S
  | S, b :: bs =>
      blocksSections (@ite _ b.cond b.dec (insBlock S (kwKey b.name) b.rows) S) bs

def specOK (b : BlockSpec) : Prop :=
  '#' ∉ b.name ∧ (∀ c ∈ b.name.head?, wsB c = false) ∧
  (∀ c ∈ b.name.getLast?, wsB c = false) ∧ b.name ≠ [] ∧
  b.name.map Char.toLower ∈ SECTION_KEYWORDS ∧ ∀ r ∈ b.rows, r ≠ []

lemma parse_blocks : ∀ (bs : List BlockSpec) (st : PState), (∀ b ∈ bs, specOK b) →
    ∃ cur2, parse_lines (blocksLines bs) st =
      some { st with current := cur2, sections := blocksSections st.sections bs } := by
  intro bs
  induction bs with
  | nil =>
      intro st _
      exact ⟨st.current, rfl⟩
  | cons b rest ih =>
      intro st hok
      obtain ⟨hh, h1, h2, hne, hmem, hrows⟩ := hok b (List.mem_cons_self _ _)
      show ∃ cur2, parse_lines (blockSeg b ++ blocksLines rest) st = _
      rw [parse_lines_append]
      obtain ⟨u, hu⟩ := @parse_optBlock b.cond b.dec b.name b.rows st hh h1 h2 hne hmem hrows
      rw [show blockSeg b = @ite _ b.cond b.dec (blockLines b.name b.rows) [] from rfl, hu]
      dsimp only
      obtain ⟨u2, hu2⟩ := ih
        { st with current := u, sections := @ite _ b.cond b.dec (insBlock st.sections (kwKey b.name) b.rows) st.sections }
        (fun x hx => hok x (List.mem_cons_of_mem _ hx))
      rw [hu2]
      exact ⟨u2, rfl⟩

def specsOf (d : FFData) : List BlockSpec :=
  [⟨True, inferInstance, "Masses".toList, d.atomic_masses⟩,
   ⟨True, inferInstance, "Pair Coeffs".toList, d.pair_coeffs⟩,
   ⟨True, inferInstance, "Bond Coeffs".toList, d.bond_coeffs⟩,
   ⟨True, inferInstance, "Angle Coeffs".toList, d.angle_coeffs⟩,
   ⟨d.dihedrals_data.length > 0, inferInstance, "Dihedral Coeffs".toList, d.dihedral_coeffs⟩,
   ⟨d.imdihedrals_data.length > 0, inferInstance, "Improper Coeffs".toList, d.improper_coeffs⟩,
   ⟨True, inferInstance, "Atoms".toList, d.atoms_data⟩,
   ⟨True, inferInstance, "Bonds".toList, d.bonds_data⟩,
   ⟨True, inferInstance, "Angles".toList, d.angles_data⟩,
   ⟨d.dihedrals_data.length > 0, inferInstance, "Dihedrals".toList, d.dihedrals_data⟩,
   ⟨d.imdihedrals_data.length > 0, inferInstance, "Impropers".toList, d.imdihedrals_data⟩]

set_option maxHeartbeats 3200000 in
lemma parse_serializeLines (d : FFData)
    (hm : ∀ r ∈ d.atomic_masses, r ≠ []) (hp : ∀ r ∈ d.pair_coeffs, r ≠ [])
    (hbc : ∀ r ∈ d.bond_coeffs, r ≠ []) (hac : ∀ r ∈ d.angle_coeffs, r ≠ [])
    (hdc : ∀ r ∈ d.dihedral_coeffs, r ≠ []) (hic : ∀ r ∈ d.improper_coeffs, r ≠ [])
    (hat : ∀ r ∈ d.atoms_data, r ≠ []) (hbd : ∀ r ∈ d.bonds_data, r ≠ [])
    (han : ∀ r ∈ d.angles_data, r ≠ []) (hdd : ∀ r ∈ d.dihedrals_data, r ≠ [])
    (hid : ∀ r ∈ d.imdihedrals_data, r ≠ []) :
    ∃ cur cnts, parse_data_file (serializeLines d) =
      some { current := cur, sections := sectionsOf d, counts := cnts, boxes := boxesOf d } := by
  have hbenif : ∀ (c : Prop) (inst : Decidable c) (ln : List Char), benignLine ln →
      ∀ st : PState, st.current = none →
      ∃ cnts, parse_lines (@ite _ c inst [ln] []) st = some { st with counts := cnts } := by
    intro c inst ln hb st hst
    by_cases hc : c
    · rw [if_pos hc]
      exact parse_benign_list [ln] (fun l hl => by rw [List.mem_singleton.mp hl]; exact hb) st hst
    · rw [if_neg hc]
      exact ⟨st.counts, rfl⟩
  have hbseg : ∀ st : PState, st.current = none →
      parse_lines [[], boxLine (d.box_size.getD 0 (Val.vi 0, Val.vi 0)) "xlo xhi",
        boxLine (d.box_size.getD 1 (Val.vi 0, Val.vi 0)) "ylo yhi",
        boxLine (d.box_size.getD 2 (Val.vi 0, Val.vi 0)) "zlo zhi"] st =
      some { st with boxes := dictInsert (dictInsert (dictInsert st.boxes (List.take 1 ("xlo".toList)) [parsedDec (d.box_size.getD 0 (Val.vi 0, Val.vi 0)).1, parsedDec (d.box_size.getD 0 (Val.vi 0, Val.vi 0)).2]) (List.take 1 ("ylo".toList)) [parsedDec (d.box_size.getD 1 (Val.vi 0, Val.vi 0)).1, parsedDec (d.box_size.getD 1 (Val.vi 0, Val.vi 0)).2]) (List.take 1 ("zlo".toList)) [parsedDec (d.box_size.getD 2 (Val.vi 0, Val.vi 0)).1, parsedDec (d.box_size.getD 2 (Val.vi 0, Val.vi 0)).2] } := by
    intro st hst
    show parse_lines [boxLine (d.box_size.getD 0 (Val.vi 0, Val.vi 0)) "xlo xhi",
      boxLine (d.box_size.getD 1 (Val.vi 0, Val.vi 0)) "ylo yhi",
      boxLine (d.box_size.getD 2 (Val.vi 0, Val.vi 0)) "zlo zhi"] st = _
    have t1 : parse_lines [boxLine (d.box_size.getD 0 (Val.vi 0, Val.vi 0)) "xlo xhi",
        boxLine (d.box_size.getD 1 (Val.vi 0, Val.vi 0)) "ylo yhi",
        boxLine (d.box_size.getD 2 (Val.vi 0, Val.vi 0)) "zlo zhi"] st =
        match parseLine (boxLine (d.box_size.getD 0 (Val.vi 0, Val.vi 0)) "xlo xhi") st with
        | none => none
        | some st2 => parse_lines [boxLine (d.box_size.getD 1 (Val.vi 0, Val.vi 0)) "ylo yhi",
            boxLine (d.box_size.getD 2 (Val.vi 0, Val.vi 0)) "zlo zhi"] st2 := rfl
    rw [t1, parseLine_boxLine (d.box_size.getD 0 (Val.vi 0, Val.vi 0)) st "xlo xhi"
      ("xlo".toList) ("xhi".toList) hst rfl (by decide) (by decide) (by decide) (by decide)
      (by decide) (by decide) (by decide) (by decide)]
    dsimp only
    have t2 : parse_lines [boxLine (d.box_size.getD 1 (Val.vi 0, Val.vi 0)) "ylo yhi",
        boxLine (d.box_size.getD 2 (Val.vi 0, Val.vi 0)) "zlo zhi"]
        { st with boxes := dictInsert st.boxes (List.take 1 ("xlo".toList)) [parsedDec (d.box_size.getD 0 (Val.vi 0, Val.vi 0)).1, parsedDec (d.box_size.getD 0 (Val.vi 0, Val.vi 0)).2] } =
        match parseLine (boxLine (d.box_size.getD 1 (Val.vi 0, Val.vi 0)) "ylo yhi")
          { st with boxes := dictInsert st.boxes (List.take 1 ("xlo".toList)) [parsedDec (d.box_size.getD 0 (Val.vi 0, Val.vi 0)).1, parsedDec (d.box_size.getD 0 (Val.vi 0, Val.vi 0)).2] } with
        | none => none
        | some st2 => parse_lines [boxLine (d.box_size.getD 2 (Val.vi 0, Val.vi 0)) "zlo zhi"] st2 := rfl
    rw [t2, parseLine_boxLine (d.box_size.getD 1 (Val.vi 0, Val.vi 0)) { st with boxes := dictInsert st.boxes (List.take 1 ("xlo".toList)) [parsedDec (d.box_size.getD 0 (Val.vi 0, Val.vi 0)).1, parsedDec (d.box_size.getD 0 (Val.vi 0, Val.vi 0)).2] } "ylo yhi"
      ("ylo".toList) ("yhi".toList) hst rfl (by decide) (by decide) (by decide) (by decide)
      (by decide) (by decide) (by decide) (by decide)]
    dsimp only
    have t3 : parse_lines [boxLine (d.box_size.getD 2 (Val.vi 0, Val.vi 0)) "zlo zhi"]
        { st with boxes := dictInsert (dictInsert st.boxes (List.take 1 ("xlo".toList)) [parsedDec (d.box_size.getD 0 (Val.vi 0, Val.vi 0)).1, parsedDec (d.box_size.getD 0 (Val.vi 0, Val.vi 0)).2]) (List.take 1 ("ylo".toList)) [parsedDec (d.box_size.getD 1 (Val.vi 0, Val.vi 0)).1, parsedDec (d.box_size.getD 1 (Val.vi 0, Val.vi 0)).2] } =
        match parseLine (boxLine (d.box_size.getD 2 (Val.vi 0, Val.vi 0)) "zlo zhi")
          { st with boxes := dictInsert (dictInsert st.boxes (List.take 1 ("xlo".toList)) [parsedDec (d.box_size.getD 0 (Val.vi 0, Val.vi 0)).1, parsedDec (d.box_size.getD 0 (Val.vi 0, Val.vi 0)).2]) (List.take 1 ("ylo".toList)) [parsedDec (d.box_size.getD 1 (Val.vi 0, Val.vi 0)).1, parsedDec (d.box_size.getD 1 (Val.vi 0, Val.vi 0)).2] } with
        | none => none
        | some st2 => parse_lines [] st2 := rfl
    rw [t3, parseLine_boxLine (d.box_size.getD 2 (Val.vi 0, Val.vi 0)) { st with boxes := dictInsert (dictInsert st.boxes (List.take 1 ("xlo".toList)) [parsedDec (d.box_size.getD 0 (Val.vi 0, Val.vi 0)).1, parsedDec (d.box_size.getD 0 (Val.vi 0, Val.vi 0)).2]) (List.take 1 ("ylo".toList)) [parsedDec (d.box_size.getD 1 (Val.vi 0, Val.vi 0)).1, parsedDec (d.box_size.getD 1 (Val.vi 0, Val.vi 0)).2] } "zlo zhi"
      ("zlo".toList) ("zhi".toList) hst rfl (by decide) (by decide) (by decide) (by decide)
      (by decide) (by decide) (by decide) (by decide)]
    rfl
  unfold parse_data_file serializeLines
  dsimp only
  simp only [List.append_assoc]
  rw [parse_lines_append]
  obtain ⟨c1, h1⟩ := parse_benign_list ["Data file generated by pymatgen".toList, []]
    (by
      intro l hl
      rcases List.mem_cons.mp hl with rfl | hl2
      · exact benign_title
      rcases List.mem_cons.mp hl2 with rfl | hl3
      · exact benign_blank
      · simp at hl3)
    ⟨none, [], [], []⟩ rfl
  rw [h1]
  dsimp only
  rw [parse_lines_append]
  obtain ⟨c2, h2⟩ := parse_benign_list [countLine d.atoms_data.length "atoms",
      countLine d.bonds_data.length "bonds", countLine d.angles_data.length "angles"]
    (by
      intro l hl
      rcases List.mem_cons.mp hl with rfl | hl2
      · exact benign_countLine _ _ (by decide) (by decide) (by decide) (by decide)
      rcases List.mem_cons.mp hl2 with rfl | hl3
      · exact benign_countLine _ _ (by decide) (by decide) (by decide) (by decide)
      rcases List.mem_cons.mp hl3 with rfl | hl4
      · exact benign_countLine _ _ (by decide) (by decide) (by decide) (by decide)
      · simp at hl4)
    ⟨none, [], c1, []⟩ rfl
  rw [h2]
  dsimp only
  rw [parse_lines_append]
  obtain ⟨c3, h3⟩ := hbenif (d.dihedrals_data.length > 0) inferInstance
    (countLine d.dihedrals_data.length "dihedrals")
    (benign_countLine _ _ (by decide) (by decide) (by decide) (by decide))
    ⟨none, [], c2, []⟩ rfl
  rw [h3]
  dsimp only
  rw [parse_lines_append]
  obtain ⟨c4, h4⟩ := hbenif (d.imdihedrals_data.length > 0) inferInstance
    (countLine d.imdihedrals_data.length "impropers")
    (benign_countLine _ _ (by decide) (by decide) (by decide) (by decide))
    ⟨none, [], c3, []⟩ rfl
  rw [h4]
  dsimp only
  rw [parse_lines_append]
  obtain ⟨c5, h5⟩ := parse_benign_list [[], countLine d.atomic_masses.length "atom types",
      countLine d.bond_coeffs.length "bond types", countLine d.angle_coeffs.length "angle types"]
    (by
      intro l hl
      rcases List.mem_cons.mp hl with rfl | hl2
      · exact benign_blank
      rcases List.mem_cons.mp hl2 with rfl | hl3
      · exact benign_countLine _ _ (by decide) (by decide) (by decide) (by decide)
      rcases List.mem_cons.mp hl3 with rfl | hl4
      · exact benign_countLine _ _ (by decide) (by decide) (by decide) (by decide)
      rcases List.mem_cons.mp hl4 with rfl | hl5
      · exact benign_countLine _ _ (by decide) (by decide) (by decide) (by decide)
      · simp at hl5)
    ⟨none, [], c4, []⟩ rfl
  rw [h5]
  dsimp only
  rw [parse_lines_append]
  obtain ⟨c6, h6⟩ := hbenif (d.dihedrals_data.length > 0) inferInstance
    (countLine d.dihedral_coeffs.length "dihedral types")
    (benign_countLine _ _ (by decide) (by decide) (by decide) (by decide))
    ⟨none, [], c5, []⟩ rfl
  rw [h6]
  dsimp only
  rw [parse_lines_append]
  obtain ⟨c7, h7⟩ := hbenif (d.imdihedrals_data.length > 0) inferInstance
    (countLine d.improper_coeffs.length "improper types")
    (benign_countLine _ _ (by decide) (by decide) (by decide) (by decide))
    ⟨none, [], c6, []⟩ rfl
  rw [h7]
  dsimp only
  rw [parse_lines_append, hbseg ⟨none, [], c7, []⟩ rfl]
  dsimp only
  have hregion :
      (blockLines ("Masses".toList) d.atomic_masses ++
        (blockLines ("Pair Coeffs".toList) d.pair_coeffs ++
        (blockLines ("Bond Coeffs".toList) d.bond_coeffs ++
        (blockLines ("Angle Coeffs".toList) d.angle_coeffs ++
        ((if d.dihedrals_data.length > 0 then blockLines ("Dihedral Coeffs".toList) d.dihedral_coeffs else []) ++
        ((if d.imdihedrals_data.length > 0 then blockLines ("Improper Coeffs".toList) d.improper_coeffs else []) ++
        (blockLines ("Atoms".toList) d.atoms_data ++
        (blockLines ("Bonds".toList) d.bonds_data ++
        (blockLines ("Angles".toList) d.angles_data ++
        ((if d.dihedrals_data.length > 0 then blockLines ("Dihedrals".toList) d.dihedrals_data else []) ++
        (if d.imdihedrals_data.length > 0 then blockLines ("Impropers".toList) d.imdihedrals_data else []))))))))))) =
      blocksLines (specsOf d) := by
    simp [blocksLines, blockSeg, specsOf]
  rw [hregion]
  obtain ⟨uf, huf⟩ := parse_blocks (specsOf d)
    ⟨none, [], c7, dictInsert (dictInsert (dictInsert [] (List.take 1 ("xlo".toList)) [parsedDec (d.box_size.getD 0 (Val.vi 0, Val.vi 0)).1, parsedDec (d.box_size.getD 0 (Val.vi 0, Val.vi 0)).2]) (List.take 1 ("ylo".toList)) [parsedDec (d.box_size.getD 1 (Val.vi 0, Val.vi 0)).1, parsedDec (d.box_size.getD 1 (Val.vi 0, Val.vi 0)).2]) (List.take 1 ("zlo".toList)) [parsedDec (d.box_size.getD 2 (Val.vi 0, Val.vi 0)).1, parsedDec (d.box_size.getD 2 (Val.vi 0, Val.vi 0)).2]⟩
    (by
      intro b hb
      simp only [specsOf, List.mem_cons] at hb
      rcases hb with rfl | rfl | rfl | rfl | rfl | rfl | rfl | rfl | rfl | rfl | rfl | hb2
      · exact ⟨by dsimp only; decide, by dsimp only; decide, by dsimp only; decide, by dsimp only; decide, by dsimp only; decide, hm⟩
      · exact ⟨by dsimp only; decide, by dsimp only; decide, by dsimp only; decide, by dsimp only; decide, by dsimp only; decide, hp⟩
      · exact ⟨by dsimp only; decide, by dsimp only; decide, by dsimp only; decide, by dsimp only; decide, by dsimp only; decide, hbc⟩
      · exact ⟨by dsimp only; decide, by dsimp only; decide, by dsimp only; decide, by dsimp only; decide, by dsimp only; decide, hac⟩
      · exact ⟨by dsimp only; decide, by dsimp only; decide, by dsimp only; decide, by dsimp only; decide, by dsimp only; decide, hdc⟩
      · exact ⟨by dsimp only; decide, by dsimp only; decide, by dsimp only; decide, by dsimp only; decide, by dsimp only; decide, hic⟩
      · exact ⟨by dsimp only; decide, by dsimp only; decide, by dsimp only; decide, by dsimp only; decide, by dsimp only; decide, hat⟩
      · exact ⟨by dsimp only; decide, by dsimp only; decide, by dsimp only; decide, by dsimp only; decide, by dsimp only; decide, hbd⟩
      · exact ⟨by dsimp only; decide, by dsimp only; decide, by dsimp only; decide, by dsimp only; decide, by dsimp only; decide, han⟩
      · exact ⟨by dsimp only; decide, by dsimp only; decide, by dsimp only; decide, by dsimp only; decide, by dsimp only; decide, hdd⟩
      · exact ⟨by dsimp only; decide, by dsimp only; decide, by dsimp only; decide, by dsimp only; decide, by dsimp only; decide, hid⟩
      · simp at hb2)
  rw [huf]
  exact ⟨uf, c7, rfl⟩

/-! ## Reading the parsed sections back -/

lemma alookup_insBlock_ne (S : List (List Char × List (List Dec))) (key : List Char)
    (rows : List (List Val)) (k2 : List Char) (h : key ≠ k2) :
    alookup (insBlock S key rows) k2 = alookup S k2 := by
  unfold insBlock
  by_cases hr : rows.isEmpty = true
  · rw [if_pos hr]
  · rw [if_neg hr, alookup_dictInsert, if_neg h]

lemma alookup_insBlock_self (S : List (List Char × List (List Dec))) (key : List Char)
    (rows : List (List Val)) :
    alookup (insBlock S key rows) key =
      if rows.isEmpty then alookup S key else some (rowsDec rows) := by
  unfold insBlock
  by_cases hr : rows.isEmpty = true
  · rw [if_pos hr, if_pos hr]
  · rw [if_neg hr, if_neg hr, alookup_dictInsert, if_pos rfl]

lemma alookup_iteIns_ne (c : Prop) [Decidable c] (S : List (List Char × List (List Dec)))
    (key : List Char) (rows : List (List Val)) (k2 : List Char) (h : key ≠ k2) :
    alookup (if c then insBlock S key rows else S) k2 = alookup S k2 := by
  by_cases hc : c
  · rw [if_pos hc, alookup_insBlock_ne _ _ _ _ h]
  · rw [if_neg hc]

lemma isEmpty_false_of_ne {α : Type} {l : List α} (h : l ≠ []) : l.isEmpty = false := by
  simp [List.isEmpty_eq_true, h]

lemma eq_nil_of_isEmpty {α : Type} {l : List α} (h : l.isEmpty = true) : l = [] := by
  simpa [List.isEmpty_eq_true] using h

lemma lookup_masses (d : FFData) (h : d.atomic_masses ≠ []) :
    alookup (sectionsOf d) ("masses".toList) = some (rowsDec d.atomic_masses) := by
  unfold sectionsOf
  dsimp only
  rw [alookup_iteIns_ne _ _ _ _ _ (by decide), alookup_iteIns_ne _ _ _ _ _ (by decide),
    alookup_insBlock_ne _ _ _ _ (by decide), alookup_insBlock_ne _ _ _ _ (by decide),
    alookup_insBlock_ne _ _ _ _ (by decide), alookup_iteIns_ne _ _ _ _ _ (by decide),
    alookup_iteIns_ne _ _ _ _ _ (by decide), alookup_insBlock_ne _ _ _ _ (by decide),
    alookup_insBlock_ne _ _ _ _ (by decide), alookup_insBlock_ne _ _ _ _ (by decide),
    alookup_insBlock_self, if_neg (by rw [isEmpty_false_of_ne h]; exact Bool.false_ne_true)]

lemma lookup_pair (d : FFData) :
    (alookup (sectionsOf d) ("pair-coeffs".toList)).getD [] = rowsDec d.pair_coeffs := by
  unfold sectionsOf
  dsimp only
  rw [alookup_iteIns_ne _ _ _ _ _ (by decide), alookup_iteIns_ne _ _ _ _ _ (by decide),
    alookup_insBlock_ne _ _ _ _ (by decide), alookup_insBlock_ne _ _ _ _ (by decide),
    alookup_insBlock_ne _ _ _ _ (by decide), alookup_iteIns_ne _ _ _ _ _ (by decide),
    alookup_iteIns_ne _ _ _ _ _ (by decide), alookup_insBlock_ne _ _ _ _ (by decide),
    alookup_insBlock_ne _ _ _ _ (by decide), alookup_insBlock_self]
  by_cases hr : d.pair_coeffs.isEmpty = true
  · rw [if_pos hr, alookup_insBlock_ne _ _ _ _ (by decide), eq_nil_of_isEmpty hr]
    rfl
  · rw [if_neg hr]
    rfl

lemma lookup_bondc (d : FFData) :
    (alookup (sectionsOf d) ("bond-coeffs".toList)).getD [] = rowsDec d.bond_coeffs := by
  unfold sectionsOf
  dsimp only
  rw [alookup_iteIns_ne _ _ _ _ _ (by decide), alookup_iteIns_ne _ _ _ _ _ (by decide),
    alookup_insBlock_ne _ _ _ _ (by decide), alookup_insBlock_ne _ _ _ _ (by decide),
    alookup_insBlock_ne _ _ _ _ (by decide), alookup_iteIns_ne _ _ _ _ _ (by decide),
    alookup_iteIns_ne _ _ _ _ _ (by decide), alookup_insBlock_ne _ _ _ _ (by decide),
    alookup_insBlock_self]
  by_cases hr : d.bond_coeffs.isEmpty = true
  · rw [if_pos hr, alookup_insBlock_ne _ _ _ _ (by decide),
      alookup_insBlock_ne _ _ _ _ (by decide), eq_nil_of_isEmpty hr]
    rfl
  · rw [if_neg hr]
    rfl

lemma lookup_anglec (d : FFData) :
    (alookup (sectionsOf d) ("angle-coeffs".toList)).getD [] = rowsDec d.angle_coeffs := by
  unfold sectionsOf
  dsimp only
  rw [alookup_iteIns_ne _ _ _ _ _ (by decide), alookup_iteIns_ne _ _ _ _ _ (by decide),
    alookup_insBlock_ne _ _ _ _ (by decide), alookup_insBlock_ne _ _ _ _ (by decide),
    alookup_insBlock_ne _ _ _ _ (by decide), alookup_iteIns_ne _ _ _ _ _ (by decide),
    alookup_iteIns_ne _ _ _ _ _ (by decide), alookup_insBlock_self]
  by_cases hr : d.angle_coeffs.isEmpty = true
  · rw [if_pos hr, alookup_insBlock_ne _ _ _ _ (by decide),
      alookup_insBlock_ne _ _ _ _ (by decide), alookup_insBlock_ne _ _ _ _ (by decide),
      eq_nil_of_isEmpty hr]
    rfl
  · rw [if_neg hr]
    rfl

lemma lookup_dihc (d : FFData) (h : d.dihedral_coeffs ≠ [] → d.dihedrals_data ≠ []) :
    (alookup (sectionsOf d) ("dihedral-coeffs".toList)).getD [] = rowsDec d.dihedral_coeffs := by
  unfold sectionsOf
  dsimp only
  rw [alookup_iteIns_ne _ _ _ _ _ (by decide), alookup_iteIns_ne _ _ _ _ _ (by decide),
    alookup_insBlock_ne _ _ _ _ (by decide), alookup_insBlock_ne _ _ _ _ (by decide),
    alookup_insBlock_ne _ _ _ _ (by decide), alookup_iteIns_ne _ _ _ _ _ (by decide)]
  by_cases hc : d.dihedral_coeffs.isEmpty = true
  · have hce : d.dihedral_coeffs = [] := eq_nil_of_isEmpty hc
    have htail : (alookup (insBlock (insBlock (insBlock (insBlock [] ("masses".toList) d.atomic_masses) ("pair-coeffs".toList) d.pair_coeffs) ("bond-coeffs".toList) d.bond_coeffs) ("angle-coeffs".toList) d.angle_coeffs) ("dihedral-coeffs".toList)) = none := by
      rw [alookup_insBlock_ne _ _ _ _ (by decide), alookup_insBlock_ne _ _ _ _ (by decide),
        alookup_insBlock_ne _ _ _ _ (by decide), alookup_insBlock_ne _ _ _ _ (by decide)]
      rfl
    by_cases hnd : d.dihedrals_data.length > 0
    · rw [if_pos hnd, alookup_insBlock_self, if_pos hc, htail, hce]
      rfl
    · rw [if_neg hnd, htail, hce]
      rfl
  · have hne2 : d.dihedral_coeffs ≠ [] := by
      intro he
      rw [he] at hc
      exact hc rfl
    have hnd : d.dihedrals_data.length > 0 := List.length_pos.mpr (h hne2)
    rw [if_pos hnd, alookup_insBlock_self, if_neg hc]
    rfl

lemma lookup_dihc_dropped (d : FFData) (h : d.dihedrals_data = []) :
    (alookup (sectionsOf d) ("dihedral-coeffs".toList)).getD [] = [] := by
  unfold sectionsOf
  dsimp only
  rw [alookup_iteIns_ne _ _ _ _ _ (by decide), alookup_iteIns_ne _ _ _ _ _ (by decide),
    alookup_insBlock_ne _ _ _ _ (by decide), alookup_insBlock_ne _ _ _ _ (by decide),
    alookup_insBlock_ne _ _ _ _ (by decide), alookup_iteIns_ne _ _ _ _ _ (by decide),
    if_neg (by rw [h]; simp), alookup_insBlock_ne _ _ _ _ (by decide),
    alookup_insBlock_ne _ _ _ _ (by decide), alookup_insBlock_ne _ _ _ _ (by decide),
    alookup_insBlock_ne _ _ _ _ (by decide)]
  rfl

lemma lookup_impc (d : FFData) (h : d.improper_coeffs ≠ [] → d.imdihedrals_data ≠ []) :
    (alookup (sectionsOf d) ("improper-coeffs".toList)).getD [] = rowsDec d.improper_coeffs := by
  unfold sectionsOf
  dsimp only
  rw [alookup_iteIns_ne _ _ _ _ _ (by decide), alookup_iteIns_ne _ _ _ _ _ (by decide),
    alookup_insBlock_ne _ _ _ _ (by decide), alookup_insBlock_ne _ _ _ _ (by decide),
    alookup_insBlock_ne _ _ _ _ (by decide)]
  by_cases hc : d.improper_coeffs.isEmpty = true
  · have hce : d.improper_coeffs = [] := eq_nil_of_isEmpty hc
    have htail : (alookup (if d.dihedrals_data.length > 0 then insBlock (insBlock (insBlock (insBlock (insBlock [] ("masses".toList) d.atomic_masses) ("pair-coeffs".toList) d.pair_coeffs) ("bond-coeffs".toList) d.bond_coeffs) ("angle-coeffs".toList) d.angle_coeffs) ("dihedral-coeffs".toList) d.dihedral_coeffs else insBlock (insBlock (insBlock (insBlock [] ("masses".toList) d.atomic_masses) ("pair-coeffs".toList) d.pair_coeffs) ("bond-coeffs".toList) d.bond_coeffs) ("angle-coeffs".toList) d.angle_coeffs) ("improper-coeffs".toList)) = none := by
      rw [alookup_iteIns_ne _ _ _ _ _ (by decide), alookup_insBlock_ne _ _ _ _ (by decide),
        alookup_insBlock_ne _ _ _ _ (by decide), alookup_insBlock_ne _ _ _ _ (by decide),
        alookup_insBlock_ne _ _ _ _ (by decide)]
      rfl
    by_cases hni : d.imdihedrals_data.length > 0
    · rw [if_pos hni, alookup_insBlock_self, if_pos hc, htail, hce]
      rfl
    · rw [if_neg hni, htail, hce]
      rfl
  · have hne2 : d.improper_coeffs ≠ [] := by
      intro he
      rw [he] at hc
      exact hc rfl
    have hni : d.imdihedrals_data.length > 0 := List.length_pos.mpr (h hne2)
    rw [if_pos hni, alookup_insBlock_self, if_neg hc]
    rfl

lemma lookup_atoms (d : FFData) :
    (alookup (sectionsOf d) ("atoms".toList)).getD [] = rowsDec d.atoms_data := by
  unfold sectionsOf
  dsimp only
  rw [alookup_iteIns_ne _ _ _ _ _ (by decide), alookup_iteIns_ne _ _ _ _ _ (by decide),
    alookup_insBlock_ne _ _ _ _ (by decide), alookup_insBlock_ne _ _ _ _ (by decide),
    alookup_insBlock_self]
  by_cases hr : d.atoms_data.isEmpty = true
  · rw [if_pos hr, alookup_iteIns_ne _ _ _ _ _ (by decide),
      alookup_iteIns_ne _ _ _ _ _ (by decide), alookup_insBlock_ne _ _ _ _ (by decide),
      alookup_insBlock_ne _ _ _ _ (by decide), alookup_insBlock_ne _ _ _ _ (by decide),
      alookup_insBlock_ne _ _ _ _ (by decide), eq_nil_of_isEmpty hr]
    rfl
  · rw [if_neg hr]
    rfl

lemma lookup_bonds (d : FFData) :
    (alookup (sectionsOf d) ("bonds".toList)).getD [] = rowsDec d.bonds_data := by
  unfold sectionsOf
  dsimp only
  rw [alookup_iteIns_ne _ _ _ _ _ (by decide), alookup_iteIns_ne _ _ _ _ _ (by decide),
    alookup_insBlock_ne _ _ _ _ (by decide), alookup_insBlock_self]
  by_cases hr : d.bonds_data.isEmpty = true
  · rw [if_pos hr, alookup_insBlock_ne _ _ _ _ (by decide),
      alookup_iteIns_ne _ _ _ _ _ (by decide), alookup_iteIns_ne _ _ _ _ _ (by decide),
      alookup_insBlock_ne _ _ _ _ (by decide), alookup_insBlock_ne _ _ _ _ (by decide),
      alookup_insBlock_ne _ _ _ _ (by decide), alookup_insBlock_ne _ _ _ _ (by decide),
      eq_nil_of_isEmpty hr]
    rfl
  · rw [if_neg hr]
    rfl

lemma lookup_angles (d : FFData) :
    (alookup (sectionsOf d) ("angles".toList)).getD [] = rowsDec d.angles_data := by
  unfold sectionsOf
  dsimp only
  rw [alookup_iteIns_ne _ _ _ _ _ (by decide), alookup_iteIns_ne _ _ _ _ _ (by decide),
    alookup_insBlock_self]
  by_cases hr : d.angles_data.isEmpty = true
  · rw [if_pos hr, alookup_insBlock_ne _ _ _ _ (by decide),
      alookup_insBlock_ne _ _ _ _ (by decide), alookup_iteIns_ne _ _ _ _ _ (by decide),
      alookup_iteIns_ne _ _ _ _ _ (by decide), alookup_insBlock_ne _ _ _ _ (by decide),
      alookup_insBlock_ne _ _ _ _ (by decide), alookup_insBlock_ne _ _ _ _ (by decide),
      alookup_insBlock_ne _ _ _ _ (by decide), eq_nil_of_isEmpty hr]
    rfl
  · rw [if_neg hr]
    rfl

lemma lookup_dihedrals (d : FFData) :
    (alookup (sectionsOf d) ("dihedrals".toList)).getD [] = rowsDec d.dihedrals_data := by
  unfold sectionsOf
  dsimp only
  rw [alookup_iteIns_ne _ _ _ _ _ (by decide)]
  by_cases hnd : d.dihedrals_data.length > 0
  · rw [if_pos hnd, alookup_insBlock_self,
      if_neg (by rw [isEmpty_false_of_ne (List.length_pos.mp hnd)]; exact Bool.false_ne_true)]
    rfl
  · have hde : d.dihedrals_data = [] := by
      cases hx : d.dihedrals_data with
      | nil => rfl
      | cons a t =>
          exfalso
          apply hnd
          rw [hx]
          simp
    rw [if_neg hnd, alookup_insBlock_ne _ _ _ _ (by decide),
      alookup_insBlock_ne _ _ _ _ (by decide), alookup_insBlock_ne _ _ _ _ (by decide),
      alookup_iteIns_ne _ _ _ _ _ (by decide), alookup_iteIns_ne _ _ _ _ _ (by decide),
      alookup_insBlock_ne _ _ _ _ (by decide), alookup_insBlock_ne _ _ _ _ (by decide),
      alookup_insBlock_ne _ _ _ _ (by decide), alookup_insBlock_ne _ _ _ _ (by decide),
      hde]
    rfl

lemma lookup_impropers (d : FFData) :
    (alookup (sectionsOf d) ("impropers".toList)).getD [] = rowsDec d.imdihedrals_data := by
  unfold sectionsOf
  dsimp only
  by_cases hni : d.imdihedrals_data.length > 0
  · rw [if_pos hni, alookup_insBlock_self,
      if_neg (by rw [isEmpty_false_of_ne (List.length_pos.mp hni)]; exact Bool.false_ne_true)]
    rfl
  · have hie : d.imdihedrals_data = [] := by
      cases hx : d.imdihedrals_data with
      | nil => rfl
      | cons a t =>
          exfalso
          apply hni
          rw [hx]
          simp
    rw [if_neg hni, alookup_iteIns_ne _ _ _ _ _ (by decide),
      alookup_insBlock_ne _ _ _ _ (by decide), alookup_insBlock_ne _ _ _ _ (by decide),
      alookup_insBlock_ne _ _ _ _ (by decide), alookup_iteIns_ne _ _ _ _ _ (by decide),
      alookup_iteIns_ne _ _ _ _ _ (by decide), alookup_insBlock_ne _ _ _ _ (by decide),
      alookup_insBlock_ne _ _ _ _ (by decide), alookup_insBlock_ne _ _ _ _ (by decide),
      alookup_insBlock_ne _ _ _ _ (by decide), hie]
    rfl

/-! ## Value-level round trip of the tables -/

lemma pytrunc_int (n : ℤ) : pytrunc ((n : ℤ) : ℚ) = n := by
  unfold pytrunc
  by_cases h : ((n : ℤ) : ℚ) < 0
  · rw [if_pos h]
    have he : -((n : ℤ) : ℚ) = (((-n : ℤ)) : ℚ) := by push_cast; ring
    rw [he, Int.floor_intCast]
    ring
  · rw [if_neg h, Int.floor_intCast]

/-- int() of a cell value: exact on Python ints, truncating on floats. -/
def valTrunc : Val → ℤ
  | Val.vi n => n
  | Val.vf m e => pytrunc ((Val.vf m e).toRat)

lemma valTrunc_toRat (v : Val) : pytrunc v.toRat = valTrunc v := by
  cases v with
  | vi n => exact pytrunc_int n
  | vf m e => rfl

/-- What from_file rebuilds for a coefficient table, stated on the original
cell values: id through int(), tail values exact. -/
def expectedCoeffs (rows : List (List Val)) : List (ℤ × List ℚ) :=
  rows.map (fun r => (valTrunc (r.getD 0 (Val.vi 0)), (r.drop 1).map Val.toRat))

/-- What from_file rebuilds for the atoms table. -/
def expectedAtoms (rows : List (List Val)) : List (ℤ × ℤ × ℤ × List ℚ) :=
  rows.map (fun r => (valTrunc (r.getD 0 (Val.vi 0)), valTrunc (r.getD 1 (Val.vi 0)),
    valTrunc (r.getD 2 (Val.vi 0)), (r.drop 3).map Val.toRat))

/-- What from_file rebuilds for an all-int topology table. -/
def expectedInts (rows : List (List Val)) : List (List ℤ) :=
  rows.map (fun r => r.map valTrunc)

/-- What from_file rebuilds for the masses table. -/
def expectedMasses (rows : List (List Val)) : List (ℤ × ℚ) :=
  rows.map (fun r => (valTrunc (r.getD 0 (Val.vi 0)), Val.toRat (r.getD 1 (Val.vi 0))))

/-- The whole LammpsFFParsed that a lossless round trip must produce:
every table of the serialized object, cellwise through the value reading
from_file performs. -/
def expectedParsed (d : FFData) : LammpsFFParsed where
  box_size := [[(boxPair d 0).1.toRat, (boxPair d 0).2.toRat],
    [(boxPair d 1).1.toRat, (boxPair d 1).2.toRat],
    [(boxPair d 2).1.toRat, (boxPair d 2).2.toRat]]
  atomic_masses := expectedMasses d.atomic_masses
  pair_coeffs := expectedCoeffs d.pair_coeffs
  bond_coeffs := expectedCoeffs d.bond_coeffs
  angle_coeffs := expectedCoeffs d.angle_coeffs
  dihedral_coeffs := expectedCoeffs d.dihedral_coeffs
  improper_coeffs := expectedCoeffs d.improper_coeffs
  atoms_data := expectedAtoms d.atoms_data
  bonds_data := expectedInts d.bonds_data
  angles_data := expectedInts d.angles_data
  dihedral_data := expectedInts d.dihedrals_data
  imdihedral_data := expectedInts d.imdihedrals_data

lemma cell_trunc (r : List Val) (i : ℕ) :
    pytrunc (Dec.toRat ((r.map parsedDec).getD i ((0 : ℤ), (0 : ℕ)))) =
      valTrunc (r.getD i (Val.vi 0)) := by
  rw [show ((0 : ℤ), (0 : ℕ)) = parsedDec (Val.vi 0) from rfl, List.getD_map, parsedDec_toRat]
  exact valTrunc_toRat _

lemma cell_val (r : List Val) (i : ℕ) :
    Dec.toRat ((r.map parsedDec).getD i ((0 : ℤ), (0 : ℕ))) = Val.toRat (r.getD i (Val.vi 0)) := by
  rw [show ((0 : ℤ), (0 : ℕ)) = parsedDec (Val.vi 0) from rfl, List.getD_map, parsedDec_toRat]

lemma tail_vals (r : List Val) (n : ℕ) :
    ((r.map parsedDec).drop n).map Dec.toRat = (r.drop n).map Val.toRat := by
  rw [← List.map_drop, List.map_map]
  exact List.map_congr_left (fun v _ => parsedDec_toRat v)

lemma row_ints (r : List Val) :
    (r.map parsedDec).map (fun d2 => pytrunc (Dec.toRat d2)) = r.map valTrunc := by
  rw [List.map_map]
  exact List.map_congr_left (fun v _ => by
    show pytrunc (Dec.toRat (parsedDec v)) = valTrunc v
    rw [parsedDec_toRat]
    exact valTrunc_toRat v)

lemma get_coeffs_eval (pd : PState) (k : String) (rows : List (List Val))
    (hlook : (alookup pd.sections k.toList).getD [] = rowsDec rows)
    (hrows : ∀ r ∈ rows, r ≠ []) :
    get_coeffs pd k = some (expectedCoeffs rows) := by
  unfold get_coeffs
  dsimp only
  rw [hlook, if_pos (List.all_eq_true.mpr (fun r2 hr2 => by
    rcases List.mem_map.mp hr2 with ⟨r, hr, rfl⟩
    simp [List.isEmpty_eq_true, hrows r hr]))]
  unfold rowsDec expectedCoeffs
  rw [List.map_map]
  refine congrArg some ?_
  refine List.map_congr_left (fun r _ => ?_)
  show (pytrunc (Dec.toRat ((r.map parsedDec).getD 0 ((0 : ℤ), (0 : ℕ)))),
    ((r.map parsedDec).drop 1).map Dec.toRat) = _
  rw [cell_trunc, tail_vals]

lemma get_non_atoms_eval (pd : PState) (k : String) (rows : List (List Val))
    (hlook : (alookup pd.sections k.toList).getD [] = rowsDec rows) :
    get_non_atoms pd k = expectedInts rows := by
  unfold get_non_atoms
  rw [hlook]
  unfold rowsDec expectedInts
  rw [List.map_map]
  refine List.map_congr_left (fun r _ => ?_)
  show (r.map parsedDec).map (fun d2 => pytrunc (Dec.toRat d2)) = _
  rw [row_ints]

lemma box_eval (p : Val × Val) :
    ([parsedDec p.1, parsedDec p.2]).map Dec.toRat = [p.1.toRat, p.2.toRat] := by
  simp [parsedDec_toRat]

lemma masses_eval (rows : List (List Val)) :
    (rowsDec rows).map (fun r => (pytrunc (Dec.toRat (r.getD 0 ((0 : ℤ), (0 : ℕ)))),
      Dec.toRat (r.getD 1 ((0 : ℤ), (0 : ℕ))))) = expectedMasses rows := by
  unfold rowsDec expectedMasses
  rw [List.map_map]
  refine List.map_congr_left (fun r _ => ?_)
  show (pytrunc (Dec.toRat ((r.map parsedDec).getD 0 ((0 : ℤ), (0 : ℕ)))),
    Dec.toRat ((r.map parsedDec).getD 1 ((0 : ℤ), (0 : ℕ)))) = _
  rw [cell_trunc, cell_val]

lemma atoms_eval (rows : List (List Val)) :
    (rowsDec rows).map (fun r => (pytrunc (Dec.toRat (r.getD 0 ((0 : ℤ), (0 : ℕ)))),
      pytrunc (Dec.toRat (r.getD 1 ((0 : ℤ), (0 : ℕ)))),
      pytrunc (Dec.toRat (r.getD 2 ((0 : ℤ), (0 : ℕ)))),
      (r.drop 3).map Dec.toRat)) = expectedAtoms rows := by
  unfold rowsDec expectedAtoms
  rw [List.map_map]
  refine List.map_congr_left (fun r _ => ?_)
  show (pytrunc (Dec.toRat ((r.map parsedDec).getD 0 ((0 : ℤ), (0 : ℕ)))),
    pytrunc (Dec.toRat ((r.map parsedDec).getD 1 ((0 : ℤ), (0 : ℕ)))),
    pytrunc (Dec.toRat ((r.map parsedDec).getD 2 ((0 : ℤ), (0 : ℕ)))),
    ((r.map parsedDec).drop 3).map Dec.toRat) = _
  rw [cell_trunc, cell_trunc, cell_trunc, tail_vals]

/-- C3: serializing an assembled LammpsForceFieldData with LammpsForceFieldData.__str__
and parsing the text back with from_file reproduces the atom records, the
pair/bond/angle coefficient tables, the masses, the topology tables and the box
extents, each cell at its exact value (ints exactly; floats as exact decimals, so
in particular within any tolerance) — and, as amended, the dihedral and improper
coefficient tables are reproduced ONLY under the extra proviso that their
corresponding data tables are non-empty, because __str__ emits a "Dihedral
Coeffs"/"Improper Coeffs" block only when ndih > 0 / nimdihs > 0; without the
proviso those tables are silently lost (see the counterexample).  Rows must be
non-empty (a blank row serializes to a blank line, which the parser skips), masses
rows carry at least the two indexed cells and atoms rows the three int() cells. -/
theorem C3_theorem (d : FFData)
    (hm2 : ∀ r ∈ d.atomic_masses, 2 ≤ r.length)
    (hmne : d.atomic_masses ≠ [])
    (hp : ∀ r ∈ d.pair_coeffs, r ≠ [])
    (hbc : ∀ r ∈ d.bond_coeffs, r ≠ [])
    (hac : ∀ r ∈ d.angle_coeffs, r ≠ [])
    (hdcne : ∀ r ∈ d.dihedral_coeffs, r ≠ [])
    (hicne : ∀ r ∈ d.improper_coeffs, r ≠ [])
    (hat3 : ∀ r ∈ d.atoms_data, 3 ≤ r.length)
    (hbd : ∀ r ∈ d.bonds_data, r ≠ [])
    (han : ∀ r ∈ d.angles_data, r ≠ [])
    (hdd : ∀ r ∈ d.dihedrals_data, r ≠ [])
    (hid : ∀ r ∈ d.imdihedrals_data, r ≠ [])
    (hdc2 : d.dihedral_coeffs ≠ [] → d.dihedrals_data ≠ [])
    (hic2 : d.improper_coeffs ≠ [] → d.imdihedrals_data ≠ []) :
    lffd_from_file (serializeLines d) = some (expectedParsed d) := by
  have hmn : ∀ r ∈ d.atomic_masses, r ≠ [] := fun r hr he => by
    have h2 := hm2 r hr
    rw [he] at h2
    simp at h2
  have hatne : ∀ r ∈ d.atoms_data, r ≠ [] := fun r hr he => by
    have h2 := hat3 r hr
    rw [he] at h2
    simp at h2
  obtain ⟨cur, cnts, hparse⟩ :=
    parse_serializeLines d hmn hp hbc hac hdcne hicne hatne hbd han hdd hid
  unfold lffd_from_file
  rw [hparse]
  dsimp only
  rw [lookup_masses d hmne]
  have hbx : alookup (boxesOf d) ("x".toList) =
      some [parsedDec (boxPair d 0).1, parsedDec (boxPair d 0).2] := rfl
  have hby : alookup (boxesOf d) ("y".toList) =
      some [parsedDec (boxPair d 1).1, parsedDec (boxPair d 1).2] := rfl
  have hbz : alookup (boxesOf d) ("z".toList) =
      some [parsedDec (boxPair d 2).1, parsedDec (boxPair d 2).2] := rfl
  rw [hbx, hby, hbz]
  dsimp only
  rw [lookup_atoms d]
  have hcond : ((rowsDec d.atomic_masses).all (fun r => decide (2 ≤ r.length)) &&
      (rowsDec d.atoms_data).all (fun r => decide (3 ≤ r.length))) = true := by
    rw [Bool.and_eq_true]
    constructor
    · exact List.all_eq_true.mpr (fun r2 hr2 => by
        rcases List.mem_map.mp hr2 with ⟨r, hr, rfl⟩
        simp only [List.length_map]
        exact decide_eq_true (hm2 r hr))
    · exact List.all_eq_true.mpr (fun r2 hr2 => by
        rcases List.mem_map.mp hr2 with ⟨r, hr, rfl⟩
        simp only [List.length_map]
        exact decide_eq_true (hat3 r hr))
  rw [if_pos hcond]
  rw [get_coeffs_eval ⟨cur, sectionsOf d, cnts, boxesOf d⟩ "pair-coeffs" d.pair_coeffs
      (lookup_pair d) hp,
    get_coeffs_eval ⟨cur, sectionsOf d, cnts, boxesOf d⟩ "bond-coeffs" d.bond_coeffs
      (lookup_bondc d) hbc,
    get_coeffs_eval ⟨cur, sectionsOf d, cnts, boxesOf d⟩ "angle-coeffs" d.angle_coeffs
      (lookup_anglec d) hac,
    get_coeffs_eval ⟨cur, sectionsOf d, cnts, boxesOf d⟩ "dihedral-coeffs" d.dihedral_coeffs
      (lookup_dihc d hdc2) hdcne,
    get_coeffs_eval ⟨cur, sectionsOf d, cnts, boxesOf d⟩ "improper-coeffs" d.improper_coeffs
      (lookup_impc d hic2) hicne]
  dsimp only
  rw [get_non_atoms_eval ⟨cur, sectionsOf d, cnts, boxesOf d⟩ "bonds" d.bonds_data
      (lookup_bonds d),
    get_non_atoms_eval ⟨cur, sectionsOf d, cnts, boxesOf d⟩ "angles" d.angles_data
      (lookup_angles d),
    get_non_atoms_eval ⟨cur, sectionsOf d, cnts, boxesOf d⟩ "dihedrals" d.dihedrals_data
      (lookup_dihedrals d),
    get_non_atoms_eval ⟨cur, sectionsOf d, cnts, boxesOf d⟩ "impropers" d.imdihedrals_data
      (lookup_impropers d),
    box_eval, box_eval, box_eval, masses_eval, atoms_eval]
  rfl

/-- An assembled system with one dihedral coefficient row but no dihedral
instances. -/
def C3ex : FFData where
  box_size := [(Val.vi 0, Val.vi 10), (Val.vi 0, Val.vi 10), (Val.vi 0, Val.vi 10)]
  atomic_masses := [[Val.vi 1, Val.vf 12 0]]
  pair_coeffs := []
  bond_coeffs := []
  angle_coeffs := []
  dihedral_coeffs := [[Val.vi 1, Val.vf 7 0]]
  improper_coeffs := []
  atoms_data := []
  bonds_data := []
  angles_data := []
  dihedrals_data := []
  imdihedrals_data := []

/-- C3 counterexample: an assembled LammpsForceFieldData with a non-empty
dihedral coefficient table but no dihedrals loses the table across the
serialize/parse round trip — __str__ only emits "Dihedral Coeffs" when
ndih > 0, so from_file rebuilds an empty table while the original is not
empty.  The claim's unconditional "same coefficient tables" is false. -/
theorem C3_counterexample :
    ∃ p, lffd_from_file (serializeLines C3ex) = some p ∧
      p.dihedral_coeffs = [] ∧ C3ex.dihedral_coeffs ≠ [] := by
  obtain ⟨cur, cnts, hparse⟩ := parse_serializeLines C3ex (by decide) (by decide) (by decide)
    (by decide) (by decide) (by decide) (by decide) (by decide) (by decide) (by decide) (by decide)
  unfold lffd_from_file
  rw [hparse]
  dsimp only
  rw [lookup_masses C3ex (by decide)]
  have hbx : alookup (boxesOf C3ex) ("x".toList) =
      some [parsedDec (boxPair C3ex 0).1, parsedDec (boxPair C3ex 0).2] := rfl
  have hby : alookup (boxesOf C3ex) ("y".toList) =
      some [parsedDec (boxPair C3ex 1).1, parsedDec (boxPair C3ex 1).2] := rfl
  have hbz : alookup (boxesOf C3ex) ("z".toList) =
      some [parsedDec (boxPair C3ex 2).1, parsedDec (boxPair C3ex 2).2] := rfl
  rw [hbx, hby, hbz]
  dsimp only
  rw [lookup_atoms C3ex, if_pos (by decide)]
  have hdrop : get_coeffs ⟨cur, sectionsOf C3ex, cnts, boxesOf C3ex⟩ "dihedral-coeffs" =
      some [] := by
    unfold get_coeffs
    dsimp only
    rw [lookup_dihc_dropped C3ex rfl]
    rfl
  rw [get_coeffs_eval ⟨cur, sectionsOf C3ex, cnts, boxesOf C3ex⟩ "pair-coeffs" C3ex.pair_coeffs
      (lookup_pair C3ex) (by decide),
    get_coeffs_eval ⟨cur, sectionsOf C3ex, cnts, boxesOf C3ex⟩ "bond-coeffs" C3ex.bond_coeffs
      (lookup_bondc C3ex) (by decide),
    get_coeffs_eval ⟨cur, sectionsOf C3ex, cnts, boxesOf C3ex⟩ "angle-coeffs" C3ex.angle_coeffs
      (lookup_anglec C3ex) (by decide),
    hdrop,
    get_coeffs_eval ⟨cur, sectionsOf C3ex, cnts, boxesOf C3ex⟩ "improper-coeffs"
      C3ex.improper_coeffs (lookup_impc C3ex (fun h => absurd rfl h)) (by decide)]
  dsimp only
  exact ⟨_, rfl, rfl, by decide⟩

/-- A fully populated assembled system for the round-trip witness. -/
def C3W : FFData where
  box_size := [(Val.vi 0, Val.vi 10), (Val.vi 0, Val.vf 105 1), (Val.vf (-5) 1, Val.vi 10)]
  atomic_masses := [[Val.vi 1, Val.vf 12 0]]
  pair_coeffs := [[Val.vi 1, Val.vf 1 1, Val.vf 2 1]]
  bond_coeffs := [[Val.vi 1, Val.vf 3 1]]
  angle_coeffs := [[Val.vi 1, Val.vf 4 1]]
  dihedral_coeffs := [[Val.vi 1, Val.vf 5 1]]
  improper_coeffs := [[Val.vi 1, Val.vf 6 1]]
  atoms_data := [[Val.vi 1, Val.vi 1, Val.vi 1, Val.vf (-3) 1, Val.vi 0, Val.vf 5 1, Val.vi 2]]
  bonds_data := [[Val.vi 1, Val.vi 1, Val.vi 1, Val.vi 2]]
  angles_data := [[Val.vi 1, Val.vi 1, Val.vi 1, Val.vi 2, Val.vi 3]]
  dihedrals_data := [[Val.vi 1, Val.vi 1, Val.vi 1, Val.vi 2, Val.vi 3, Val.vi 4]]
  imdihedrals_data := [[Val.vi 1, Val.vi 1, Val.vi 1, Val.vi 2, Val.vi 3, Val.vi 4]]

/-- C3 witness: the amended round trip at a concrete fully populated system. -/
theorem C3_witness : lffd_from_file (serializeLines C3W) = some (expectedParsed C3W) :=
  C3_theorem C3W (by decide) (by decide) (by decide) (by decide) (by decide) (by decide)
    (by decide) (by decide) (by decide) (by decide) (by decide) (by decide) (by decide)
    (by decide)
